import Mathlib

/-!
Verification development for the parity-zcash full node.

Rust source files under verification/src, zebra-db/src, script/src,
message/src and miner/src are shallowly embedded as executable Lean
definitions: machine u64 values are `Nat` with explicit `2 ^ 64` overflow
checks, signed i64 values are `Int` with explicit range conditions,
fallible code returns `Except`, and the key-value store is a record of
per-column finite maps.  Definitions whose Rust source is not part of the
source tree (only its callers are) carry a doc comment starting with
`Modelled from the spec:` and follow the specification text.
-/

set_option maxRecDepth 10000

/-- Bound of Rust u64 arithmetic: `2 ^ 64`. -/
def u64Lim : Nat := 18446744073709551616

theorem u64Lim_eq : u64Lim = 2 ^ 64 := by decide

/-- Rust `u64::checked_add`: `some (a + b)` unless the sum leaves the u64 range. -/
def checkedAdd64 (a b : Nat) : Option Nat :=
  if a + b < u64Lim then some (a + b) else none

/-- Transaction-level consensus errors (verification/src/error.rs subset used here). -/
inductive TransactionError where
  | Input (index : Nat)
  | InputValueOverflow
  | OutputValueOverflow
  | Overspend
  deriving DecidableEq, Repr

/-- OutPoint = (tx-hash, output-index); hashes are abstracted as `Nat`. -/
structure OutPoint where
  hash : Nat
  index : Nat
  deriving DecidableEq, Repr

/-- Transparent input (chain crate): previous outpoint + script + sequence. -/
structure TransactionInput where
  previous_output : OutPoint
  script_sig : List Nat
  sequence : Nat
  deriving DecidableEq, Repr

/-- Transparent output: value (u64) + script. -/
structure TransactionOutput where
  value : Nat
  script_pubkey : List Nat
  deriving DecidableEq, Repr

/-- Sprout JoinSplit description: the fields used by fee computation, the
store (nullifiers, commitments) and the sighash. -/
structure JoinSplitDescription where
  value_pub_old : Nat
  value_pub_new : Nat
  nullifiers : List Nat
  commitments : List Nat
  deriving DecidableEq, Repr

/-- Sprout JoinSplit bundle. -/
structure JoinSplit where
  descriptions : List JoinSplitDescription
  pubkey : Nat
  deriving DecidableEq, Repr

/-- Sapling spend description (nullifier plus the digest-relevant rest,
abstracted as one `Nat` payload). -/
structure SaplingSpendDescription where
  nullifier : Nat
  payload : Nat
  deriving DecidableEq, Repr

/-- Sapling output description. -/
structure SaplingOutputDescription where
  note_commitment : Nat
  payload : Nat
  deriving DecidableEq, Repr

/-- Sapling bundle: signed balancing value (i64) and the two description lists. -/
structure Sapling where
  balancing_value : Int
  spends : List SaplingSpendDescription
  outputs : List SaplingOutputDescription
  deriving DecidableEq, Repr

/-- Transaction (chain crate): version data, transparent inputs/outputs and
the optional shielded bundles. -/
structure Transaction where
  overwintered : Bool
  version : Int
  version_group_id : Nat
  inputs : List TransactionInput
  outputs : List TransactionOutput
  lock_time : Nat
  expiry_height : Nat
  join_split : Option JoinSplit
  sapling : Option Sapling
  deriving DecidableEq, Repr

/-- Modelled from the spec: `Transaction::is_coinbase` (chain crate, not under
src/) — exactly one input and it references the null outpoint; the null
outpoint is abstracted as hash 0 / index 0 within this embedding. -/
def Transaction.is_coinbase (tx : Transaction) : Bool :=
  match tx.inputs with
  | [i] => i.previous_output.hash == 0 && i.previous_output.index == 0
  | _ => false

/-- Checked sum of a list of u64 values: `none` exactly when the running
u64 accumulator would overflow. -/
def checkedSum64 (acc : Nat) : List Nat → Option Nat
  | [] => some acc
  | v :: vs =>
    match checkedAdd64 acc v with
    | some acc' => checkedSum64 acc' vs
    | none => none

/-- Modelled from the spec: `Transaction::total_spends` (chain crate, not
under src/) — the sum of the transparent output values; the spec requires
every value sum in consensus code to use checked u64 addition, so overflow
yields `none` (mapped to `OutputValueOverflow` by the fee computation). -/
def Transaction.total_spends (tx : Transaction) : Option Nat :=
  checkedSum64 0 (tx.outputs.map (fun o => o.value))

/-- A transaction-output provider: resolves a prevout (given the index of the
spending transaction) to the referenced output, as the Rust
`TransactionOutputProvider` trait does. -/
def OutputStore : Type := OutPoint → Nat → Option TransactionOutput

/-- Accumulation of the transparent input values of `checked_transaction_fee`
(verification/src/fee.rs): a missing prevout at position `i` is
`Input i`, a checked-add overflow is `InputValueOverflow`. -/
def sumInputValues (store : OutputStore) (tx_idx : Nat) :
    List TransactionInput → Nat → Nat → Except TransactionError Nat
  | [], _, acc => Except.ok acc
  | input :: rest, i, acc =>
    match store input.previous_output tx_idx with
    | none => Except.error (TransactionError.Input i)
    | some prevout =>
      match checkedAdd64 acc prevout.value with
      | none => Except.error TransactionError.InputValueOverflow
      | some acc' => sumInputValues store tx_idx rest (i + 1) acc'

/-- Checked accumulation of a value list with a fixed overflow error. -/
def sumChecked (e : TransactionError) (vals : List Nat) (acc : Nat) :
    Except TransactionError Nat :=
  match checkedSum64 acc vals with
  | some s => Except.ok s
  | none => Except.error e

/-- Rust `i64::checked_neg` on an in-range i64: fails exactly at `-(2 ^ 63)`. -/
def checkedNeg64 (v : Int) : Option Int :=
  if v = -(2 ^ 63 : Int) then none else some (-v)

/-- JoinSplit `value_pub_new` amounts of a transaction (empty when there is
no JoinSplit bundle, matching the skipped `if let Some` loop). -/
def jsNewVals (tx : Transaction) : List Nat :=
  match tx.join_split with
  | some js => js.descriptions.map (fun d => d.value_pub_new)
  | none => []

/-- JoinSplit `value_pub_old` amounts of a transaction. -/
def jsOldVals (tx : Transaction) : List Nat :=
  match tx.join_split with
  | some js => js.descriptions.map (fun d => d.value_pub_old)
  | none => []

/-- The positive Sapling balancing value as a singleton u64 summand (empty
when absent or non-positive, matching the skipped `if` branch). -/
def bvPosVals (tx : Transaction) : List Nat :=
  match tx.sapling with
  | some s => if s.balancing_value > 0 then [s.balancing_value.toNat] else []
  | none => []

/-- The negative-balancing-value phase of `checked_transaction_fee`: on a
negative balancing value, `checked_neg` (failing exactly at `i64::MIN`,
error `OutputValueOverflow`) followed by a checked add into spends. -/
def spendsSaplingPhase (tx : Transaction) (spends : Nat) :
    Except TransactionError Nat :=
  match tx.sapling with
  | none => Except.ok spends
  | some s =>
    if s.balancing_value < 0 then
      match checkedNeg64 s.balancing_value with
      | none => Except.error TransactionError.OutputValueOverflow
      | some nv =>
        sumChecked TransactionError.OutputValueOverflow [nv.toNat] spends
    else
      Except.ok spends

/-- The incoming pipeline of `checked_transaction_fee`
(verification/src/fee.rs): resolved transparent prevout values, then
JoinSplit `value_pub_new` amounts, then a positive Sapling balancing value,
all checked u64 adds. -/
def feeIncoming (store : OutputStore) (tx_idx : Nat) (tx : Transaction) :
    Except TransactionError Nat := do
  let incoming ← sumInputValues store tx_idx tx.inputs 0 0
  let incoming ←
    sumChecked TransactionError.InputValueOverflow (jsNewVals tx) incoming
  sumChecked TransactionError.InputValueOverflow (bvPosVals tx) incoming

/-- Lifts the `total_spends` result into the fee computation, a transparent
output overflow being `OutputValueOverflow`. -/
def okOrOutputOverflow (o : Option Nat) : Except TransactionError Nat :=
  match o with
  | some s => Except.ok s
  | none => Except.error TransactionError.OutputValueOverflow

/-- The spends pipeline of `checked_transaction_fee`: `total_spends`, then
JoinSplit `value_pub_old` amounts, then the negated negative Sapling
balancing value, all checked u64 adds. -/
def feeSpends (tx : Transaction) : Except TransactionError Nat := do
  let spends ← okOrOutputOverflow tx.total_spends
  let spends ←
    sumChecked TransactionError.OutputValueOverflow (jsOldVals tx) spends
  spendsSaplingPhase tx spends

/-- Embedding of `checked_transaction_fee` (verification/src/fee.rs).
Incoming accumulates resolved transparent prevout values, JoinSplit
`value_pub_new` amounts and a positive Sapling balancing value; spends
accumulates `total_spends`, JoinSplit `value_pub_old` amounts and the
negation of a negative Sapling balancing value; the fee is the checked
difference, `Overspend` on underflow. -/
def checked_transaction_fee (store : OutputStore) (tx_idx : Nat)
    (tx : Transaction) : Except TransactionError Nat := do
  let incoming ← feeIncoming store tx_idx tx
  let spends ← feeSpends tx
  if incoming < spends then
    Except.error TransactionError.Overspend
  else
    Except.ok (incoming - spends)

/-- Sum of the store-resolved prevout values of an input list, a missing
prevout counting as zero. -/
def resolvedSum (store : OutputStore) (tx_idx : Nat)
    (inputs : List TransactionInput) : Nat :=
  (inputs.map (fun i =>
      match store i.previous_output tx_idx with
      | some o => o.value
      | none => 0)).sum

/-- Mathematical (unbounded) incoming side of the fee formula: resolved
prevout values plus JoinSplit `value_pub_new` plus `max 0 balancing_value`. -/
def specIncoming (store : OutputStore) (tx_idx : Nat) (tx : Transaction) : Nat :=
  resolvedSum store tx_idx tx.inputs
    + (jsNewVals tx).sum
    + (match tx.sapling with
       | some s => (max 0 s.balancing_value).toNat
       | none => 0)

/-- Mathematical (unbounded) spends side of the fee formula: transparent
output values plus JoinSplit `value_pub_old` plus `max 0 (-balancing_value)`. -/
def specSpends (tx : Transaction) : Nat :=
  (tx.outputs.map (fun o => o.value)).sum
    + (jsOldVals tx).sum
    + (match tx.sapling with
       | some s => (max 0 (-s.balancing_value)).toNat
       | none => 0)

/-- The transaction carries a Sapling bundle whose balancing value is
exactly `i64::MIN`, the one value whose `checked_neg` fails. -/
def bvIsMin (tx : Transaction) : Prop :=
  match tx.sapling with
  | some s => s.balancing_value = -(2 ^ 63 : Int)
  | none => False

instance (tx : Transaction) : Decidable (bvIsMin tx) := by
  unfold bvIsMin
  cases tx.sapling with
  | none => exact inferInstanceAs (Decidable False)
  | some s => exact inferInstanceAs (Decidable (_ = _))

theorem checkedSum64_eq (vs : List Nat) (acc : Nat) (hacc : acc < u64Lim) :
    checkedSum64 acc vs =
      if acc + vs.sum < u64Lim then some (acc + vs.sum) else none := by
  induction vs generalizing acc with
  | nil => simp [checkedSum64, hacc]
  | cons v vs ih =>
    have hadd : checkedAdd64 acc v =
        if acc + v < u64Lim then some (acc + v) else none := rfl
    simp only [checkedSum64, hadd, List.sum_cons]
    by_cases h : acc + v < u64Lim
    · rw [if_pos h]
      simp only [ih _ h]
      have he : acc + v + vs.sum = acc + (v + vs.sum) := by omega
      rw [he]
    · rw [if_neg h]
      simp only [if_neg (show ¬acc + (v + vs.sum) < u64Lim by omega)]

theorem sumChecked_eq (e : TransactionError) (vals : List Nat) (acc : Nat)
    (hacc : acc < u64Lim) :
    sumChecked e vals acc =
      if acc + vals.sum < u64Lim then Except.ok (acc + vals.sum)
      else Except.error e := by
  unfold sumChecked
  rw [checkedSum64_eq _ _ hacc]
  by_cases h : acc + vals.sum < u64Lim
  · rw [if_pos h, if_pos h]
  · rw [if_neg h, if_neg h]

theorem sumInputValues_resolved (store : OutputStore) (tx_idx : Nat)
    (inputs : List TransactionInput) (i acc : Nat) (hacc : acc < u64Lim)
    (h : ∀ inp ∈ inputs, (store inp.previous_output tx_idx).isSome) :
    sumInputValues store tx_idx inputs i acc =
      if acc + resolvedSum store tx_idx inputs < u64Lim
      then Except.ok (acc + resolvedSum store tx_idx inputs)
      else Except.error TransactionError.InputValueOverflow := by
  induction inputs generalizing i acc with
  | nil => simp [sumInputValues, resolvedSum, hacc]
  | cons inp rest ih =>
    have hh := h inp (List.mem_cons_self _ _)
    obtain ⟨o, ho⟩ := Option.isSome_iff_exists.mp hh
    have hrest : ∀ p ∈ rest, (store p.previous_output tx_idx).isSome :=
      fun p hp => h p (List.mem_cons_of_mem _ hp)
    have hsum : resolvedSum store tx_idx (inp :: rest) =
        o.value + resolvedSum store tx_idx rest := by
      simp [resolvedSum, ho]
    simp only [sumInputValues, ho, hsum]
    by_cases hov : acc + o.value < u64Lim
    · have hadd : checkedAdd64 acc o.value = some (acc + o.value) := by
        unfold checkedAdd64
        rw [if_pos hov]
      simp only [hadd]
      rw [ih _ _ hov hrest]
      by_cases h2 : acc + o.value + resolvedSum store tx_idx rest < u64Lim
      · rw [if_pos h2, if_pos (by omega)]
        congr 1
        omega
      · rw [if_neg h2, if_neg (by omega)]
    · have hadd : checkedAdd64 acc o.value = none := by
        unfold checkedAdd64
        rw [if_neg hov]
      simp only [hadd]
      rw [if_neg (by omega)]

theorem sumInputValues_missing (store : OutputStore) (tx_idx : Nat)
    (pre : List TransactionInput) (inp : TransactionInput)
    (post : List TransactionInput) (i acc : Nat)
    (hpre : ∀ p ∈ pre, (store p.previous_output tx_idx).isSome)
    (hmiss : store inp.previous_output tx_idx = none)
    (hnof : acc + resolvedSum store tx_idx pre < u64Lim) :
    sumInputValues store tx_idx (pre ++ inp :: post) i acc =
      Except.error (TransactionError.Input (i + pre.length)) := by
  induction pre generalizing i acc with
  | nil =>
    simp [sumInputValues, hmiss]
  | cons p rest ih =>
    have hh := hpre p (List.mem_cons_self _ _)
    obtain ⟨o, ho⟩ := Option.isSome_iff_exists.mp hh
    have hrest : ∀ q ∈ rest, (store q.previous_output tx_idx).isSome :=
      fun q hq => hpre q (List.mem_cons_of_mem _ hq)
    have hsum : resolvedSum store tx_idx (p :: rest) =
        o.value + resolvedSum store tx_idx rest := by
      simp [resolvedSum, ho]
    rw [hsum] at hnof
    have hadd : checkedAdd64 acc o.value = some (acc + o.value) := by
      unfold checkedAdd64
      rw [if_pos (by omega)]
    simp only [List.cons_append, sumInputValues, ho, hadd, List.append_eq]
    rw [ih _ _ hrest (by omega)]
    have hlen : i + 1 + rest.length = i + (p :: rest).length := by
      simp only [List.length_cons]
      omega
    rw [hlen]

theorem exceptBind_ok {α β ε : Type} (a : α) (f : α → Except ε β) :
    (Except.ok a : Except ε α) >>= f = f a := rfl

theorem exceptBind_error {α β ε : Type} (e : ε) (f : α → Except ε β) :
    (Except.error e : Except ε α) >>= f = (Except.error e : Except ε β) := rfl

theorem zero_lt_u64Lim : 0 < u64Lim := by decide

/-- The Sapling contribution to the spends side as a natural number. -/
def bvNegNat (tx : Transaction) : Nat :=
  match tx.sapling with
  | some s => (max 0 (-s.balancing_value)).toNat
  | none => 0

theorem specIncoming_parts (store : OutputStore) (tx_idx : Nat)
    (tx : Transaction) :
    specIncoming store tx_idx tx =
      resolvedSum store tx_idx tx.inputs + (jsNewVals tx).sum
        + (bvPosVals tx).sum := by
  unfold specIncoming bvPosVals
  cases hs : tx.sapling with
  | none => simp
  | some s =>
    by_cases hpos : s.balancing_value > 0
    · simp only [if_pos hpos, List.sum_cons, List.sum_nil]
      have hmax : max 0 s.balancing_value = s.balancing_value := by omega
      rw [hmax]
      omega
    · simp only [if_neg hpos, List.sum_nil]
      have hmax : max 0 s.balancing_value = 0 := by omega
      rw [hmax]
      simp

theorem specSpends_parts (tx : Transaction) :
    specSpends tx =
      (tx.outputs.map (fun o => o.value)).sum + (jsOldVals tx).sum
        + bvNegNat tx := rfl

theorem feeIncoming_eq (store : OutputStore) (tx_idx : Nat) (tx : Transaction)
    (hres : ∀ inp ∈ tx.inputs, (store inp.previous_output tx_idx).isSome) :
    feeIncoming store tx_idx tx =
      if u64Lim ≤ specIncoming store tx_idx tx then
        Except.error TransactionError.InputValueOverflow
      else Except.ok (specIncoming store tx_idx tx) := by
  have hp := specIncoming_parts store tx_idx tx
  unfold feeIncoming
  rw [sumInputValues_resolved store tx_idx tx.inputs 0 0 zero_lt_u64Lim hres]
  simp only [Nat.zero_add]
  by_cases h1 : resolvedSum store tx_idx tx.inputs < u64Lim
  · rw [if_pos h1, exceptBind_ok, sumChecked_eq _ _ _ h1]
    by_cases h2 : resolvedSum store tx_idx tx.inputs + (jsNewVals tx).sum < u64Lim
    · rw [if_pos h2, exceptBind_ok, sumChecked_eq _ _ _ h2]
      by_cases h3 : resolvedSum store tx_idx tx.inputs + (jsNewVals tx).sum
          + (bvPosVals tx).sum < u64Lim
      · rw [if_pos h3, if_neg (show ¬u64Lim ≤ specIncoming store tx_idx tx by omega)]
        rw [hp]
      · rw [if_neg h3, if_pos (show u64Lim ≤ specIncoming store tx_idx tx by omega)]
    · rw [if_neg h2, exceptBind_error,
        if_pos (show u64Lim ≤ specIncoming store tx_idx tx by omega)]
  · rw [if_neg h1, exceptBind_error,
      if_pos (show u64Lim ≤ specIncoming store tx_idx tx by omega)]

theorem feeSpends_eq (tx : Transaction)
    (hbv : ∀ s, tx.sapling = some s →
      -(2 ^ 63 : Int) ≤ s.balancing_value ∧ s.balancing_value < 2 ^ 63) :
    feeSpends tx =
      if bvIsMin tx ∨ u64Lim ≤ specSpends tx then
        Except.error TransactionError.OutputValueOverflow
      else Except.ok (specSpends tx) := by
  have hp := specSpends_parts tx
  have hts : tx.total_spends =
      if (tx.outputs.map (fun o => o.value)).sum < u64Lim
      then some ((tx.outputs.map (fun o => o.value)).sum) else none := by
    unfold Transaction.total_spends
    rw [checkedSum64_eq _ _ zero_lt_u64Lim]
    simp
  unfold feeSpends
  rw [hts]
  by_cases h4 : (tx.outputs.map (fun o => o.value)).sum < u64Lim
  · rw [if_pos h4]
    simp only [okOrOutputOverflow, exceptBind_ok]
    rw [sumChecked_eq _ _ _ h4]
    by_cases h5 : (tx.outputs.map (fun o => o.value)).sum + (jsOldVals tx).sum < u64Lim
    · rw [if_pos h5, exceptBind_ok]
      cases hs : tx.sapling with
      | none =>
        have hbm : ¬bvIsMin tx := by
          unfold bvIsMin
          rw [hs]
          exact not_false
        have hbn : bvNegNat tx = 0 := by
          simp only [bvNegNat, hs]
        simp only [spendsSaplingPhase, hs]
        rw [if_neg (show ¬(bvIsMin tx ∨ u64Lim ≤ specSpends tx) by
          simp only [hbm, false_or]
          rw [hp, hbn]
          omega)]
        rw [hp, hbn]
        rfl
      | some s =>
        obtain ⟨hlo, hhi⟩ := hbv s hs
        simp only [spendsSaplingPhase, hs]
        by_cases hneg : s.balancing_value < 0
        · rw [if_pos hneg]
          by_cases hmin : s.balancing_value = -(2 ^ 63 : Int)
          · have hcn : checkedNeg64 s.balancing_value = none := by
              unfold checkedNeg64
              rw [if_pos hmin]
            simp only [hcn]
            have hbm : bvIsMin tx := by
              unfold bvIsMin
              rw [hs]
              exact hmin
            rw [if_pos (Or.inl hbm)]
          · have hcn : checkedNeg64 s.balancing_value = some (-s.balancing_value) := by
              unfold checkedNeg64
              rw [if_neg hmin]
            simp only [hcn]
            rw [sumChecked_eq _ _ _ h5]
            have hbm : ¬bvIsMin tx := by
              unfold bvIsMin
              rw [hs]
              exact hmin
            have hbn : bvNegNat tx = (-s.balancing_value).toNat := by
              simp only [bvNegNat, hs]
              omega
            simp only [List.sum_cons, List.sum_nil]
            by_cases h6 : (tx.outputs.map (fun o => o.value)).sum + (jsOldVals tx).sum
                + ((-s.balancing_value).toNat + 0) < u64Lim
            · rw [if_pos h6]
              rw [if_neg (show ¬(bvIsMin tx ∨ u64Lim ≤ specSpends tx) by
                simp only [hbm, false_or]
                rw [hp, hbn]
                omega)]
              rw [hp, hbn]
              rfl
            · rw [if_neg h6]
              rw [if_pos (Or.inr (show u64Lim ≤ specSpends tx by
                rw [hp, hbn]
                omega))]
        · rw [if_neg hneg]
          have hbm : ¬bvIsMin tx := by
            unfold bvIsMin
            rw [hs]
            omega
          have hbn : bvNegNat tx = 0 := by
            simp only [bvNegNat, hs]
            omega
          rw [if_neg (show ¬(bvIsMin tx ∨ u64Lim ≤ specSpends tx) by
            simp only [hbm, false_or]
            rw [hp, hbn]
            omega)]
          rw [hp, hbn]
          rfl
    · rw [if_neg h5, exceptBind_error]
      rw [if_pos (Or.inr (show u64Lim ≤ specSpends tx by rw [hp]; omega))]
  · rw [if_neg h4]
    simp only [okOrOutputOverflow, exceptBind_error]
    rw [if_pos (Or.inr (show u64Lim ≤ specSpends tx by rw [hp]; omega))]

/-- Full characterization of `checked_transaction_fee` when every transparent
prevout resolves and the balancing value is an in-range i64: an incoming
overflow is `InputValueOverflow`; then a balancing value of `i64::MIN` or a
spends overflow is `OutputValueOverflow`; then `incoming < spends` is
`Overspend`; otherwise the fee is `incoming - spends`. -/
theorem fee_spec (store : OutputStore) (tx_idx : Nat) (tx : Transaction)
    (hres : ∀ inp ∈ tx.inputs, (store inp.previous_output tx_idx).isSome)
    (hbv : ∀ s, tx.sapling = some s →
      -(2 ^ 63 : Int) ≤ s.balancing_value ∧ s.balancing_value < 2 ^ 63) :
    checked_transaction_fee store tx_idx tx =
      if u64Lim ≤ specIncoming store tx_idx tx then
        Except.error TransactionError.InputValueOverflow
      else if bvIsMin tx ∨ u64Lim ≤ specSpends tx then
        Except.error TransactionError.OutputValueOverflow
      else if specIncoming store tx_idx tx < specSpends tx then
        Except.error TransactionError.Overspend
      else
        Except.ok (specIncoming store tx_idx tx - specSpends tx) := by
  unfold checked_transaction_fee
  rw [feeIncoming_eq store tx_idx tx hres]
  by_cases h1 : u64Lim ≤ specIncoming store tx_idx tx
  · rw [if_pos h1, exceptBind_error, if_pos h1]
  · rw [if_neg h1, exceptBind_ok, feeSpends_eq tx hbv, if_neg h1]
    by_cases h2 : bvIsMin tx ∨ u64Lim ≤ specSpends tx
    · rw [if_pos h2, exceptBind_error, if_pos h2]
    · rw [if_neg h2, exceptBind_ok, if_neg h2]

/-- Rust `usize::max_value()` on a 64-bit platform. -/
def usizeMax : Nat := u64Lim - 1

/-- The exact (unbounded) sum of the resolved prevout values used by the
acceptance-stage overspend check, a missing prevout counting as zero. -/
def exactAvailable (store : OutputStore) (tx : Transaction) : Nat :=
  resolvedSum store usizeMax tx.inputs

/-- Embedding of `TransactionOverspent::check`
(verification/src/accept_transaction.rs): coinbase transactions pass; the
available value is accumulated with `Iterator::sum::<u64>()`, whose `+` is
unchecked and wraps modulo `2 ^ 64` in release builds (modelled by the
wrapping fold); `total_spends` is the spec-modelled checked sum (its
overflow case cannot occur at the inputs studied here); an available value
below the spends is `Overspend`. -/
def transaction_overspent_check (store : OutputStore) (tx : Transaction) :
    Except TransactionError Unit :=
  if tx.is_coinbase then Except.ok ()
  else
    let available :=
      (tx.inputs.map (fun i =>
          match store i.previous_output usizeMax with
          | some o => o.value
          | none => 0)).foldl (fun a v => (a + v) % u64Lim) 0
    match tx.total_spends with
    | none => Except.error TransactionError.OutputValueOverflow
    | some spends =>
      if spends > available then Except.error TransactionError.Overspend
      else Except.ok ()

/-- Store used in the fee witnesses: a single canonical output of value 7
at outpoint (1, 0). -/
def c1Store : OutputStore := fun p _ =>
  if p = OutPoint.mk 1 0 then some (TransactionOutput.mk 7 []) else none

/-- Transaction spending outpoint (1, 0) into one transparent output of 3. -/
def c1Tx : Transaction :=
  { overwintered := false
    version := 1
    version_group_id := 0
    inputs := [TransactionInput.mk (OutPoint.mk 1 0) [] 0]
    outputs := [TransactionOutput.mk 3 []]
    lock_time := 0
    expiry_height := 0
    join_split := none
    sapling := none }

/-- Transaction whose Sapling balancing value is exactly `i64::MIN`. -/
def c1CexTx : Transaction :=
  { overwintered := true
    version := 4
    version_group_id := 0
    inputs := []
    outputs := []
    lock_time := 0
    expiry_height := 0
    join_split := none
    sapling := some (Sapling.mk (-(2 ^ 63 : Int)) [] []) }

/-- Transaction with a single input that no store entry resolves. -/
def c2CexTx : Transaction :=
  { overwintered := false
    version := 1
    version_group_id := 0
    inputs := [TransactionInput.mk (OutPoint.mk 5 0) [] 0]
    outputs := []
    lock_time := 0
    expiry_height := 0
    join_split := none
    sapling := none }

/-- Store resolving outpoints (10, 0) and (11, 0) to two huge prevout
values whose u64 sum wraps. -/
def c6Store : OutputStore := fun p _ =>
  if p = OutPoint.mk 10 0 then some (TransactionOutput.mk (2 ^ 63) []) else
  if p = OutPoint.mk 11 0 then some (TransactionOutput.mk (2 ^ 63 + 500) []) else
  none

/-- Transaction spending the two huge prevouts into one output of 1000. -/
def c6Tx : Transaction :=
  { overwintered := false
    version := 1
    version_group_id := 0
    inputs := [TransactionInput.mk (OutPoint.mk 10 0) [] 0,
               TransactionInput.mk (OutPoint.mk 11 0) [] 0]
    outputs := [TransactionOutput.mk 1000 []]
    lock_time := 0
    expiry_height := 0
    join_split := none
    sapling := none }

example : checked_transaction_fee c1Store 0 c1Tx = Except.ok 4 := by rfl

example : checked_transaction_fee (fun _ _ => none) 0 c1CexTx =
    Except.error TransactionError.OutputValueOverflow := by rfl

/-- Claim C1, amended: for a store resolving all transparent prevouts and an
in-range i64 balancing value, `checked_transaction_fee` returns
`Ok (incoming - spends)` with incoming and spends as in the claim; an
incoming overflow is `InputValueOverflow`, a balancing value of `i64::MIN`
(whose i64 negation overflows) or a spends overflow is
`OutputValueOverflow`, and otherwise `incoming < spends` is `Overspend`. -/
theorem C1_fee_characterization (store : OutputStore) (tx_idx : Nat)
    (tx : Transaction)
    (hres : ∀ inp ∈ tx.inputs, (store inp.previous_output tx_idx).isSome)
    (hbv : ∀ s, tx.sapling = some s →
      -(2 ^ 63 : Int) ≤ s.balancing_value ∧ s.balancing_value < 2 ^ 63) :
    checked_transaction_fee store tx_idx tx =
      if u64Lim ≤ specIncoming store tx_idx tx then
        Except.error TransactionError.InputValueOverflow
      else if bvIsMin tx ∨ u64Lim ≤ specSpends tx then
        Except.error TransactionError.OutputValueOverflow
      else if specIncoming store tx_idx tx < specSpends tx then
        Except.error TransactionError.Overspend
      else
        Except.ok (specIncoming store tx_idx tx - specSpends tx) :=
  fee_spec store tx_idx tx hres hbv

/-- Witness for C1: a one-input one-output transaction over a concrete
store, with all hypotheses discharged at the concrete input. -/
theorem C1_fee_characterization_witness :
    checked_transaction_fee c1Store 0 c1Tx =
      if u64Lim ≤ specIncoming c1Store 0 c1Tx then
        Except.error TransactionError.InputValueOverflow
      else if bvIsMin c1Tx ∨ u64Lim ≤ specSpends c1Tx then
        Except.error TransactionError.OutputValueOverflow
      else if specIncoming c1Store 0 c1Tx < specSpends c1Tx then
        Except.error TransactionError.Overspend
      else
        Except.ok (specIncoming c1Store 0 c1Tx - specSpends c1Tx) :=
  C1_fee_characterization c1Store 0 c1Tx (by decide) (fun _ hs => nomatch hs)

/-- Counterexample for C1 as frozen: at a transaction whose only value
movement is a Sapling balancing value of `i64::MIN`, the claim formula has
incoming (0) below spends (`2 ^ 63`) and so predicts `Overspend`, but the
code returns `OutputValueOverflow` from the failing `checked_neg`. -/
theorem C1_counterexample :
    checked_transaction_fee (fun _ _ => none) 0 c1CexTx =
        Except.error TransactionError.OutputValueOverflow ∧
    specIncoming (fun _ _ => none) 0 c1CexTx < specSpends c1CexTx ∧
    checked_transaction_fee (fun _ _ => none) 0 c1CexTx ≠
        Except.error TransactionError.Overspend := by
  refine ⟨rfl, by decide, ?_⟩
  intro h
  rw [show checked_transaction_fee (fun _ _ => none) 0 c1CexTx =
      Except.error TransactionError.OutputValueOverflow from rfl] at h
  injection h with h2
  exact absurd h2 (by decide)

/-- Claim C2, amended: when every prevout resolves, the checked arithmetic
does not overflow and spends do not exceed incoming, the fee is
`Ok (incoming - spends)`; when some prevout does not resolve (and the
values before it do not overflow), the result is `Input i` for the first
non-resolving input index `i` — not `Overspend`. -/
theorem C2_fee_missing_input :
    (∀ (store : OutputStore) (tx_idx : Nat) (tx : Transaction),
      (∀ inp ∈ tx.inputs, (store inp.previous_output tx_idx).isSome) →
      (∀ s, tx.sapling = some s →
        -(2 ^ 63 : Int) ≤ s.balancing_value ∧ s.balancing_value < 2 ^ 63) →
      ¬bvIsMin tx →
      specIncoming store tx_idx tx < u64Lim →
      specSpends tx < u64Lim →
      specSpends tx ≤ specIncoming store tx_idx tx →
      checked_transaction_fee store tx_idx tx =
        Except.ok (specIncoming store tx_idx tx - specSpends tx)) ∧
    (∀ (store : OutputStore) (tx_idx : Nat) (tx : Transaction)
      (pre : List TransactionInput) (inp : TransactionInput)
      (post : List TransactionInput),
      tx.inputs = pre ++ inp :: post →
      (∀ p ∈ pre, (store p.previous_output tx_idx).isSome) →
      store inp.previous_output tx_idx = none →
      resolvedSum store tx_idx pre < u64Lim →
      checked_transaction_fee store tx_idx tx =
        Except.error (TransactionError.Input pre.length)) := by
  constructor
  · intro store tx_idx tx hres hbv hbm hI hS hle
    rw [fee_spec store tx_idx tx hres hbv]
    rw [if_neg (by omega)]
    rw [if_neg (by simp only [hbm, false_or]; omega)]
    rw [if_neg (by omega)]
  · intro store tx_idx tx pre inp post hinputs hpre hmiss hnof
    have hfi : feeIncoming store tx_idx tx =
        Except.error (TransactionError.Input pre.length) := by
      unfold feeIncoming
      rw [hinputs,
        sumInputValues_missing store tx_idx pre inp post 0 0 hpre hmiss
          (by omega)]
      rw [exceptBind_error]
      simp only [Nat.zero_add]
    unfold checked_transaction_fee
    rw [hfi, exceptBind_error]

/-- Witness for C2: both parts at concrete inputs — a resolving store gives
the fee 7 - 3 = 4, and an empty store on a one-input transaction gives
`Input 0`. -/
theorem C2_fee_missing_input_witness :
    checked_transaction_fee c1Store 0 c1Tx =
      Except.ok (specIncoming c1Store 0 c1Tx - specSpends c1Tx) ∧
    checked_transaction_fee (fun _ _ => none) 0 c2CexTx =
      Except.error (TransactionError.Input 0) := by
  constructor
  · exact C2_fee_missing_input.1 c1Store 0 c1Tx (by decide)
      (fun _ hs => nomatch hs) (by decide) (by decide) (by decide) (by decide)
  · exact C2_fee_missing_input.2 (fun _ _ => none) 0 c2CexTx []
      (TransactionInput.mk (OutPoint.mk 5 0) [] 0) [] rfl (by decide) rfl
      (by decide)

/-- Counterexample for C2 as frozen: a transaction with a prevout that does
not resolve yields `Input 0`, not the `Overspend` the claim demands. -/
theorem C2_counterexample :
    checked_transaction_fee (fun _ _ => none) 0 c2CexTx =
        Except.error (TransactionError.Input 0) ∧
    checked_transaction_fee (fun _ _ => none) 0 c2CexTx ≠
        Except.error TransactionError.Overspend := by
  refine ⟨rfl, ?_⟩
  intro h
  rw [show checked_transaction_fee (fun _ _ => none) 0 c2CexTx =
      Except.error (TransactionError.Input 0) from rfl] at h
  injection h with h2
  exact absurd h2 (by decide)

/-- Claim C6, code bug: the acceptance-stage overspend check accumulates the
available input value with unchecked wrapping u64 addition. At two resolved
prevouts of `2 ^ 63` and `2 ^ 63 + 500` spent into an output of 1000, the
accumulator wraps to 500 and the check reports `Overspend`, although the
exact available value `2 ^ 64 + 500` covers the spends — the accumulator
wrapped modulo `2 ^ 64` instead of surfacing an overflow error. -/
theorem C6_overspent_check_wraps :
    transaction_overspent_check c6Store c6Tx =
        Except.error TransactionError.Overspend ∧
    c6Tx.total_spends = some 1000 ∧
    1000 ≤ exactAvailable c6Store c6Tx :=
  ⟨rfl, rfl, by decide⟩

/-- Epoch tag: Sprout and Sapling nullifiers/commitments are disjoint
namespaces (zebra-storage lib.rs). -/
inductive EpochTag where
  | Sprout
  | Sapling
  deriving DecidableEq, Repr

/-- Block header fields used by the chain store: parent hash and the
final-Sapling-root commitment. -/
@[ext]
structure BlockHeader where
  previous_header_hash : Nat
  final_sapling_root : Nat
  deriving DecidableEq, Repr

/-- Header paired with its (carried, not recomputed) hash. -/
@[ext]
structure IndexedBlockHeader where
  hash : Nat
  raw : BlockHeader
  deriving DecidableEq, Repr

/-- Transaction paired with its hash. -/
@[ext]
structure IndexedTransaction where
  hash : Nat
  raw : Transaction
  deriving DecidableEq, Repr

/-- Block paired with hashes. -/
@[ext]
structure IndexedBlock where
  header : IndexedBlockHeader
  transactions : List IndexedTransaction
  deriving DecidableEq, Repr

def IndexedBlock.hash (b : IndexedBlock) : Nat := b.header.hash

/-- Modelled from the spec: `TransactionMeta` (zebra-storage
transaction_meta.rs, not under src/) — coinbase flag, inclusion height and
a per-output spend bit-set. -/
@[ext]
structure TransactionMeta where
  coinbase : Bool
  height : Nat
  spent : List Bool
  deriving DecidableEq, Repr

def TransactionMeta.new (height outputs : Nat) : TransactionMeta :=
  ⟨false, height, List.replicate outputs false⟩

def TransactionMeta.new_coinbase (height outputs : Nat) : TransactionMeta :=
  ⟨true, height, List.replicate outputs false⟩

/-- Marks output `idx` spent (`List.set` is the identity out of range). -/
def TransactionMeta.denote_used (m : TransactionMeta) (idx : Nat) :
    TransactionMeta :=
  { m with spent := m.spent.set idx true }

/-- Marks output `idx` unspent. -/
def TransactionMeta.denote_unused (m : TransactionMeta) (idx : Nat) :
    TransactionMeta :=
  { m with spent := m.spent.set idx false }

def TransactionMeta.is_spent (m : TransactionMeta) (idx : Nat) : Option Bool :=
  m.spent.get? idx

/-- Modelled from the spec: an incremental commitment tree (zebra-storage
tree_state.rs, not under src/) is abstracted as its list of appended
commitments; the Merkle summarization (a pure BLAKE2-family primitive the
spec puts out of scope) is an injective pairing fold. -/
@[ext]
structure TreeState where
  leaves : List Nat
  deriving DecidableEq, Repr

def TreeState.new : TreeState := ⟨[]⟩

def TreeState.append (t : TreeState) (c : Nat) : TreeState := ⟨t.leaves ++ [c]⟩

def TreeState.root (t : TreeState) : Nat :=
  t.leaves.foldr (fun c a => Nat.pair c a + 1) 0

/-- The column-partitioned key-value store of the chain database
(zebra-db block_chain_db.rs): one finite map per column, the best-block
pointer keys of the meta column held separately. -/
@[ext]
structure DBState where
  blockHeaders : Nat → Option BlockHeader
  blockTransactions : Nat → Option (List Nat)
  transactions : Nat → Option Transaction
  blockHashes : Nat → Option Nat
  blockNumbers : Nat → Option Nat
  transactionsMeta : Nat → Option TransactionMeta
  nullifiers : EpochTag → Nat → Bool
  treeStates : EpochTag → Nat → Option TreeState
  sproutBlockRoots : Nat → Option Nat
  metaBestHash : Option Nat
  metaBestNumber : Option Nat

/-- In-memory best block pointer; the default is hash zero at height 0. -/
@[ext]
structure BestBlock where
  hash : Nat
  number : Nat
  deriving DecidableEq, Repr

/-- The chain database: in-memory best pointer plus the key-value state. -/
@[ext]
structure BCDB where
  best : BestBlock
  db : DBState

/-- Key-value pairs of a database transaction (kv/transaction.rs). -/
inductive KeyValue where
  | Header (hash : Nat) (header : BlockHeader)
  | BlockTxs (hash : Nat) (txs : List Nat)
  | Tx (hash : Nat) (tx : Transaction)
  | BlockHash (number : Nat) (hash : Nat)
  | BlockNumber (hash : Nat) (number : Nat)
  | TxMeta (hash : Nat) (meta : TransactionMeta)
  | Nullifier (tag : EpochTag) (hash : Nat)
  | TreeSt (tag : EpochTag) (root : Nat) (state : TreeState)
  | SproutBlockRoot (hash : Nat) (root : Nat)
  | MetaBestHash (hash : Nat)
  | MetaBestNumber (number : Nat)
  deriving DecidableEq

/-- Deletion keys of a database transaction. -/
inductive DBKey where
  | Header (hash : Nat)
  | BlockTxs (hash : Nat)
  | Tx (hash : Nat)
  | BlockHash (number : Nat)
  | BlockNumber (hash : Nat)
  | TxMeta (hash : Nat)
  | Nullifier (tag : EpochTag) (hash : Nat)
  deriving DecidableEq

/-- One operation of a database transaction, applied in order by `write`. -/
inductive DBOp where
  | ins (kv : KeyValue)
  | del (k : DBKey)
  deriving DecidableEq

/-- Point update of a finite map. -/
def upd {α : Type} (f : Nat → Option α) (k : Nat) (v : Option α) :
    Nat → Option α :=
  fun x => if x = k then v else f x

/-- Point update of a tagged boolean set. -/
def updTag (f : EpochTag → Nat → Bool) (tag : EpochTag) (k : Nat) (v : Bool) :
    EpochTag → Nat → Bool :=
  fun t x => if t = tag ∧ x = k then v else f t x

/-- Point update of a tagged finite map. -/
def updTagMap (f : EpochTag → Nat → Option TreeState) (tag : EpochTag)
    (k : Nat) (v : Option TreeState) : EpochTag → Nat → Option TreeState :=
  fun t x => if t = tag ∧ x = k then v else f t x

/-- Applies one operation to the store state. -/
def applyOp (s : DBState) : DBOp → DBState
  | .ins (.Header h hd) => { s with blockHeaders := upd s.blockHeaders h (some hd) }
  | .ins (.BlockTxs h txs) =>
    { s with blockTransactions := upd s.blockTransactions h (some txs) }
  | .ins (.Tx h tx) => { s with transactions := upd s.transactions h (some tx) }
  | .ins (.BlockHash n h) => { s with blockHashes := upd s.blockHashes n (some h) }
  | .ins (.BlockNumber h n) => { s with blockNumbers := upd s.blockNumbers h (some n) }
  | .ins (.TxMeta h m) =>
    { s with transactionsMeta := upd s.transactionsMeta h (some m) }
  | .ins (.Nullifier tag h) => { s with nullifiers := updTag s.nullifiers tag h true }
  | .ins (.TreeSt tag r t) => { s with treeStates := updTagMap s.treeStates tag r (some t) }
  | .ins (.SproutBlockRoot h r) =>
    { s with sproutBlockRoots := upd s.sproutBlockRoots h (some r) }
  | .ins (.MetaBestHash h) => { s with metaBestHash := some h }
  | .ins (.MetaBestNumber n) => { s with metaBestNumber := some n }
  | .del (.Header h) => { s with blockHeaders := upd s.blockHeaders h none }
  | .del (.BlockTxs h) => { s with blockTransactions := upd s.blockTransactions h none }
  | .del (.Tx h) => { s with transactions := upd s.transactions h none }
  | .del (.BlockHash n) => { s with blockHashes := upd s.blockHashes n none }
  | .del (.BlockNumber h) => { s with blockNumbers := upd s.blockNumbers h none }
  | .del (.TxMeta h) => { s with transactionsMeta := upd s.transactionsMeta h none }
  | .del (.Nullifier tag h) => { s with nullifiers := updTag s.nullifiers tag h false }

/-- Applies a database transaction in operation order (kv `write`). -/
def writeOps (s : DBState) (ops : List DBOp) : DBState := ops.foldl applyOp s

/-- Store errors (zebra-storage error.rs); `Inconsistent` models the
`expect` / `assert` panics of the source on corrupted state. -/
inductive DbError where
  | UnknownParent
  | CannotCanonize
  | CannotDecanonize
  | AncientFork
  | Inconsistent
  deriving DecidableEq, Repr

namespace BCDB

/-- BlockProvider `contains_block` for a hash reference. -/
def contains_block (s : BCDB) (h : Nat) : Bool := (s.db.blockHeaders h).isSome

def block_header (s : BCDB) (h : Nat) : Option IndexedBlockHeader :=
  (s.db.blockHeaders h).map (fun raw => ⟨h, raw⟩)

def block_number (s : BCDB) (h : Nat) : Option Nat := s.db.blockNumbers h

def block_hash (s : BCDB) (n : Nat) : Option Nat := s.db.blockHashes n

def block_transaction_hashes (s : BCDB) (h : Nat) : List Nat :=
  (s.db.blockTransactions h).getD []

def block_transactions (s : BCDB) (h : Nat) : List IndexedTransaction :=
  (block_transaction_hashes s h).filterMap (fun th =>
    (s.db.transactions th).map (fun raw => ⟨th, raw⟩))

def block (s : BCDB) (h : Nat) : Option IndexedBlock :=
  (block_header s h).map (fun hdr => ⟨hdr, block_transactions s h⟩)

def transaction_meta (s : BCDB) (h : Nat) : Option TransactionMeta :=
  s.db.transactionsMeta h

/-- NullifierTracker `contains_nullifier` over an epoch-tagged reference. -/
def contains_nullifier (s : BCDB) (tag : EpochTag) (n : Nat) : Bool :=
  s.db.nullifiers tag n

def sprout_block_root (s : BCDB) (h : Nat) : Option Nat :=
  s.db.sproutBlockRoots h

def sapling_block_root (s : BCDB) (h : Nat) : Option Nat :=
  (block_header s h).map (fun hdr => hdr.raw.final_sapling_root)

def sprout_tree_at (s : BCDB) (root : Nat) : Option TreeState :=
  s.db.treeStates EpochTag.Sprout root

def sapling_tree_at (s : BCDB) (root : Nat) : Option TreeState :=
  s.db.treeStates EpochTag.Sapling root

/-- Modelled from the spec: TreeStateProvider `sprout_tree_at_block`
(zebra-storage tree_state_provider.rs, not under src/) — the per-block
snapshot root resolved through the by-root tree column. -/
def sprout_tree_at_block (s : BCDB) (h : Nat) : Option TreeState :=
  (sprout_block_root s h).bind (sprout_tree_at s)

/-- Modelled from the spec: TreeStateProvider `sapling_tree_at_block` — via
the header final-Sapling-root. -/
def sapling_tree_at_block (s : BCDB) (h : Nat) : Option TreeState :=
  (sapling_block_root s h).bind (sapling_tree_at s)

end BCDB

/-- JoinSplit note commitments of one transaction in block order. -/
def jsCommitmentsOf (tx : Transaction) : List Nat :=
  match tx.join_split with
  | some js => js.descriptions.flatMap (fun d => d.commitments)
  | none => []

/-- Sapling output note commitments of one transaction. -/
def saplingCommitmentsOf (tx : Transaction) : List Nat :=
  match tx.sapling with
  | some s => s.outputs.map (fun o => o.note_commitment)
  | none => []

/-- JoinSplit nullifiers of one transaction. -/
def jsNullifiersOf (tx : Transaction) : List Nat :=
  match tx.join_split with
  | some js => js.descriptions.flatMap (fun d => d.nullifiers)
  | none => []

/-- Sapling spend nullifiers of one transaction. -/
def saplingNullifiersOf (tx : Transaction) : List Nat :=
  match tx.sapling with
  | some s => s.spends.map (fun sp => sp.nullifier)
  | none => []

namespace BCDB

/-- Embedding of `BlockChainDatabase::insert` (block_chain_db.rs lines
326-412): idempotent on known blocks, `UnknownParent` unless the parent is
stored or zero, then one write of header, transactions list, transaction
rows, both updated tree snapshots and the Sprout block root.  The Sapling
tree snapshot is keyed by the header's claimed `final_sapling_root`, as in
the source. -/
def insert (s : BCDB) (b : IndexedBlock) : Except DbError BCDB :=
  if contains_block s b.hash then Except.ok s
  else
    let parent := b.header.raw.previous_header_hash
    if ¬contains_block s parent ∧ parent ≠ 0 then Except.error DbError.UnknownParent
    else do
      let sproutTree0 ←
        if parent = 0 then Except.ok TreeState.new
        else
          match sprout_tree_at_block s parent with
          | some t => Except.ok t
          | none => Except.error DbError.Inconsistent
      let saplingTree0 ←
        if parent = 0 then Except.ok TreeState.new
        else
          match sapling_tree_at_block s parent with
          | some t => Except.ok t
          | none => Except.error DbError.Inconsistent
      let trees := b.transactions.foldl
        (fun (pr : TreeState × TreeState) tx =>
          ((jsCommitmentsOf tx.raw).foldl TreeState.append pr.1,
           (saplingCommitmentsOf tx.raw).foldl TreeState.append pr.2))
        (sproutTree0, saplingTree0)
      let ops :=
        [DBOp.ins (KeyValue.Header b.hash b.header.raw),
         DBOp.ins (KeyValue.BlockTxs b.hash (b.transactions.map (fun tx => tx.hash)))]
        ++ b.transactions.map (fun tx => DBOp.ins (KeyValue.Tx tx.hash tx.raw))
        ++ [DBOp.ins (KeyValue.SproutBlockRoot b.hash trees.1.root),
            DBOp.ins (KeyValue.TreeSt EpochTag.Sprout trees.1.root trees.1),
            DBOp.ins (KeyValue.TreeSt EpochTag.Sapling
              b.header.raw.final_sapling_root trees.2)]
      Except.ok { s with db := writeOps s.db ops }

end BCDB

/-- Association list with unique keys modelling the Rust `HashMap` of
modified transaction metas (insert replaces an existing key). -/
def alistLookup : List (Nat × TransactionMeta) → Nat → Option TransactionMeta
  | [], _ => none
  | (k', v) :: rest, k => if k' = k then some v else alistLookup rest k

def alistSet (l : List (Nat × TransactionMeta)) (k : Nat)
    (v : TransactionMeta) : List (Nat × TransactionMeta) :=
  match l with
  | [] => [(k, v)]
  | (k', v') :: rest =>
    if k' = k then (k, v) :: rest else (k', v') :: alistSet rest k v

namespace BCDB

/-- Duplicate-nullifier guard of `canonize`: each revealed nullifier that is
already present fails `CannotCanonize`; otherwise the insert operations are
collected in order. -/
def nullifierChecks (s : BCDB) (tag : EpochTag) :
    List Nat → Except DbError (List DBOp)
  | [] => Except.ok []
  | n :: rest =>
    if contains_nullifier s tag n then Except.error DbError.CannotCanonize
    else do
      let ops ← nullifierChecks s tag rest
      Except.ok (DBOp.ins (KeyValue.Nullifier tag n) :: ops)

/-- Nullifier insertion operations of `canonize` over the non-coinbase
transactions, in source order (per transaction: JoinSplit nullifiers, then
Sapling spend nullifiers). -/
def canonNullOps (s : BCDB) :
    List IndexedTransaction → Except DbError (List DBOp)
  | [] => Except.ok []
  | tx :: rest => do
    let a ← nullifierChecks s EpochTag.Sprout (jsNullifiersOf tx.raw)
    let b ← nullifierChecks s EpochTag.Sapling (saplingNullifiersOf tx.raw)
    let c ← canonNullOps s rest
    Except.ok (a ++ b ++ c)

/-- The spend-bit pass of `canonize` over one transaction's inputs: an
occupied map entry is mutated, a vacant one is fetched from the store
(`CannotCanonize` when absent) and mutated. -/
def spendInputs (s : BCDB) :
    List TransactionInput → List (Nat × TransactionMeta) →
      Except DbError (List (Nat × TransactionMeta))
  | [], m => Except.ok m
  | inp :: rest, m =>
    let k := inp.previous_output.hash
    let idx := inp.previous_output.index
    match alistLookup m k with
    | some mm => spendInputs s rest (alistSet m k (mm.denote_used idx))
    | none =>
      match transaction_meta s k with
      | none => Except.error DbError.CannotCanonize
      | some mm => spendInputs s rest (alistSet m k (mm.denote_used idx))

/-- The modified-meta map of `canonize` over the non-coinbase transactions:
a fresh meta for the transaction itself, then the spend bits of its
inputs.  The nullifier checks of the source are interleaved with this pass
but are independent of it and fail with the same `CannotCanonize`, so they
are collected separately by `canonNullOps`. -/
def canonMetas (s : BCDB) (height : Nat) :
    List IndexedTransaction → List (Nat × TransactionMeta) →
      Except DbError (List (Nat × TransactionMeta))
  | [], m => Except.ok m
  | tx :: rest, m => do
    let m := alistSet m tx.hash (TransactionMeta.new height tx.raw.outputs.length)
    let m ← spendInputs s tx.raw.inputs m
    canonMetas s height rest m

/-- Embedding of `BlockChainDatabase::canonize` (block_chain_db.rs lines
440-563): the block must exist and extend the current best; height/hash
maps and the best-pointer meta keys are written, fresh metas are created
(first transaction coinbase), nullifiers are inserted after a duplicate
check, and prevout spend bits are flipped. -/
def canonInitMetas (newNumber : Nat) (blk : IndexedBlock) :
    List (Nat × TransactionMeta) :=
  match blk.transactions with
  | [] => []
  | tx0 :: _ =>
    [(tx0.hash, TransactionMeta.new_coinbase newNumber tx0.raw.outputs.length)]

/-- The full operation list written by `canonize`. -/
def canonOps (h newNumber : Nat) (nullOps : List DBOp)
    (metas : List (Nat × TransactionMeta)) : List DBOp :=
  [DBOp.ins (KeyValue.BlockHash newNumber h),
   DBOp.ins (KeyValue.BlockNumber h newNumber),
   DBOp.ins (KeyValue.MetaBestHash h),
   DBOp.ins (KeyValue.MetaBestNumber newNumber)]
  ++ nullOps
  ++ metas.map (fun p => DBOp.ins (KeyValue.TxMeta p.1 p.2))

def canonize (s : BCDB) (h : Nat) : Except DbError BCDB := do
  let blk ←
    match block s h with
    | some b => Except.ok b
    | none => Except.error DbError.CannotCanonize
  if s.best.hash ≠ blk.header.raw.previous_header_hash then
    Except.error DbError.CannotCanonize
  else do
    let newNumber ←
      if blk.header.raw.previous_header_hash = 0 then
        if s.best.number = 0 then Except.ok 0
        else Except.error DbError.Inconsistent
      else Except.ok (s.best.number + 1)
    let nullOps ← canonNullOps s (blk.transactions.drop 1)
    let metas ← canonMetas s newNumber (blk.transactions.drop 1)
      (canonInitMetas newNumber blk)
    Except.ok { best := ⟨h, newNumber⟩,
                db := writeOps s.db (canonOps h newNumber nullOps metas) }

/-- Missing-nullifier guard of `decanonize`: each nullifier of the block
must be present (`CannotDecanonize` otherwise); deletions are collected. -/
def nullifierDeletes (s : BCDB) (tag : EpochTag) :
    List Nat → Except DbError (List DBOp)
  | [] => Except.ok []
  | n :: rest =>
    if contains_nullifier s tag n then do
      let ops ← nullifierDeletes s tag rest
      Except.ok (DBOp.del (DBKey.Nullifier tag n) :: ops)
    else Except.error DbError.CannotDecanonize

/-- Nullifier deletion operations of `decanonize` over the non-coinbase
transactions. -/
def decanonNullOps (s : BCDB) :
    List IndexedTransaction → Except DbError (List DBOp)
  | [] => Except.ok []
  | tx :: rest => do
    let a ← nullifierDeletes s EpochTag.Sprout (jsNullifiersOf tx.raw)
    let b ← nullifierDeletes s EpochTag.Sapling (saplingNullifiersOf tx.raw)
    let c ← decanonNullOps s rest
    Except.ok (a ++ b ++ c)

/-- The unspend pass of `decanonize` over one transaction's inputs,
clearing the spend bits flipped by `canonize`. -/
def unspendInputs (s : BCDB) :
    List TransactionInput → List (Nat × TransactionMeta) →
      Except DbError (List (Nat × TransactionMeta))
  | [], m => Except.ok m
  | inp :: rest, m =>
    let k := inp.previous_output.hash
    let idx := inp.previous_output.index
    match alistLookup m k with
    | some mm => unspendInputs s rest (alistSet m k (mm.denote_unused idx))
    | none =>
      match transaction_meta s k with
      | none => Except.error DbError.CannotDecanonize
      | some mm => unspendInputs s rest (alistSet m k (mm.denote_unused idx))

/-- The modified-meta map of `decanonize` over the non-coinbase
transactions (no fresh metas here; the block's own metas are deleted by the
final pass). -/
def decanonMetas (s : BCDB) :
    List IndexedTransaction → List (Nat × TransactionMeta) →
      Except DbError (List (Nat × TransactionMeta))
  | [], m => Except.ok m
  | tx :: rest, m => do
    let m ← unspendInputs s tx.raw.inputs m
    decanonMetas s rest m

/-- The full operation list written by `decanonize`. -/
def decanonOps (blockNumber blockHash : Nat) (newBest : BestBlock)
    (nullOps : List DBOp) (metas : List (Nat × TransactionMeta))
    (blk : IndexedBlock) : List DBOp :=
  [DBOp.del (DBKey.BlockHash blockNumber),
   DBOp.del (DBKey.BlockNumber blockHash),
   DBOp.ins (KeyValue.MetaBestHash newBest.hash),
   DBOp.ins (KeyValue.MetaBestNumber newBest.number)]
  ++ nullOps
  ++ metas.map (fun p => DBOp.ins (KeyValue.TxMeta p.1 p.2))
  ++ blk.transactions.map (fun tx => DBOp.del (DBKey.TxMeta tx.hash))

/-- Embedding of `BlockChainDatabase::decanonize` (block_chain_db.rs lines
565-668): the inverse bookkeeping of `canonize` on the current best block —
height/hash rows are deleted, the best-pointer meta keys rewritten to the
parent, nullifiers deleted after a presence check, prevout spend bits
cleared, and finally the metas of all block transactions deleted.  Returns
the decanonized hash. -/
def decanonize (s : BCDB) : Except DbError (Nat × BCDB) := do
  let blk ←
    match block s s.best.hash with
    | some b => Except.ok b
    | none => Except.error DbError.CannotDecanonize
  let blockNumber := s.best.number
  let blockHash := s.best.hash
  let newBest ←
    if blockNumber > 0 then
      Except.ok (BestBlock.mk blk.header.raw.previous_header_hash (blockNumber - 1))
    else
      if blk.header.raw.previous_header_hash = 0 then
        Except.ok (BestBlock.mk blk.header.raw.previous_header_hash 0)
      else Except.error DbError.Inconsistent
  let nullOps ← decanonNullOps s (blk.transactions.drop 1)
  let metas ← decanonMetas s (blk.transactions.drop 1) []
  Except.ok (blockHash,
    { best := newBest,
      db := writeOps s.db
        (decanonOps blockNumber blockHash newBest nullOps metas blk) })

end BCDB

/-- Side-chain origin description (zebra-storage block_origin.rs). -/
structure SideChainOrigin where
  ancestor : Nat
  canonized_route : List Nat
  decanonized_route : List Nat
  block_number : Nat
  deriving DecidableEq, Repr

/-- Classification of an incoming header (zebra-storage block_origin.rs). -/
inductive BlockOrigin where
  | KnownBlock
  | CanonChain (block_number : Nat)
  | SideChain (origin : SideChainOrigin)
  | SideChainBecomingCanonChain (origin : SideChainOrigin)
  deriving DecidableEq, Repr

/-- The maximal walked fork depth of `block_origin`. -/
def MAX_FORK_ROUTE_PRESET : Nat := 2048

namespace BCDB

/-- The canonical hashes at heights `ancestor + 1 .. best` (the half-open
Rust range `number + 1 .. best_number + 1`), in ascending height order. -/
def decanonizedRoute (s : BCDB) (number bestNumber : Nat) : List Nat :=
  (List.range' (number + 1) (bestNumber - number)).filterMap (block_hash s)

/-- The side-chain walk of `block_origin`: at most `fuel` (initially 2048)
steps follow parent links of non-canonical stored headers; finding a
canonical ancestor classifies the header, exhausting the fuel is
`AncientFork`, and a missing header mid-walk is the source's `expect`
panic. -/
def originLoop (s : BCDB) (best : BestBlock) :
    Nat → Nat → List Nat → Nat → Except DbError BlockOrigin
  | 0, _, _, _ => Except.error DbError.AncientFork
  | fuel + 1, nextHash, route, forkLen =>
    match block_number s nextHash with
    | some number =>
      let bn := number + forkLen + 1
      let origin : SideChainOrigin :=
        ⟨number, route.reverse, decanonizedRoute s number best.number, bn⟩
      if bn > best.number then
        Except.ok (BlockOrigin.SideChainBecomingCanonChain origin)
      else
        Except.ok (BlockOrigin.SideChain origin)
    | none =>
      match block_header s nextHash with
      | none => Except.error DbError.Inconsistent
      | some hdr =>
        originLoop s best fuel hdr.raw.previous_header_hash
          (route ++ [nextHash]) (forkLen + 1)

/-- Embedding of `BlockChainDatabase::block_origin` (block_chain_db.rs
lines 269-324): stored blocks are `KnownBlock`; a child of the best block
is `CanonChain`; an unknown parent is `UnknownParent`; otherwise the side
chain is walked for at most 2048 steps.  The initial `assert_eq` on the
consistency of the best pointer is modelled as `Inconsistent`. -/
def block_origin (s : BCDB) (header : IndexedBlockHeader) :
    Except DbError BlockOrigin :=
  if block_hash s s.best.number ≠ some s.best.hash then
    Except.error DbError.Inconsistent
  else if contains_block s header.hash then Except.ok BlockOrigin.KnownBlock
  else if s.best.hash = header.raw.previous_header_hash then
    Except.ok (BlockOrigin.CanonChain (s.best.number + 1))
  else if ¬contains_block s header.raw.previous_header_hash then
    Except.error DbError.UnknownParent
  else
    originLoop s s.best MAX_FORK_ROUTE_PRESET
      header.raw.previous_header_hash [] 0

end BCDB


theorem alistLookup_set_self (l : List (Nat × TransactionMeta)) (k : Nat)
    (v : TransactionMeta) : alistLookup (alistSet l k v) k = some v := by
  induction l with
  | nil => simp [alistSet, alistLookup]
  | cons p rest ih =>
    obtain ⟨k0, v0⟩ := p
    by_cases h : k0 = k
    · simp [alistSet, alistLookup, h]
    · simp only [alistSet, if_neg h, alistLookup, if_neg h]
      exact ih

theorem alistLookup_set_ne (l : List (Nat × TransactionMeta)) (k k' : Nat)
    (v : TransactionMeta) (h : k' ≠ k) :
    alistLookup (alistSet l k v) k' = alistLookup l k' := by
  induction l with
  | nil => simp [alistSet, alistLookup, Ne.symm h]
  | cons p rest ih =>
    obtain ⟨k0, v0⟩ := p
    by_cases h0 : k0 = k
    · subst h0
      simp only [alistSet, if_pos rfl, alistLookup, if_neg (Ne.symm h)]
    · simp only [alistSet, if_neg h0, alistLookup]
      by_cases h1 : k0 = k'
      · simp only [if_pos h1]
      · simp only [if_neg h1]
        exact ih

theorem alistLookup_isSome_set (l : List (Nat × TransactionMeta))
    (k k' : Nat) (v : TransactionMeta)
    (h : (alistLookup l k').isSome) :
    (alistLookup (alistSet l k v) k').isSome := by
  by_cases he : k' = k
  · subst he
    rw [alistLookup_set_self]
    rfl
  · rw [alistLookup_set_ne _ _ _ _ he]
    exact h

theorem alistSet_keys (l : List (Nat × TransactionMeta)) (k : Nat)
    (v : TransactionMeta) :
    (alistSet l k v).map Prod.fst =
      if k ∈ l.map Prod.fst then l.map Prod.fst
      else l.map Prod.fst ++ [k] := by
  induction l with
  | nil => simp [alistSet]
  | cons p rest ih =>
    obtain ⟨k0, v0⟩ := p
    by_cases h : k0 = k
    · subst h
      simp [alistSet]
    · simp only [alistSet, if_neg h, List.map_cons, ih, List.mem_cons]
      by_cases hm : k ∈ rest.map Prod.fst
      · rw [if_pos hm, if_pos (Or.inr hm)]
      · rw [if_neg hm, if_neg (by
          intro hc
          rcases hc with hc | hc
          · exact h hc.symm
          · exact hm hc)]
        simp

theorem alistSet_keysNodup (l : List (Nat × TransactionMeta)) (k : Nat)
    (v : TransactionMeta) (h : (l.map Prod.fst).Nodup) :
    ((alistSet l k v).map Prod.fst).Nodup := by
  rw [alistSet_keys]
  by_cases hm : k ∈ l.map Prod.fst
  · rw [if_pos hm]
    exact h
  · rw [if_neg hm]
    rw [List.nodup_append]
    refine ⟨h, List.nodup_singleton _, ?_⟩
    intro x hx hx2
    simp only [List.mem_singleton] at hx2
    subst hx2
    exact hm hx

theorem writeOps_append (s : DBState) (a b : List DBOp) :
    writeOps s (a ++ b) = writeOps (writeOps s a) b :=
  List.foldl_append _ _ _ _

def DBOp.isHeaderOp : DBOp → Bool
  | .ins (.Header _ _) => true
  | .del (.Header _) => true
  | _ => false

def DBOp.isBlockTxsOp : DBOp → Bool
  | .ins (.BlockTxs _ _) => true
  | .del (.BlockTxs _) => true
  | _ => false

def DBOp.isTxOp : DBOp → Bool
  | .ins (.Tx _ _) => true
  | .del (.Tx _) => true
  | _ => false

def DBOp.isBlockHashOp : DBOp → Bool
  | .ins (.BlockHash _ _) => true
  | .del (.BlockHash _) => true
  | _ => false

def DBOp.isBlockNumberOp : DBOp → Bool
  | .ins (.BlockNumber _ _) => true
  | .del (.BlockNumber _) => true
  | _ => false

def DBOp.isTxMetaOp : DBOp → Bool
  | .ins (.TxMeta _ _) => true
  | .del (.TxMeta _) => true
  | _ => false

def DBOp.isNullifierOp : DBOp → Bool
  | .ins (.Nullifier _ _) => true
  | .del (.Nullifier _ _) => true
  | _ => false

def DBOp.isTreeOp : DBOp → Bool
  | .ins (.TreeSt _ _ _) => true
  | _ => false

def DBOp.isSproutRootOp : DBOp → Bool
  | .ins (.SproutBlockRoot _ _) => true
  | _ => false

def DBOp.isMetaBestOp : DBOp → Bool
  | .ins (.MetaBestHash _) => true
  | .ins (.MetaBestNumber _) => true
  | _ => false

theorem applyOp_blockHeaders (s : DBState) (op : DBOp)
    (h : op.isHeaderOp = false) :
    (applyOp s op).blockHeaders = s.blockHeaders := by
  cases op with
  | ins kv => cases kv <;> simp_all [applyOp, DBOp.isHeaderOp]
  | del k => cases k <;> simp_all [applyOp, DBOp.isHeaderOp]

theorem applyOp_blockTransactions (s : DBState) (op : DBOp)
    (h : op.isBlockTxsOp = false) :
    (applyOp s op).blockTransactions = s.blockTransactions := by
  cases op with
  | ins kv => cases kv <;> simp_all [applyOp, DBOp.isBlockTxsOp]
  | del k => cases k <;> simp_all [applyOp, DBOp.isBlockTxsOp]

theorem applyOp_transactions (s : DBState) (op : DBOp)
    (h : op.isTxOp = false) :
    (applyOp s op).transactions = s.transactions := by
  cases op with
  | ins kv => cases kv <;> simp_all [applyOp, DBOp.isTxOp]
  | del k => cases k <;> simp_all [applyOp, DBOp.isTxOp]

theorem applyOp_blockHashes (s : DBState) (op : DBOp)
    (h : op.isBlockHashOp = false) :
    (applyOp s op).blockHashes = s.blockHashes := by
  cases op with
  | ins kv => cases kv <;> simp_all [applyOp, DBOp.isBlockHashOp]
  | del k => cases k <;> simp_all [applyOp, DBOp.isBlockHashOp]

theorem applyOp_blockNumbers (s : DBState) (op : DBOp)
    (h : op.isBlockNumberOp = false) :
    (applyOp s op).blockNumbers = s.blockNumbers := by
  cases op with
  | ins kv => cases kv <;> simp_all [applyOp, DBOp.isBlockNumberOp]
  | del k => cases k <;> simp_all [applyOp, DBOp.isBlockNumberOp]

theorem applyOp_transactionsMeta (s : DBState) (op : DBOp)
    (h : op.isTxMetaOp = false) :
    (applyOp s op).transactionsMeta = s.transactionsMeta := by
  cases op with
  | ins kv => cases kv <;> simp_all [applyOp, DBOp.isTxMetaOp]
  | del k => cases k <;> simp_all [applyOp, DBOp.isTxMetaOp]

theorem applyOp_nullifiers (s : DBState) (op : DBOp)
    (h : op.isNullifierOp = false) :
    (applyOp s op).nullifiers = s.nullifiers := by
  cases op with
  | ins kv => cases kv <;> simp_all [applyOp, DBOp.isNullifierOp]
  | del k => cases k <;> simp_all [applyOp, DBOp.isNullifierOp]

theorem applyOp_treeStates (s : DBState) (op : DBOp)
    (h : op.isTreeOp = false) :
    (applyOp s op).treeStates = s.treeStates := by
  cases op with
  | ins kv => cases kv <;> simp_all [applyOp, DBOp.isTreeOp]
  | del k => cases k <;> simp_all [applyOp, DBOp.isTreeOp]

theorem applyOp_sproutBlockRoots (s : DBState) (op : DBOp)
    (h : op.isSproutRootOp = false) :
    (applyOp s op).sproutBlockRoots = s.sproutBlockRoots := by
  cases op with
  | ins kv => cases kv <;> simp_all [applyOp, DBOp.isSproutRootOp]
  | del k => cases k <;> simp_all [applyOp, DBOp.isSproutRootOp]

theorem applyOp_metaBest (s : DBState) (op : DBOp)
    (h : op.isMetaBestOp = false) :
    (applyOp s op).metaBestHash = s.metaBestHash ∧
      (applyOp s op).metaBestNumber = s.metaBestNumber := by
  cases op with
  | ins kv => cases kv <;> simp_all [applyOp, DBOp.isMetaBestOp]
  | del k => cases k <;> simp_all [applyOp, DBOp.isMetaBestOp]

theorem writeOps_blockHeaders (s : DBState) (ops : List DBOp)
    (h : ∀ op ∈ ops, op.isHeaderOp = false) :
    (writeOps s ops).blockHeaders = s.blockHeaders := by
  induction ops generalizing s with
  | nil => rfl
  | cons op rest ih =>
    rw [show writeOps s (op :: rest) = writeOps (applyOp s op) rest from rfl]
    rw [ih _ (fun o ho => h o (List.mem_cons_of_mem _ ho))]
    exact applyOp_blockHeaders s op (h op (List.mem_cons_self _ _))

theorem writeOps_blockTransactions (s : DBState) (ops : List DBOp)
    (h : ∀ op ∈ ops, op.isBlockTxsOp = false) :
    (writeOps s ops).blockTransactions = s.blockTransactions := by
  induction ops generalizing s with
  | nil => rfl
  | cons op rest ih =>
    rw [show writeOps s (op :: rest) = writeOps (applyOp s op) rest from rfl]
    rw [ih _ (fun o ho => h o (List.mem_cons_of_mem _ ho))]
    exact applyOp_blockTransactions s op (h op (List.mem_cons_self _ _))

theorem writeOps_transactions (s : DBState) (ops : List DBOp)
    (h : ∀ op ∈ ops, op.isTxOp = false) :
    (writeOps s ops).transactions = s.transactions := by
  induction ops generalizing s with
  | nil => rfl
  | cons op rest ih =>
    rw [show writeOps s (op :: rest) = writeOps (applyOp s op) rest from rfl]
    rw [ih _ (fun o ho => h o (List.mem_cons_of_mem _ ho))]
    exact applyOp_transactions s op (h op (List.mem_cons_self _ _))

theorem writeOps_blockHashes (s : DBState) (ops : List DBOp)
    (h : ∀ op ∈ ops, op.isBlockHashOp = false) :
    (writeOps s ops).blockHashes = s.blockHashes := by
  induction ops generalizing s with
  | nil => rfl
  | cons op rest ih =>
    rw [show writeOps s (op :: rest) = writeOps (applyOp s op) rest from rfl]
    rw [ih _ (fun o ho => h o (List.mem_cons_of_mem _ ho))]
    exact applyOp_blockHashes s op (h op (List.mem_cons_self _ _))

theorem writeOps_blockNumbers (s : DBState) (ops : List DBOp)
    (h : ∀ op ∈ ops, op.isBlockNumberOp = false) :
    (writeOps s ops).blockNumbers = s.blockNumbers := by
  induction ops generalizing s with
  | nil => rfl
  | cons op rest ih =>
    rw [show writeOps s (op :: rest) = writeOps (applyOp s op) rest from rfl]
    rw [ih _ (fun o ho => h o (List.mem_cons_of_mem _ ho))]
    exact applyOp_blockNumbers s op (h op (List.mem_cons_self _ _))

theorem writeOps_transactionsMeta (s : DBState) (ops : List DBOp)
    (h : ∀ op ∈ ops, op.isTxMetaOp = false) :
    (writeOps s ops).transactionsMeta = s.transactionsMeta := by
  induction ops generalizing s with
  | nil => rfl
  | cons op rest ih =>
    rw [show writeOps s (op :: rest) = writeOps (applyOp s op) rest from rfl]
    rw [ih _ (fun o ho => h o (List.mem_cons_of_mem _ ho))]
    exact applyOp_transactionsMeta s op (h op (List.mem_cons_self _ _))

theorem writeOps_nullifiers (s : DBState) (ops : List DBOp)
    (h : ∀ op ∈ ops, op.isNullifierOp = false) :
    (writeOps s ops).nullifiers = s.nullifiers := by
  induction ops generalizing s with
  | nil => rfl
  | cons op rest ih =>
    rw [show writeOps s (op :: rest) = writeOps (applyOp s op) rest from rfl]
    rw [ih _ (fun o ho => h o (List.mem_cons_of_mem _ ho))]
    exact applyOp_nullifiers s op (h op (List.mem_cons_self _ _))

theorem writeOps_treeStates (s : DBState) (ops : List DBOp)
    (h : ∀ op ∈ ops, op.isTreeOp = false) :
    (writeOps s ops).treeStates = s.treeStates := by
  induction ops generalizing s with
  | nil => rfl
  | cons op rest ih =>
    rw [show writeOps s (op :: rest) = writeOps (applyOp s op) rest from rfl]
    rw [ih _ (fun o ho => h o (List.mem_cons_of_mem _ ho))]
    exact applyOp_treeStates s op (h op (List.mem_cons_self _ _))

theorem writeOps_sproutBlockRoots (s : DBState) (ops : List DBOp)
    (h : ∀ op ∈ ops, op.isSproutRootOp = false) :
    (writeOps s ops).sproutBlockRoots = s.sproutBlockRoots := by
  induction ops generalizing s with
  | nil => rfl
  | cons op rest ih =>
    rw [show writeOps s (op :: rest) = writeOps (applyOp s op) rest from rfl]
    rw [ih _ (fun o ho => h o (List.mem_cons_of_mem _ ho))]
    exact applyOp_sproutBlockRoots s op (h op (List.mem_cons_self _ _))

theorem writeOps_metaBest (s : DBState) (ops : List DBOp)
    (h : ∀ op ∈ ops, op.isMetaBestOp = false) :
    (writeOps s ops).metaBestHash = s.metaBestHash ∧
      (writeOps s ops).metaBestNumber = s.metaBestNumber := by
  induction ops generalizing s with
  | nil => exact ⟨rfl, rfl⟩
  | cons op rest ih =>
    have hstep := applyOp_metaBest s op (h op (List.mem_cons_self _ _))
    have hrest := ih (applyOp s op) (fun o ho => h o (List.mem_cons_of_mem _ ho))
    exact ⟨hrest.1.trans hstep.1, hrest.2.trans hstep.2⟩

theorem alistLookup_eq_none (l : List (Nat × TransactionMeta)) (k : Nat)
    (h : k ∉ l.map Prod.fst) : alistLookup l k = none := by
  induction l with
  | nil => rfl
  | cons p rest ih =>
    obtain ⟨k0, v0⟩ := p
    simp only [List.map_cons, List.mem_cons] at h
    push_neg at h
    have hne : ¬(k0 = k) := fun e => h.1 e.symm
    simp only [alistLookup, if_neg hne]
    exact ih h.2

theorem applyOp_nullifier_ins (s : DBState) (tag : EpochTag) (n : Nat) :
    (applyOp s (DBOp.ins (KeyValue.Nullifier tag n))).nullifiers tag n = true := by
  simp [applyOp, updTag]

theorem applyOp_nullifier_del (s : DBState) (tag : EpochTag) (n : Nat) :
    (applyOp s (DBOp.del (DBKey.Nullifier tag n))).nullifiers tag n = false := by
  simp [applyOp, updTag]

theorem applyOp_nullifier_other (s : DBState) (op : DBOp) (tag : EpochTag)
    (n : Nat) (h1 : op ≠ DBOp.ins (KeyValue.Nullifier tag n))
    (h2 : op ≠ DBOp.del (DBKey.Nullifier tag n)) :
    (applyOp s op).nullifiers tag n = s.nullifiers tag n := by
  cases op with
  | ins kv =>
    cases kv with
    | Nullifier tag' n' =>
      have hne : ¬(tag = tag' ∧ n = n') := by
        intro hc
        exact h1 (by rw [hc.1, hc.2])
      simp only [applyOp, updTag]
      rw [if_neg hne]
    | Header h hd => simp [applyOp]
    | BlockTxs h t => simp [applyOp]
    | Tx h t => simp [applyOp]
    | BlockHash a b => simp [applyOp]
    | BlockNumber a b => simp [applyOp]
    | TxMeta a b => simp [applyOp]
    | TreeSt a b c => simp [applyOp]
    | SproutBlockRoot a b => simp [applyOp]
    | MetaBestHash a => simp [applyOp]
    | MetaBestNumber a => simp [applyOp]
  | del k =>
    cases k with
    | Nullifier tag' n' =>
      have hne : ¬(tag = tag' ∧ n = n') := by
        intro hc
        exact h2 (by rw [hc.1, hc.2])
      simp only [applyOp, updTag]
      rw [if_neg hne]
    | Header h => simp [applyOp]
    | BlockTxs h => simp [applyOp]
    | Tx h => simp [applyOp]
    | BlockHash a => simp [applyOp]
    | BlockNumber a => simp [applyOp]
    | TxMeta a => simp [applyOp]

theorem writeOps_nullifiers_at (s : DBState) (ops : List DBOp)
    (tag : EpochTag) (n : Nat)
    (hdel : DBOp.del (DBKey.Nullifier tag n) ∉ ops) :
    (writeOps s ops).nullifiers tag n =
      (s.nullifiers tag n
        || decide (DBOp.ins (KeyValue.Nullifier tag n) ∈ ops)) := by
  induction ops generalizing s with
  | nil => simp [writeOps]
  | cons op rest ih =>
    simp only [List.mem_cons] at hdel
    push_neg at hdel
    have hstep : writeOps s (op :: rest) = writeOps (applyOp s op) rest := rfl
    rw [hstep, ih _ hdel.2]
    by_cases hop : op = DBOp.ins (KeyValue.Nullifier tag n)
    · subst hop
      rw [applyOp_nullifier_ins]
      simp
    · rw [applyOp_nullifier_other s op tag n hop (fun e => hdel.1 e.symm)]
      have : decide (DBOp.ins (KeyValue.Nullifier tag n) ∈ op :: rest) =
          decide (DBOp.ins (KeyValue.Nullifier tag n) ∈ rest) := by
        simp only [List.mem_cons]
        rw [decide_eq_decide]
        constructor
        · intro hc
          rcases hc with hc | hc
          · exact absurd hc.symm hop
          · exact hc
        · exact Or.inr
      rw [this]

theorem writeOps_nullifiers_at_del (s : DBState) (ops : List DBOp)
    (tag : EpochTag) (n : Nat)
    (hins : DBOp.ins (KeyValue.Nullifier tag n) ∉ ops) :
    (writeOps s ops).nullifiers tag n =
      (s.nullifiers tag n
        && !decide (DBOp.del (DBKey.Nullifier tag n) ∈ ops)) := by
  induction ops generalizing s with
  | nil => simp [writeOps]
  | cons op rest ih =>
    simp only [List.mem_cons] at hins
    push_neg at hins
    have hstep : writeOps s (op :: rest) = writeOps (applyOp s op) rest := rfl
    rw [hstep, ih _ hins.2]
    by_cases hop : op = DBOp.del (DBKey.Nullifier tag n)
    · subst hop
      rw [applyOp_nullifier_del]
      simp
    · rw [applyOp_nullifier_other s op tag n (fun e => hins.1 e.symm) hop]
      have : decide (DBOp.del (DBKey.Nullifier tag n) ∈ op :: rest) =
          decide (DBOp.del (DBKey.Nullifier tag n) ∈ rest) := by
        simp only [List.mem_cons]
        rw [decide_eq_decide]
        constructor
        · intro hc
          rcases hc with hc | hc
          · exact absurd hc.symm hop
          · exact hc
        · exact Or.inr
      rw [this]

theorem writeOps_txMeta_insList (s : DBState)
    (l : List (Nat × TransactionMeta)) (k : Nat)
    (hnd : (l.map Prod.fst).Nodup) :
    (writeOps s (l.map (fun p => DBOp.ins (KeyValue.TxMeta p.1 p.2)))).transactionsMeta k =
      (match alistLookup l k with
       | some v => some v
       | none => s.transactionsMeta k) := by
  induction l generalizing s with
  | nil => simp [writeOps, alistLookup]
  | cons p rest ih =>
    obtain ⟨k0, v0⟩ := p
    simp only [List.map_cons, List.nodup_cons] at hnd
    have hstep : writeOps s
        ((DBOp.ins (KeyValue.TxMeta k0 v0)) ::
          rest.map (fun p => DBOp.ins (KeyValue.TxMeta p.1 p.2))) =
        writeOps (applyOp s (DBOp.ins (KeyValue.TxMeta k0 v0)))
          (rest.map (fun p => DBOp.ins (KeyValue.TxMeta p.1 p.2))) := rfl
    simp only [List.map_cons, hstep, ih _ hnd.2]
    by_cases he : k0 = k
    · subst he
      rw [show alistLookup ((k0, v0) :: rest) k0 = some v0 from by
        simp [alistLookup]]
      rw [alistLookup_eq_none rest k0 hnd.1]
      simp [applyOp, upd]
    · simp only [alistLookup, if_neg he]
      cases alistLookup rest k with
      | some v => rfl
      | none => simp [applyOp, upd, Ne.symm he]

theorem writeOps_txMeta_delList (s : DBState) (hs : List Nat) (k : Nat) :
    (writeOps s (hs.map (fun h => DBOp.del (DBKey.TxMeta h)))).transactionsMeta k =
      if k ∈ hs then none else s.transactionsMeta k := by
  induction hs generalizing s with
  | nil => simp [writeOps]
  | cons h0 rest ih =>
    have hstep : writeOps s
        ((DBOp.del (DBKey.TxMeta h0)) ::
          rest.map (fun h => DBOp.del (DBKey.TxMeta h))) =
        writeOps (applyOp s (DBOp.del (DBKey.TxMeta h0)))
          (rest.map (fun h => DBOp.del (DBKey.TxMeta h))) := rfl
    simp only [List.map_cons, hstep, ih]
    by_cases hm : k ∈ rest
    · rw [if_pos hm, if_pos (List.mem_cons_of_mem _ hm)]
    · rw [if_neg hm]
      by_cases he : k = h0
      · subst he
        rw [if_pos (List.mem_cons_self _ _)]
        simp [applyOp, upd]
      · rw [if_neg (by
          intro hc
          rcases List.mem_cons.mp hc with hc | hc
          · exact he hc
          · exact hm hc)]
        simp [applyOp, upd, he]

theorem insert_ops_classify (b : IndexedBlock) (t1 t2 : TreeState) :
    ∀ op ∈ ([DBOp.ins (KeyValue.Header b.hash b.header.raw),
          DBOp.ins (KeyValue.BlockTxs b.hash
            (b.transactions.map (fun tx => tx.hash)))]
        ++ b.transactions.map (fun tx => DBOp.ins (KeyValue.Tx tx.hash tx.raw))
        ++ [DBOp.ins (KeyValue.SproutBlockRoot b.hash t1.root),
            DBOp.ins (KeyValue.TreeSt EpochTag.Sprout t1.root t1),
            DBOp.ins (KeyValue.TreeSt EpochTag.Sapling
              b.header.raw.final_sapling_root t2)]),
      op.isBlockHashOp = false ∧ op.isBlockNumberOp = false ∧
        op.isTxMetaOp = false ∧ op.isNullifierOp = false ∧
        op.isMetaBestOp = false := by
  intro op hop
  simp only [List.mem_append, List.mem_cons, List.mem_map,
    List.mem_singleton, List.not_mem_nil, or_false] at hop
  rcases hop with ((rfl | rfl) | ⟨tx, _, rfl⟩) | (rfl | rfl | rfl) <;>
    exact ⟨rfl, rfl, rfl, rfl, rfl⟩

/-- Claim C10: a successful `insert` never modifies canonical-chain state —
the best pointer, the height-to-hash and hash-to-height maps, every
transaction-meta entry, both nullifier sets and the best-pointer meta keys
are exactly as before the call. -/
theorem C10_insert_frame (s s' : BCDB) (b : IndexedBlock)
    (h : s.insert b = Except.ok s') :
    s'.best = s.best ∧
    s'.db.blockHashes = s.db.blockHashes ∧
    s'.db.blockNumbers = s.db.blockNumbers ∧
    s'.db.transactionsMeta = s.db.transactionsMeta ∧
    s'.db.nullifiers = s.db.nullifiers ∧
    s'.db.metaBestHash = s.db.metaBestHash ∧
    s'.db.metaBestNumber = s.db.metaBestNumber := by
  have hframe : ∀ ops : List DBOp,
      (∀ op ∈ ops, op.isBlockHashOp = false ∧ op.isBlockNumberOp = false ∧
        op.isTxMetaOp = false ∧ op.isNullifierOp = false ∧
        op.isMetaBestOp = false) →
      (Except.ok { s with db := writeOps s.db ops } : Except DbError BCDB) = Except.ok s' →
      s'.best = s.best ∧
      s'.db.blockHashes = s.db.blockHashes ∧
      s'.db.blockNumbers = s.db.blockNumbers ∧
      s'.db.transactionsMeta = s.db.transactionsMeta ∧
      s'.db.nullifiers = s.db.nullifiers ∧
      s'.db.metaBestHash = s.db.metaBestHash ∧
      s'.db.metaBestNumber = s.db.metaBestNumber := by
    intro ops hcl heq
    injection heq with heq
    subst heq
    refine ⟨rfl, ?_, ?_, ?_, ?_, ?_, ?_⟩
    · exact writeOps_blockHashes _ _ (fun op ho => (hcl op ho).1)
    · exact writeOps_blockNumbers _ _ (fun op ho => (hcl op ho).2.1)
    · exact writeOps_transactionsMeta _ _ (fun op ho => (hcl op ho).2.2.1)
    · exact writeOps_nullifiers _ _ (fun op ho => (hcl op ho).2.2.2.1)
    · exact (writeOps_metaBest _ _ (fun op ho => (hcl op ho).2.2.2.2)).1
    · exact (writeOps_metaBest _ _ (fun op ho => (hcl op ho).2.2.2.2)).2
  unfold BCDB.insert at h
  by_cases hc : BCDB.contains_block s b.hash
  · rw [if_pos hc] at h
    injection h with h
    subst h
    exact ⟨rfl, rfl, rfl, rfl, rfl, rfl, rfl⟩
  · rw [if_neg hc] at h
    by_cases hp : ¬BCDB.contains_block s b.header.raw.previous_header_hash ∧
        b.header.raw.previous_header_hash ≠ 0
    · rw [if_pos hp] at h
      cases h
    · rw [if_neg hp] at h
      split at h
      · exact hframe _ (insert_ops_classify b _ _) h
      · split at h
        · split at h
          · exact hframe _ (insert_ops_classify b _ _) h
          · simp only [exceptBind_error] at h
            cases h
        · simp only [exceptBind_error] at h
          split at h
          · simp only [exceptBind_ok] at h
            cases h
          · cases h

/-- The empty key-value state: every column empty, no best-pointer keys. -/
def emptyDB : DBState :=
  { blockHeaders := fun _ => none
    blockTransactions := fun _ => none
    transactions := fun _ => none
    blockHashes := fun _ => none
    blockNumbers := fun _ => none
    transactionsMeta := fun _ => none
    nullifiers := fun _ _ => false
    treeStates := fun _ _ => none
    sproutBlockRoots := fun _ => none
    metaBestHash := none
    metaBestNumber := none }

/-- A fresh store: default best pointer (zero hash, height 0), empty db. -/
def freshStore : BCDB := { best := ⟨0, 0⟩, db := emptyDB }

/-- A genesis block (parent is the zero hash) with no transactions. -/
def genesisBlock : IndexedBlock :=
  { header := ⟨100, ⟨0, 0⟩⟩, transactions := [] }

def okD (e : Except DbError BCDB) (d : BCDB) : BCDB :=
  match e with
  | Except.ok v => v
  | Except.error _ => d

/-- The fresh store after inserting the genesis block. -/
def c3s1 : BCDB := okD (freshStore.insert genesisBlock) freshStore

/-- After canonizing the genesis block. -/
def c3s2 : BCDB := okD (c3s1.canonize 100) freshStore

/-- After decanonizing again. -/
def c3s3 : BCDB :=
  match c3s2.decanonize with
  | Except.ok p => p.2
  | Except.error _ => freshStore

/-- Witness for C10: the concrete genesis insert, frame conclusions at the
fresh store. -/
theorem C10_insert_frame_witness :
    c3s1.best = freshStore.best ∧
    c3s1.db.blockHashes = freshStore.db.blockHashes ∧
    c3s1.db.blockNumbers = freshStore.db.blockNumbers ∧
    c3s1.db.transactionsMeta = freshStore.db.transactionsMeta ∧
    c3s1.db.nullifiers = freshStore.db.nullifiers ∧
    c3s1.db.metaBestHash = freshStore.db.metaBestHash ∧
    c3s1.db.metaBestNumber = freshStore.db.metaBestNumber :=
  C10_insert_frame freshStore c3s1 genesisBlock rfl

/-- Counterexample for C3 as frozen: on a fresh store, insert then canonize
then decanonize of the genesis block succeeds and returns its hash, but
the store is not byte-identical to the post-insert state — decanonize
writes the best-pointer keys of the meta column (zero hash, height 0),
which were absent immediately after insert. -/
theorem C3_counterexample :
    freshStore.insert genesisBlock = Except.ok c3s1 ∧
    c3s1.canonize 100 = Except.ok c3s2 ∧
    c3s2.decanonize = Except.ok (100, c3s3) ∧
    c3s1.db.metaBestHash = none ∧
    c3s3.db.metaBestHash = some 0 ∧
    c3s3.db.metaBestNumber = some 0 :=
  ⟨rfl, rfl, rfl, rfl, rfl, rfl⟩

theorem nullifierChecks_ok (s : BCDB) (tag : EpochTag) (ns : List Nat)
    (ops : List DBOp)
    (h : BCDB.nullifierChecks s tag ns = Except.ok ops) :
    ops = ns.map (fun n => DBOp.ins (KeyValue.Nullifier tag n)) ∧
      ∀ n ∈ ns, s.db.nullifiers tag n = false := by
  induction ns generalizing ops with
  | nil =>
    simp only [BCDB.nullifierChecks] at h
    injection h with h
    subst h
    exact ⟨rfl, by simp⟩
  | cons n rest ih =>
    simp only [BCDB.nullifierChecks] at h
    by_cases hc : BCDB.contains_nullifier s tag n
    · rw [if_pos hc] at h
      cases h
    · rw [if_neg hc] at h
      cases hrec : BCDB.nullifierChecks s tag rest with
      | error e =>
        rw [hrec] at h
        cases h
      | ok ops0 =>
        rw [hrec] at h
        simp only [exceptBind_ok] at h
        injection h with h
        subst h
        obtain ⟨he, hall⟩ := ih ops0 hrec
        refine ⟨by rw [he]; rfl, ?_⟩
        intro m hm
        rcases List.mem_cons.mp hm with hm | hm
        · subst hm
          simpa [BCDB.contains_nullifier] using hc
        · exact hall m hm

/-- The nullifier insertions of `canonize` as a pure list. -/
def canonNullOpsList (txs : List IndexedTransaction) : List DBOp :=
  txs.flatMap (fun tx =>
    (jsNullifiersOf tx.raw).map (fun n => DBOp.ins (KeyValue.Nullifier EpochTag.Sprout n))
    ++ (saplingNullifiersOf tx.raw).map (fun n => DBOp.ins (KeyValue.Nullifier EpochTag.Sapling n)))

theorem canonNullOps_ok (s : BCDB) (txs : List IndexedTransaction)
    (ops : List DBOp) (h : BCDB.canonNullOps s txs = Except.ok ops) :
    ops = canonNullOpsList txs ∧
      ∀ tx ∈ txs,
        (∀ n ∈ jsNullifiersOf tx.raw, s.db.nullifiers EpochTag.Sprout n = false) ∧
        (∀ n ∈ saplingNullifiersOf tx.raw, s.db.nullifiers EpochTag.Sapling n = false) := by
  induction txs generalizing ops with
  | nil =>
    simp only [BCDB.canonNullOps] at h
    injection h with h
    subst h
    exact ⟨rfl, by simp⟩
  | cons tx rest ih =>
    simp only [BCDB.canonNullOps] at h
    cases ha : BCDB.nullifierChecks s EpochTag.Sprout (jsNullifiersOf tx.raw) with
    | error e =>
      rw [ha] at h
      cases h
    | ok a =>
      rw [ha] at h
      simp only [exceptBind_ok] at h
      cases hb : BCDB.nullifierChecks s EpochTag.Sapling (saplingNullifiersOf tx.raw) with
      | error e =>
        rw [hb] at h
        cases h
      | ok bops =>
        rw [hb] at h
        simp only [exceptBind_ok] at h
        cases hcrec : BCDB.canonNullOps s rest with
        | error e =>
          rw [hcrec] at h
          cases h
        | ok c =>
          rw [hcrec] at h
          simp only [exceptBind_ok] at h
          injection h with h
          subst h
          obtain ⟨hae, haf⟩ := nullifierChecks_ok s _ _ a ha
          obtain ⟨hbe, hbf⟩ := nullifierChecks_ok s _ _ bops hb
          obtain ⟨hce, hcf⟩ := ih c hcrec
          refine ⟨?_, ?_⟩
          · rw [hae, hbe, hce]
            simp [canonNullOpsList]
          · intro t ht
            rcases List.mem_cons.mp ht with ht | ht
            · subst ht
              exact ⟨haf, hbf⟩
            · exact hcf t ht

theorem mem_canonNullOpsList (txs : List IndexedTransaction) (tag : EpochTag)
    (n : Nat) :
    DBOp.ins (KeyValue.Nullifier tag n) ∈ canonNullOpsList txs ↔
      (tag = EpochTag.Sprout ∧
        n ∈ txs.flatMap (fun tx => jsNullifiersOf tx.raw)) ∨
      (tag = EpochTag.Sapling ∧
        n ∈ txs.flatMap (fun tx => saplingNullifiersOf tx.raw)) := by
  simp only [canonNullOpsList, List.mem_flatMap, List.mem_append,
    List.mem_map]
  constructor
  · rintro ⟨tx, htx, hcase⟩
    rcases hcase with ⟨m, hm, he⟩ | ⟨m, hm, he⟩
    · injection he with he
      injection he with h1 h2
      subst h1
      subst h2
      exact Or.inl ⟨rfl, ⟨tx, htx, hm⟩⟩
    · injection he with he
      injection he with h1 h2
      subst h1
      subst h2
      exact Or.inr ⟨rfl, ⟨tx, htx, hm⟩⟩
  · rintro (⟨htag, tx, htx, hm⟩ | ⟨htag, tx, htx, hm⟩)
    · subst htag
      exact ⟨tx, htx, Or.inl ⟨n, hm, rfl⟩⟩
    · subst htag
      exact ⟨tx, htx, Or.inr ⟨n, hm, rfl⟩⟩

theorem canonNullOpsList_all_ins (txs : List IndexedTransaction) :
    ∀ op ∈ canonNullOpsList txs, ∃ tag n, op = DBOp.ins (KeyValue.Nullifier tag n) := by
  intro op hop
  simp only [canonNullOpsList, List.mem_flatMap, List.mem_append,
    List.mem_map] at hop
  obtain ⟨tx, _, hcase⟩ := hop
  rcases hcase with ⟨m, _, he⟩ | ⟨m, _, he⟩
  · exact ⟨EpochTag.Sprout, m, he.symm⟩
  · exact ⟨EpochTag.Sapling, m, he.symm⟩

theorem canonize_ok_shape (s : BCDB) (h2 : Nat) (s' : BCDB)
    (hcan : s.canonize h2 = Except.ok s') :
    ∃ blk N nullOps metas,
      s.block h2 = some blk ∧
      s.best.hash = blk.header.raw.previous_header_hash ∧
      ((blk.header.raw.previous_header_hash = 0 ∧ s.best.number = 0 ∧ N = 0) ∨
        (blk.header.raw.previous_header_hash ≠ 0 ∧ N = s.best.number + 1)) ∧
      BCDB.canonNullOps s (blk.transactions.drop 1) = Except.ok nullOps ∧
      BCDB.canonMetas s N (blk.transactions.drop 1)
        (BCDB.canonInitMetas N blk) = Except.ok metas ∧
      s' = { best := ⟨h2, N⟩,
             db := writeOps s.db (BCDB.canonOps h2 N nullOps metas) } := by
  unfold BCDB.canonize at hcan
  cases hb : BCDB.block s h2 with
  | none =>
    rw [hb] at hcan
    cases hcan
  | some blk =>
    rw [hb] at hcan
    try simp only [exceptBind_ok] at hcan
    by_cases hpar : s.best.hash ≠ blk.header.raw.previous_header_hash
    · rw [if_pos hpar] at hcan
      cases hcan
    · rw [if_neg hpar] at hcan
      have hpeq : s.best.hash = blk.header.raw.previous_header_hash :=
        not_not.mp hpar
      by_cases hz : blk.header.raw.previous_header_hash = 0
      · rw [if_pos hz] at hcan
        by_cases hb0 : s.best.number = 0
        · rw [if_pos hb0] at hcan
          try simp only [exceptBind_ok] at hcan
          cases hno : BCDB.canonNullOps s (blk.transactions.drop 1) with
          | error e =>
            rw [hno] at hcan
            cases hcan
          | ok nullOps =>
            rw [hno] at hcan
            try simp only [exceptBind_ok] at hcan
            cases hme : BCDB.canonMetas s 0 (blk.transactions.drop 1)
                (BCDB.canonInitMetas 0 blk) with
            | error e =>
              rw [hme] at hcan
              cases hcan
            | ok metas =>
              rw [hme] at hcan
              try simp only [exceptBind_ok] at hcan
              injection hcan with hcan
              exact ⟨blk, 0, nullOps, metas, rfl, hpeq,
                Or.inl ⟨hz, hb0, rfl⟩, hno, hme, hcan.symm⟩
        · rw [if_neg hb0] at hcan
          try simp only [exceptBind_error] at hcan
          cases hcan
      · rw [if_neg hz] at hcan
        try simp only [exceptBind_ok] at hcan
        cases hno : BCDB.canonNullOps s (blk.transactions.drop 1) with
        | error e =>
          rw [hno] at hcan
          cases hcan
        | ok nullOps =>
          rw [hno] at hcan
          try simp only [exceptBind_ok] at hcan
          cases hme : BCDB.canonMetas s (s.best.number + 1)
              (blk.transactions.drop 1)
              (BCDB.canonInitMetas (s.best.number + 1) blk) with
          | error e =>
            rw [hme] at hcan
            cases hcan
          | ok metas =>
            rw [hme] at hcan
            try simp only [exceptBind_ok] at hcan
            injection hcan with hcan
            exact ⟨blk, s.best.number + 1, nullOps, metas, rfl, hpeq,
              Or.inr ⟨hz, rfl⟩, hno, hme, hcan.symm⟩

theorem canonOps_nullifiers (s : DBState) (h N : Nat) (nullOps : List DBOp)
    (metas : List (Nat × TransactionMeta)) (tag : EpochTag) (n : Nat)
    (hall : ∀ op ∈ nullOps, ∃ t m, op = DBOp.ins (KeyValue.Nullifier t m)) :
    (writeOps s (BCDB.canonOps h N nullOps metas)).nullifiers tag n =
      (s.nullifiers tag n
        || decide (DBOp.ins (KeyValue.Nullifier tag n) ∈ nullOps)) := by
  unfold BCDB.canonOps
  rw [writeOps_append, writeOps_append]
  have hbase : (writeOps s
      [DBOp.ins (KeyValue.BlockHash N h),
       DBOp.ins (KeyValue.BlockNumber h N),
       DBOp.ins (KeyValue.MetaBestHash h),
       DBOp.ins (KeyValue.MetaBestNumber N)]).nullifiers = s.nullifiers := by
    apply writeOps_nullifiers
    intro op hop
    rcases List.mem_cons.mp hop with rfl | hop
    · rfl
    rcases List.mem_cons.mp hop with rfl | hop
    · rfl
    rcases List.mem_cons.mp hop with rfl | hop
    · rfl
    rcases List.mem_cons.mp hop with rfl | hop
    · rfl
    cases hop
  have hmeta : ∀ (st : DBState),
      (writeOps st (metas.map (fun p => DBOp.ins (KeyValue.TxMeta p.1 p.2)))).nullifiers =
        st.nullifiers := by
    intro st
    apply writeOps_nullifiers
    intro op hop
    obtain ⟨p, _, rfl⟩ := List.mem_map.mp hop
    rfl
  rw [hmeta]
  rw [writeOps_nullifiers_at _ _ _ _ (by
    intro hmem
    obtain ⟨t, m, he⟩ := hall _ hmem
    cases he)]
  rw [hbase]

/-- Claim C9: Sprout and Sapling nullifiers occupy disjoint namespaces —
canonizing a block whose JoinSplits reveal `n` makes the (Sprout, n) key
present while (Sapling, n) is unchanged, and symmetrically for Sapling
spends with identical bytes; additionally `canonize` only succeeds when
the inserted nullifier was absent. -/
theorem C9_nullifier_namespaces :
    (∀ (s s' : BCDB) (h : Nat) (blk : IndexedBlock) (n : Nat),
      s.block h = some blk →
      s.canonize h = Except.ok s' →
      n ∈ (blk.transactions.drop 1).flatMap (fun tx => jsNullifiersOf tx.raw) →
      n ∉ (blk.transactions.drop 1).flatMap (fun tx => saplingNullifiersOf tx.raw) →
      s'.contains_nullifier EpochTag.Sprout n = true ∧
      s.contains_nullifier EpochTag.Sprout n = false ∧
      s'.contains_nullifier EpochTag.Sapling n =
        s.contains_nullifier EpochTag.Sapling n) ∧
    (∀ (s s' : BCDB) (h : Nat) (blk : IndexedBlock) (n : Nat),
      s.block h = some blk →
      s.canonize h = Except.ok s' →
      n ∈ (blk.transactions.drop 1).flatMap (fun tx => saplingNullifiersOf tx.raw) →
      n ∉ (blk.transactions.drop 1).flatMap (fun tx => jsNullifiersOf tx.raw) →
      s'.contains_nullifier EpochTag.Sapling n = true ∧
      s.contains_nullifier EpochTag.Sapling n = false ∧
      s'.contains_nullifier EpochTag.Sprout n =
        s.contains_nullifier EpochTag.Sprout n) := by
  constructor
  · intro s s' h blk n hblk hcan hmem hnsap
    obtain ⟨blk0, N, nullOps, metas, hb0, _, _, hno, _, hs'⟩ :=
      canonize_ok_shape s h s' hcan
    rw [hblk] at hb0
    injection hb0 with hb0
    subst hb0
    obtain ⟨hne, hfresh⟩ := canonNullOps_ok s _ nullOps hno
    subst hne
    subst hs'
    have hallins := canonNullOpsList_all_ins (blk.transactions.drop 1)
    refine ⟨?_, ?_, ?_⟩
    · show (writeOps s.db _).nullifiers EpochTag.Sprout n = true
      rw [canonOps_nullifiers _ _ _ _ _ _ _ hallins]
      rw [decide_eq_true ((mem_canonNullOpsList _ _ _).mpr (Or.inl ⟨rfl, hmem⟩))]
      simp
    · obtain ⟨tx, htx, hn⟩ := List.mem_flatMap.mp hmem
      exact (hfresh tx htx).1 n hn
    · show (writeOps s.db _).nullifiers EpochTag.Sapling n = _
      rw [canonOps_nullifiers _ _ _ _ _ _ _ hallins]
      have : ¬DBOp.ins (KeyValue.Nullifier EpochTag.Sapling n) ∈
          canonNullOpsList (blk.transactions.drop 1) := by
        intro hc
        rcases (mem_canonNullOpsList _ _ _).mp hc with ⟨ht, _⟩ | ⟨_, hm⟩
        · cases ht
        · exact hnsap hm
      rw [decide_eq_false this]
      simp [BCDB.contains_nullifier]
  · intro s s' h blk n hblk hcan hmem hnsp
    obtain ⟨blk0, N, nullOps, metas, hb0, _, _, hno, _, hs'⟩ :=
      canonize_ok_shape s h s' hcan
    rw [hblk] at hb0
    injection hb0 with hb0
    subst hb0
    obtain ⟨hne, hfresh⟩ := canonNullOps_ok s _ nullOps hno
    subst hne
    subst hs'
    have hallins := canonNullOpsList_all_ins (blk.transactions.drop 1)
    refine ⟨?_, ?_, ?_⟩
    · show (writeOps s.db _).nullifiers EpochTag.Sapling n = true
      rw [canonOps_nullifiers _ _ _ _ _ _ _ hallins]
      rw [decide_eq_true ((mem_canonNullOpsList _ _ _).mpr (Or.inr ⟨rfl, hmem⟩))]
      simp
    · obtain ⟨tx, htx, hn⟩ := List.mem_flatMap.mp hmem
      exact (hfresh tx htx).2 n hn
    · show (writeOps s.db _).nullifiers EpochTag.Sprout n = _
      rw [canonOps_nullifiers _ _ _ _ _ _ _ hallins]
      have : ¬DBOp.ins (KeyValue.Nullifier EpochTag.Sprout n) ∈
          canonNullOpsList (blk.transactions.drop 1) := by
        intro hc
        rcases (mem_canonNullOpsList _ _ _).mp hc with ⟨_, hm⟩ | ⟨ht, _⟩
        · exact hnsp hm
        · cases ht
      rw [decide_eq_false this]
      simp [BCDB.contains_nullifier]

/-- A coinbase transaction fixture. -/
def c9CoinbaseTx : Transaction :=
  { overwintered := false, version := 1, version_group_id := 0
    inputs := [⟨⟨0, 0⟩, [], 0⟩], outputs := [⟨50, []⟩]
    lock_time := 0, expiry_height := 0, join_split := none, sapling := none }

/-- A transaction revealing Sprout nullifier 7 via a JoinSplit. -/
def c9JsTx : Transaction :=
  { overwintered := false, version := 2, version_group_id := 0
    inputs := [], outputs := []
    lock_time := 0, expiry_height := 0
    join_split := some ⟨[⟨0, 0, [7], []⟩], 0⟩, sapling := none }

/-- A transaction revealing Sapling nullifier 8 via a spend description. -/
def c9SapTx : Transaction :=
  { overwintered := true, version := 4, version_group_id := 0
    inputs := [], outputs := []
    lock_time := 0, expiry_height := 0
    join_split := none, sapling := some ⟨0, [⟨8, 0⟩], []⟩ }

/-- A store holding block 200 (child of best 100) with a JoinSplit tx. -/
def c9Store : BCDB :=
  { best := ⟨100, 5⟩
    db := { emptyDB with
      blockHeaders := fun x => if x = 200 then some ⟨100, 0⟩ else none
      blockTransactions := fun x => if x = 200 then some [300, 301] else none
      transactions := fun x =>
        if x = 300 then some c9CoinbaseTx
        else if x = 301 then some c9JsTx else none } }

def c9Blk : IndexedBlock :=
  ⟨⟨200, ⟨100, 0⟩⟩, [⟨300, c9CoinbaseTx⟩, ⟨301, c9JsTx⟩]⟩

/-- The same store shape with a Sapling-spending transaction instead. -/
def c9StoreSap : BCDB :=
  { best := ⟨100, 5⟩
    db := { emptyDB with
      blockHeaders := fun x => if x = 200 then some ⟨100, 0⟩ else none
      blockTransactions := fun x => if x = 200 then some [300, 301] else none
      transactions := fun x =>
        if x = 300 then some c9CoinbaseTx
        else if x = 301 then some c9SapTx else none } }

def c9BlkSap : IndexedBlock :=
  ⟨⟨200, ⟨100, 0⟩⟩, [⟨300, c9CoinbaseTx⟩, ⟨301, c9SapTx⟩]⟩

def c9After : BCDB := okD (c9Store.canonize 200) freshStore

def c9AfterSap : BCDB := okD (c9StoreSap.canonize 200) freshStore

/-- Witness for C9: canonizing the concrete blocks, the Sprout insertion of
nullifier 7 leaves (Sapling, 7) untouched and vice versa for 8. -/
theorem C9_nullifier_namespaces_witness :
    (c9After.contains_nullifier EpochTag.Sprout 7 = true ∧
      c9Store.contains_nullifier EpochTag.Sprout 7 = false ∧
      c9After.contains_nullifier EpochTag.Sapling 7 =
        c9Store.contains_nullifier EpochTag.Sapling 7) ∧
    (c9AfterSap.contains_nullifier EpochTag.Sapling 8 = true ∧
      c9StoreSap.contains_nullifier EpochTag.Sapling 8 = false ∧
      c9AfterSap.contains_nullifier EpochTag.Sprout 8 =
        c9StoreSap.contains_nullifier EpochTag.Sprout 8) :=
  ⟨C9_nullifier_namespaces.1 c9Store c9After 200 c9Blk 7 rfl rfl
      (by decide) (by decide),
    C9_nullifier_namespaces.2 c9StoreSap c9AfterSap 200 c9BlkSap 8 rfl rfl
      (by decide) (by decide)⟩

/-- A concrete side-chain walk: `sideWalk s start route anc` holds when
`route` lists the successive stored, non-canonical hashes from `start`
along parent links, ending at `anc`. -/
def sideWalk (s : BCDB) : Nat → List Nat → Nat → Bool
  | start, [], anc => start == anc
  | start, h :: rest, anc =>
    start == h && (BCDB.block_number s h).isNone &&
      (match BCDB.block_header s h with
       | some hdr => sideWalk s hdr.raw.previous_header_hash rest anc
       | none => false)

theorem originLoop_side (s : BCDB) (best : BestBlock) (route : List Nat)
    (start anc a fuel forkLen : Nat) (route0 : List Nat)
    (hw : sideWalk s start route anc = true)
    (ha : BCDB.block_number s anc = some a)
    (hlen : route.length < fuel) :
    BCDB.originLoop s best fuel start route0 forkLen =
      (if a + (forkLen + route.length) + 1 > best.number then
        Except.ok (BlockOrigin.SideChainBecomingCanonChain
          ⟨a, (route0 ++ route).reverse, BCDB.decanonizedRoute s a best.number,
            a + (forkLen + route.length) + 1⟩)
      else
        Except.ok (BlockOrigin.SideChain
          ⟨a, (route0 ++ route).reverse, BCDB.decanonizedRoute s a best.number,
            a + (forkLen + route.length) + 1⟩)) := by
  induction route generalizing start fuel forkLen route0 with
  | nil =>
    simp only [sideWalk, beq_iff_eq] at hw
    subst hw
    cases fuel with
    | zero => omega
    | succ f =>
      simp only [BCDB.originLoop, ha, List.length_nil, List.append_nil]
      rfl
  | cons h rest ih =>
    simp only [sideWalk, Bool.and_eq_true, beq_iff_eq] at hw
    obtain ⟨⟨hsh, hnum⟩, hcont⟩ := hw
    subst hsh
    cases fuel with
    | zero => simp at hlen
    | succ f =>
      have hnone : BCDB.block_number s start = none :=
        Option.isNone_iff_eq_none.mp hnum
      cases hh : BCDB.block_header s start with
      | none =>
        rw [hh] at hcont
        cases hcont
      | some hdr =>
        rw [hh] at hcont
        simp only [BCDB.originLoop, hnone, hh]
        rw [ih _ _ _ _ hcont (by simpa using hlen)]
        simp only [List.length_cons, List.append_assoc, List.singleton_append]
        have he : forkLen + 1 + rest.length = forkLen + (rest.length + 1) := by
          omega
        rw [he]

theorem originLoop_ancient (s : BCDB) (best : BestBlock) (route : List Nat)
    (start anc fuel forkLen : Nat) (route0 : List Nat)
    (hw : sideWalk s start route anc = true)
    (hlen : fuel ≤ route.length) :
    BCDB.originLoop s best fuel start route0 forkLen =
      Except.error DbError.AncientFork := by
  induction fuel generalizing start route route0 forkLen with
  | zero => rfl
  | succ f ih =>
    cases route with
    | nil => simp at hlen
    | cons h rest =>
      simp only [sideWalk, Bool.and_eq_true, beq_iff_eq] at hw
      obtain ⟨⟨hsh, hnum⟩, hcont⟩ := hw
      subst hsh
      have hnone : BCDB.block_number s start = none :=
        Option.isNone_iff_eq_none.mp hnum
      cases hh : BCDB.block_header s start with
      | none =>
        rw [hh] at hcont
        cases hcont
      | some hdr =>
        rw [hh] at hcont
        simp only [BCDB.originLoop, hnone, hh]
        exact ih _ _ _ _ hcont (by simpa using hlen)

/-- Claim C4: `block_origin` classifies an incoming header as KnownBlock
when stored; as CanonChain at `best + 1` when the parent is the best
block; as UnknownParent when the parent is neither best nor stored; as
SideChain or SideChainBecomingCanonChain (the latter exactly when the new
number exceeds the best number) with ancestor, canonized route and
decanonized route computed from the walk; and as AncientFork when 2048
stored side-chain headers are walked without reaching the canonical
chain. -/
theorem C4_block_origin :
    (∀ (s : BCDB) (header : IndexedBlockHeader),
      BCDB.block_hash s s.best.number = some s.best.hash →
      BCDB.contains_block s header.hash = true →
      s.block_origin header = Except.ok BlockOrigin.KnownBlock) ∧
    (∀ (s : BCDB) (header : IndexedBlockHeader),
      BCDB.block_hash s s.best.number = some s.best.hash →
      BCDB.contains_block s header.hash = false →
      s.best.hash = header.raw.previous_header_hash →
      s.block_origin header =
        Except.ok (BlockOrigin.CanonChain (s.best.number + 1))) ∧
    (∀ (s : BCDB) (header : IndexedBlockHeader),
      BCDB.block_hash s s.best.number = some s.best.hash →
      BCDB.contains_block s header.hash = false →
      s.best.hash ≠ header.raw.previous_header_hash →
      BCDB.contains_block s header.raw.previous_header_hash = false →
      s.block_origin header = Except.error DbError.UnknownParent) ∧
    (∀ (s : BCDB) (header : IndexedBlockHeader) (route : List Nat)
        (anc a : Nat),
      BCDB.block_hash s s.best.number = some s.best.hash →
      BCDB.contains_block s header.hash = false →
      s.best.hash ≠ header.raw.previous_header_hash →
      BCDB.contains_block s header.raw.previous_header_hash = true →
      sideWalk s header.raw.previous_header_hash route anc = true →
      BCDB.block_number s anc = some a →
      route.length < MAX_FORK_ROUTE_PRESET →
      s.block_origin header =
        (if a + route.length + 1 > s.best.number then
          Except.ok (BlockOrigin.SideChainBecomingCanonChain
            ⟨a, route.reverse, BCDB.decanonizedRoute s a s.best.number,
              a + route.length + 1⟩)
        else
          Except.ok (BlockOrigin.SideChain
            ⟨a, route.reverse, BCDB.decanonizedRoute s a s.best.number,
              a + route.length + 1⟩))) ∧
    (∀ (s : BCDB) (header : IndexedBlockHeader) (route : List Nat)
        (anc : Nat),
      BCDB.block_hash s s.best.number = some s.best.hash →
      BCDB.contains_block s header.hash = false →
      s.best.hash ≠ header.raw.previous_header_hash →
      BCDB.contains_block s header.raw.previous_header_hash = true →
      sideWalk s header.raw.previous_header_hash route anc = true →
      route.length = MAX_FORK_ROUTE_PRESET →
      s.block_origin header = Except.error DbError.AncientFork) := by
  refine ⟨?_, ?_, ?_, ?_, ?_⟩
  · intro s header hcons hknown
    unfold BCDB.block_origin
    rw [if_neg (by rw [hcons]; exact fun hc => hc rfl), if_pos hknown]
  · intro s header hcons hknown hpar
    unfold BCDB.block_origin
    rw [if_neg (by rw [hcons]; exact fun hc => hc rfl)]
    rw [if_neg (by rw [hknown]; exact Bool.false_ne_true), if_pos hpar]
  · intro s header hcons hknown hpar hnp
    unfold BCDB.block_origin
    rw [if_neg (by rw [hcons]; exact fun hc => hc rfl)]
    rw [if_neg (by rw [hknown]; exact Bool.false_ne_true), if_neg hpar]
    rw [if_pos (by rw [hnp]; exact Bool.false_ne_true)]
  · intro s header route anc a hcons hknown hpar hp hw ha hlen
    unfold BCDB.block_origin
    rw [if_neg (by rw [hcons]; exact fun hc => hc rfl)]
    rw [if_neg (by rw [hknown]; exact Bool.false_ne_true), if_neg hpar]
    rw [if_neg (by rw [hp]; exact fun hc => hc rfl)]
    rw [originLoop_side s s.best route _ anc a MAX_FORK_ROUTE_PRESET 0 []
      hw ha hlen]
    simp only [List.nil_append, Nat.zero_add]
  · intro s header route anc hcons hknown hpar hp hw hlen
    unfold BCDB.block_origin
    rw [if_neg (by rw [hcons]; exact fun hc => hc rfl)]
    rw [if_neg (by rw [hknown]; exact Bool.false_ne_true), if_neg hpar]
    rw [if_neg (by rw [hp]; exact fun hc => hc rfl)]
    exact originLoop_ancient s s.best route _ anc MAX_FORK_ROUTE_PRESET 0 []
      hw (by omega)

/-- A store with canonical blocks 9 (height 0) and 10 (height 1, best) and
one stored side block 20 (child of 9). -/
def c4Store : BCDB :=
  { best := ⟨10, 1⟩
    db := { emptyDB with
      blockHeaders := fun x =>
        if x = 9 then some ⟨0, 0⟩
        else if x = 10 then some ⟨9, 0⟩
        else if x = 20 then some ⟨9, 0⟩
        else none
      blockHashes := fun n =>
        if n = 0 then some 9 else if n = 1 then some 10 else none
      blockNumbers := fun x =>
        if x = 9 then some 0 else if x = 10 then some 1 else none } }

/-- A store whose canonical chain is the single block 5000 and which holds
a stored side chain of 2048 headers 2, 3, ..., 2049 (each the parent of
the previous). -/
def c4AncientStore : BCDB :=
  { best := ⟨5000, 0⟩
    db := { emptyDB with
      blockHeaders := fun x =>
        if x = 5000 then some ⟨0, 0⟩
        else if 2 ≤ x ∧ x ≤ 2049 then some ⟨x + 1, 0⟩
        else none
      blockHashes := fun n => if n = 0 then some 5000 else none
      blockNumbers := fun x => if x = 5000 then some 0 else none } }

def c4KnownHeader : IndexedBlockHeader := ⟨10, ⟨9, 0⟩⟩
def c4CanonHeader : IndexedBlockHeader := ⟨30, ⟨10, 0⟩⟩
def c4OrphanHeader : IndexedBlockHeader := ⟨31, ⟨77, 0⟩⟩
def c4SideHeader : IndexedBlockHeader := ⟨32, ⟨20, 0⟩⟩
def c4AncientHeader : IndexedBlockHeader := ⟨1, ⟨2, 0⟩⟩

theorem c4AncientWalk : ∀ (len start : Nat), 2 ≤ start →
    start + len ≤ 2050 →
    sideWalk c4AncientStore start (List.range' start len) (start + len) = true := by
  intro len
  induction len with
  | zero =>
    intro start _ _
    simp [sideWalk, List.range']
  | succ n ih =>
    intro start h2 hle
    have hne : ¬start = 5000 := by omega
    have hle2 : start ≤ 2049 := by omega
    have hnum : BCDB.block_number c4AncientStore start = none := by
      simp [BCDB.block_number, c4AncientStore, emptyDB, hne]
    have hhdr : BCDB.block_header c4AncientStore start =
        some ⟨start, ⟨start + 1, 0⟩⟩ := by
      simp [BCDB.block_header, c4AncientStore, emptyDB, hne, h2, hle2]
    show sideWalk c4AncientStore start
      (start :: List.range' (start + 1) n) (start + (n + 1)) = true
    simp only [sideWalk, hnum, hhdr, beq_self_eq_true, Bool.true_and,
      Option.isNone_none]
    have he : start + (n + 1) = (start + 1) + n := by omega
    rw [he]
    exact ih (start + 1) (by omega) (by omega)

/-- Witness for C4: all five classifications at concrete stores, including
a 2049-header side route (incoming header plus 2048 stored ancestors)
yielding AncientFork. -/
theorem C4_block_origin_witness :
    c4Store.block_origin c4KnownHeader = Except.ok BlockOrigin.KnownBlock ∧
    c4Store.block_origin c4CanonHeader =
      Except.ok (BlockOrigin.CanonChain 2) ∧
    c4Store.block_origin c4OrphanHeader =
      Except.error DbError.UnknownParent ∧
    c4Store.block_origin c4SideHeader =
      Except.ok (BlockOrigin.SideChainBecomingCanonChain
        ⟨0, [20], BCDB.decanonizedRoute c4Store 0 1, 2⟩) ∧
    c4AncientStore.block_origin c4AncientHeader =
      Except.error DbError.AncientFork := by
  refine ⟨?_, ?_, ?_, ?_, ?_⟩
  · exact C4_block_origin.1 c4Store c4KnownHeader rfl rfl
  · exact C4_block_origin.2.1 c4Store c4CanonHeader rfl rfl rfl
  · exact C4_block_origin.2.2.1 c4Store c4OrphanHeader rfl rfl (by decide) rfl
  · have hinst := C4_block_origin.2.2.2.1 c4Store c4SideHeader [20] 9 0
      rfl rfl (by decide) rfl rfl rfl (by decide)
    rw [hinst]
    rfl
  · exact C4_block_origin.2.2.2.2 c4AncientStore c4AncientHeader
      (List.range' 2 2048) 2050 rfl rfl (by decide) rfl
      (c4AncientWalk 2048 2 (by omega) (by omega))
      (by simp [MAX_FORK_ROUTE_PRESET])

/-- The prevout indices referencing transaction `k` within an input list. -/
def idxsFor (k : Nat) (inputs : List TransactionInput) : List Nat :=
  (inputs.filter (fun i => decide (i.previous_output.hash = k))).map
    (fun i => i.previous_output.index)

theorem idxsFor_append (k : Nat) (l1 l2 : List TransactionInput) :
    idxsFor k (l1 ++ l2) = idxsFor k l1 ++ idxsFor k l2 := by
  simp [idxsFor, List.filter_append]

/-- Spend bits set one by one (the per-key trace of `canonize`). -/
def usedFold (m : TransactionMeta) (idxs : List Nat) : TransactionMeta :=
  idxs.foldl TransactionMeta.denote_used m

/-- Spend bits cleared one by one (the per-key trace of `decanonize`). -/
def unusedFold (m : TransactionMeta) (idxs : List Nat) : TransactionMeta :=
  idxs.foldl TransactionMeta.denote_unused m

/-- The per-key effect of the spend pass: the current map entry (or, when
absent, the store meta) threaded through `denote_used`. -/
def applySpends (s : BCDB) (k : Nat) :
    List Nat → Option TransactionMeta → Option TransactionMeta
  | [], cur => cur
  | idx :: rest, cur =>
    match cur with
    | some mm => applySpends s k rest (some (mm.denote_used idx))
    | none =>
      match BCDB.transaction_meta s k with
      | none => none
      | some mm => applySpends s k rest (some (mm.denote_used idx))

/-- The per-key effect of the unspend pass. -/
def applyUnspends (s : BCDB) (k : Nat) :
    List Nat → Option TransactionMeta → Option TransactionMeta
  | [], cur => cur
  | idx :: rest, cur =>
    match cur with
    | some mm => applyUnspends s k rest (some (mm.denote_unused idx))
    | none =>
      match BCDB.transaction_meta s k with
      | none => none
      | some mm => applyUnspends s k rest (some (mm.denote_unused idx))

theorem applySpends_some (s : BCDB) (k : Nat) (idxs : List Nat)
    (m : TransactionMeta) :
    applySpends s k idxs (some m) = some (usedFold m idxs) := by
  induction idxs generalizing m with
  | nil => rfl
  | cons idx rest ih => simpa [applySpends, usedFold] using ih (m.denote_used idx)

theorem applyUnspends_some (s : BCDB) (k : Nat) (idxs : List Nat)
    (m : TransactionMeta) :
    applyUnspends s k idxs (some m) = some (unusedFold m idxs) := by
  induction idxs generalizing m with
  | nil => rfl
  | cons idx rest ih =>
    simpa [applyUnspends, unusedFold] using ih (m.denote_unused idx)

theorem applySpends_none_store (s : BCDB) (k : Nat) (idxs : List Nat)
    (hst : BCDB.transaction_meta s k = none) :
    applySpends s k idxs none = none := by
  cases idxs with
  | nil => rfl
  | cons idx rest => simp [applySpends, hst]

theorem applyUnspends_none_store (s : BCDB) (k : Nat) (idxs : List Nat)
    (hst : BCDB.transaction_meta s k = none) :
    applyUnspends s k idxs none = none := by
  cases idxs with
  | nil => rfl
  | cons idx rest => simp [applyUnspends, hst]

theorem applySpends_append (s : BCDB) (k : Nat) (l1 l2 : List Nat)
    (cur : Option TransactionMeta) :
    applySpends s k (l1 ++ l2) cur = applySpends s k l2 (applySpends s k l1 cur) := by
  induction l1 generalizing cur with
  | nil => rfl
  | cons idx rest ih =>
    cases cur with
    | some mm => simpa [applySpends] using ih (some (mm.denote_used idx))
    | none =>
      cases hst : BCDB.transaction_meta s k with
      | none =>
        simp [applySpends, hst, applySpends_none_store s k l2 hst]
      | some mm =>
        simpa [applySpends, hst] using ih (some (mm.denote_used idx))

theorem applyUnspends_append (s : BCDB) (k : Nat) (l1 l2 : List Nat)
    (cur : Option TransactionMeta) :
    applyUnspends s k (l1 ++ l2) cur =
      applyUnspends s k l2 (applyUnspends s k l1 cur) := by
  induction l1 generalizing cur with
  | nil => rfl
  | cons idx rest ih =>
    cases cur with
    | some mm => simpa [applyUnspends] using ih (some (mm.denote_unused idx))
    | none =>
      cases hst : BCDB.transaction_meta s k with
      | none =>
        simp [applyUnspends, hst, applyUnspends_none_store s k l2 hst]
      | some mm =>
        simpa [applyUnspends, hst] using ih (some (mm.denote_unused idx))

theorem applySpends_isSome (s : BCDB) (k : Nat) (idxs : List Nat)
    (cur : Option TransactionMeta) (h : cur.isSome) :
    (applySpends s k idxs cur).isSome := by
  obtain ⟨m, rfl⟩ := Option.isSome_iff_exists.mp h
  rw [applySpends_some]
  rfl

theorem applyUnspends_isSome (s : BCDB) (k : Nat) (idxs : List Nat)
    (cur : Option TransactionMeta) (h : cur.isSome) :
    (applyUnspends s k idxs cur).isSome := by
  obtain ⟨m, rfl⟩ := Option.isSome_iff_exists.mp h
  rw [applyUnspends_some]
  rfl

/-- Bulk `List.set` at a list of indices. -/
def setFold (bs : List Bool) (idxs : List Nat) (v : Bool) : List Bool :=
  idxs.foldl (fun b i => b.set i v) bs

theorem setFold_length (bs : List Bool) (idxs : List Nat) (v : Bool) :
    (setFold bs idxs v).length = bs.length := by
  induction idxs generalizing bs with
  | nil => rfl
  | cons i rest ih =>
    show (setFold (bs.set i v) rest v).length = bs.length
    rw [ih, List.length_set]

theorem getElem?_set_if (bs : List Bool) (i j : Nat) (v : Bool) :
    (bs.set i v)[j]? = if i = j ∧ j < bs.length then some v else bs[j]? := by
  induction bs generalizing i j with
  | nil => simp
  | cons b rest ih =>
    cases i with
    | zero =>
      cases j with
      | zero => simp
      | succ j => simp
    | succ i =>
      cases j with
      | zero => simp
      | succ j =>
        simp only [List.set_cons_succ, List.getElem?_cons_succ, ih,
          List.length_cons]
        by_cases hc : i = j ∧ j < rest.length
        · rw [if_pos hc, if_pos ⟨by rw [hc.1], Nat.succ_lt_succ hc.2⟩]
        · rw [if_neg hc, if_neg (by
            intro hc2
            exact hc ⟨Nat.succ_injective hc2.1, Nat.lt_of_succ_lt_succ hc2.2⟩)]

theorem setFold_getElem? (bs : List Bool) (idxs : List Nat) (v : Bool)
    (j : Nat) :
    (setFold bs idxs v)[j]? =
      if j ∈ idxs ∧ j < bs.length then some v else bs[j]? := by
  induction idxs generalizing bs with
  | nil => simp [setFold]
  | cons i rest ih =>
    show (setFold (bs.set i v) rest v)[j]? = _
    rw [ih, List.length_set, getElem?_set_if]
    by_cases hr : j ∈ rest ∧ j < bs.length
    · rw [if_pos hr, if_pos ⟨List.mem_cons_of_mem _ hr.1, hr.2⟩]
    · rw [if_neg hr]
      by_cases hij : i = j ∧ j < bs.length
      · rw [if_pos hij, if_pos ⟨by rw [hij.1]; exact List.mem_cons_self _ _, hij.2⟩]
      · rw [if_neg hij, if_neg (by
          intro hc
          rcases List.mem_cons.mp hc.1 with he | hm
          · exact hij ⟨he.symm, hc.2⟩
          · exact hr ⟨hm, hc.2⟩)]

theorem setFold_inverse (bs : List Bool) (idxs : List Nat)
    (h : ∀ i ∈ idxs, bs[i]? ≠ some true) :
    setFold (setFold bs idxs true) idxs false = bs := by
  apply List.ext_getElem?
  intro j
  rw [setFold_getElem?, setFold_length, setFold_getElem?]
  by_cases hj : j ∈ idxs ∧ j < bs.length
  · rw [if_pos hj]
    rw [List.getElem?_eq_getElem hj.2]
    cases hb : bs[j] with
    | true =>
      exact absurd (by rw [List.getElem?_eq_getElem hj.2, hb]) (h j hj.1)
    | false => rfl
  · rw [if_neg hj, if_neg hj]

theorem usedFold_eq (m : TransactionMeta) (idxs : List Nat) :
    usedFold m idxs = ⟨m.coinbase, m.height, setFold m.spent idxs true⟩ := by
  induction idxs generalizing m with
  | nil => rfl
  | cons i rest ih =>
    show usedFold (m.denote_used i) rest = _
    rw [ih]
    rfl

theorem unusedFold_eq (m : TransactionMeta) (idxs : List Nat) :
    unusedFold m idxs = ⟨m.coinbase, m.height, setFold m.spent idxs false⟩ := by
  induction idxs generalizing m with
  | nil => rfl
  | cons i rest ih =>
    show unusedFold (m.denote_unused i) rest = _
    rw [ih]
    rfl

/-- Clearing the spend bits set by the spend pass restores the original
meta, provided none of the touched bits was already set. -/
theorem fold_unspend_spend (m : TransactionMeta) (idxs : List Nat)
    (h : ∀ i ∈ idxs, m.is_spent i ≠ some true) :
    unusedFold (usedFold m idxs) idxs = m := by
  rw [usedFold_eq, unusedFold_eq]
  show (⟨m.coinbase, m.height, setFold (setFold m.spent idxs true) idxs false⟩ :
    TransactionMeta) = m
  rw [setFold_inverse m.spent idxs (fun i hi => by
    have := h i hi
    rwa [TransactionMeta.is_spent, List.get?_eq_getElem?] at this)]

theorem applySpends_cons_store (s : BCDB) (k i : Nat) (rest : List Nat)
    (mm : TransactionMeta) (hst : BCDB.transaction_meta s k = some mm) :
    applySpends s k (i :: rest) none = some (usedFold mm (i :: rest)) := by
  show (match BCDB.transaction_meta s k with
    | none => none
    | some mm => applySpends s k rest (some (mm.denote_used i))) = _
  rw [hst]
  show applySpends s k rest (some (mm.denote_used i)) = _
  rw [applySpends_some]
  rfl

theorem applyUnspends_cons_store (s : BCDB) (k i : Nat) (rest : List Nat)
    (mm : TransactionMeta) (hst : BCDB.transaction_meta s k = some mm) :
    applyUnspends s k (i :: rest) none = some (unusedFold mm (i :: rest)) := by
  show (match BCDB.transaction_meta s k with
    | none => none
    | some mm => applyUnspends s k rest (some (mm.denote_unused i))) = _
  rw [hst]
  show applyUnspends s k rest (some (mm.denote_unused i)) = _
  rw [applyUnspends_some]
  rfl

theorem idxsFor_cons_pos (k : Nat) (inp : TransactionInput)
    (rest : List TransactionInput) (h : inp.previous_output.hash = k) :
    idxsFor k (inp :: rest) = inp.previous_output.index :: idxsFor k rest := by
  simp [idxsFor, List.filter_cons, h]

theorem idxsFor_cons_neg (k : Nat) (inp : TransactionInput)
    (rest : List TransactionInput) (h : ¬inp.previous_output.hash = k) :
    idxsFor k (inp :: rest) = idxsFor k rest := by
  simp [idxsFor, List.filter_cons, h]

theorem mem_idxsFor (k j : Nat) (inputs : List TransactionInput) :
    j ∈ idxsFor k inputs ↔
      ∃ inp ∈ inputs, inp.previous_output.hash = k ∧
        inp.previous_output.index = j := by
  simp only [idxsFor, List.mem_map, List.mem_filter, decide_eq_true_eq]
  constructor
  · rintro ⟨inp, ⟨hm, hk⟩, hj⟩
    exact ⟨inp, hm, hk, hj⟩
  · rintro ⟨inp, hm, hk, hj⟩
    exact ⟨inp, ⟨hm, hk⟩, hj⟩

theorem spendInputs_char (s : BCDB) (inputs : List TransactionInput)
    (m m' : List (Nat × TransactionMeta))
    (h : BCDB.spendInputs s inputs m = Except.ok m') (k : Nat) :
    alistLookup m' k = applySpends s k (idxsFor k inputs) (alistLookup m k) := by
  induction inputs generalizing m with
  | nil =>
    simp only [BCDB.spendInputs] at h
    injection h with h
    subst h
    rfl
  | cons inp rest ih =>
    simp only [BCDB.spendInputs] at h
    cases hl : alistLookup m inp.previous_output.hash with
    | some mm =>
      rw [hl] at h
      have ihh := ih _ h
      by_cases hk : inp.previous_output.hash = k
      · rw [idxsFor_cons_pos _ _ _ hk]
        subst hk
        rw [ihh, alistLookup_set_self, hl]
        rfl
      · rw [idxsFor_cons_neg _ _ _ hk, ihh,
          alistLookup_set_ne _ _ _ _ (fun e => hk e.symm)]
    | none =>
      rw [hl] at h
      cases hst : BCDB.transaction_meta s inp.previous_output.hash with
      | none =>
        rw [hst] at h
        cases h
      | some mm =>
        rw [hst] at h
        have ihh := ih _ h
        by_cases hk : inp.previous_output.hash = k
        · rw [idxsFor_cons_pos _ _ _ hk]
          subst hk
          rw [ihh, alistLookup_set_self, hl]
          show applySpends s inp.previous_output.hash (idxsFor _ rest)
              (some (mm.denote_used inp.previous_output.index)) =
            (match BCDB.transaction_meta s inp.previous_output.hash with
              | none => none
              | some mm => applySpends s inp.previous_output.hash (idxsFor _ rest)
                  (some (mm.denote_used inp.previous_output.index)))
          rw [hst]
        · rw [idxsFor_cons_neg _ _ _ hk, ihh,
            alistLookup_set_ne _ _ _ _ (fun e => hk e.symm)]

theorem spendInputs_some_preserve (s : BCDB) (inputs : List TransactionInput)
    (m m' : List (Nat × TransactionMeta))
    (h : BCDB.spendInputs s inputs m = Except.ok m') (k : Nat)
    (hk : (alistLookup m k).isSome) : (alistLookup m' k).isSome := by
  rw [spendInputs_char s inputs m m' h k]
  exact applySpends_isSome _ _ _ _ hk

theorem spendInputs_ref (s : BCDB) (inputs : List TransactionInput)
    (m m' : List (Nat × TransactionMeta))
    (h : BCDB.spendInputs s inputs m = Except.ok m') :
    ∀ inp ∈ inputs, (alistLookup m' inp.previous_output.hash).isSome := by
  induction inputs generalizing m with
  | nil => intro inp hm; cases hm
  | cons inp0 rest ih =>
    simp only [BCDB.spendInputs] at h
    intro inp hm
    cases hl : alistLookup m inp0.previous_output.hash with
    | some mm =>
      rw [hl] at h
      rcases List.mem_cons.mp hm with he | hm2
      · subst he
        exact spendInputs_some_preserve s rest _ m' h _
          (by rw [alistLookup_set_self]; rfl)
      · exact ih _ h inp hm2
    | none =>
      rw [hl] at h
      cases hst : BCDB.transaction_meta s inp0.previous_output.hash with
      | none =>
        rw [hst] at h
        cases h
      | some mm =>
        rw [hst] at h
        rcases List.mem_cons.mp hm with he | hm2
        · subst he
          exact spendInputs_some_preserve s rest _ m' h _
            (by rw [alistLookup_set_self]; rfl)
        · exact ih _ h inp hm2

theorem spendInputs_keysNodup (s : BCDB) (inputs : List TransactionInput)
    (m m' : List (Nat × TransactionMeta))
    (h : BCDB.spendInputs s inputs m = Except.ok m')
    (hnd : (m.map Prod.fst).Nodup) : (m'.map Prod.fst).Nodup := by
  induction inputs generalizing m with
  | nil =>
    simp only [BCDB.spendInputs] at h
    injection h with h
    subst h
    exact hnd
  | cons inp rest ih =>
    simp only [BCDB.spendInputs] at h
    cases hl : alistLookup m inp.previous_output.hash with
    | some mm =>
      rw [hl] at h
      exact ih _ h (alistSet_keysNodup _ _ _ hnd)
    | none =>
      rw [hl] at h
      cases hst : BCDB.transaction_meta s inp.previous_output.hash with
      | none =>
        rw [hst] at h
        cases h
      | some mm =>
        rw [hst] at h
        exact ih _ h (alistSet_keysNodup _ _ _ hnd)

theorem canonMetas_char (s : BCDB) (height : Nat)
    (txs : List IndexedTransaction) (m0 m1 : List (Nat × TransactionMeta))
    (h : BCDB.canonMetas s height txs m0 = Except.ok m1) (k : Nat)
    (hk : k ∉ txs.map (fun t => t.hash)) :
    alistLookup m1 k =
      applySpends s k (idxsFor k (txs.flatMap (fun t => t.raw.inputs)))
        (alistLookup m0 k) := by
  induction txs generalizing m0 with
  | nil =>
    simp only [BCDB.canonMetas] at h
    injection h with h
    subst h
    rfl
  | cons tx rest ih =>
    simp only [BCDB.canonMetas] at h
    simp only [List.map_cons, List.mem_cons] at hk
    push_neg at hk
    cases hsp : BCDB.spendInputs s tx.raw.inputs
        (alistSet m0 tx.hash (TransactionMeta.new height tx.raw.outputs.length)) with
    | error e =>
      rw [hsp] at h
      simp only [exceptBind_error] at h
      cases h
    | ok m2 =>
      rw [hsp] at h
      simp only [exceptBind_ok] at h
      rw [ih _ h hk.2, spendInputs_char _ _ _ _ hsp k,
        alistLookup_set_ne _ _ _ _ hk.1, List.flatMap_cons, idxsFor_append,
        applySpends_append]

theorem canonMetas_some_preserve (s : BCDB) (height : Nat)
    (txs : List IndexedTransaction) (m0 m1 : List (Nat × TransactionMeta))
    (h : BCDB.canonMetas s height txs m0 = Except.ok m1) (k : Nat)
    (hk : (alistLookup m0 k).isSome) : (alistLookup m1 k).isSome := by
  induction txs generalizing m0 with
  | nil =>
    simp only [BCDB.canonMetas] at h
    injection h with h
    subst h
    exact hk
  | cons tx rest ih =>
    simp only [BCDB.canonMetas] at h
    cases hsp : BCDB.spendInputs s tx.raw.inputs
        (alistSet m0 tx.hash (TransactionMeta.new height tx.raw.outputs.length)) with
    | error e =>
      rw [hsp] at h
      simp only [exceptBind_error] at h
      cases h
    | ok m2 =>
      rw [hsp] at h
      simp only [exceptBind_ok] at h
      exact ih _ h (spendInputs_some_preserve _ _ _ _ hsp _
        (alistLookup_isSome_set _ _ _ _ hk))

theorem canonMetas_ref (s : BCDB) (height : Nat)
    (txs : List IndexedTransaction) (m0 m1 : List (Nat × TransactionMeta))
    (h : BCDB.canonMetas s height txs m0 = Except.ok m1) :
    ∀ tx ∈ txs, ∀ inp ∈ tx.raw.inputs,
      (alistLookup m1 inp.previous_output.hash).isSome := by
  induction txs generalizing m0 with
  | nil => intro tx htx; cases htx
  | cons tx0 rest ih =>
    simp only [BCDB.canonMetas] at h
    intro tx htx inp hinp
    cases hsp : BCDB.spendInputs s tx0.raw.inputs
        (alistSet m0 tx0.hash (TransactionMeta.new height tx0.raw.outputs.length)) with
    | error e =>
      rw [hsp] at h
      simp only [exceptBind_error] at h
      cases h
    | ok m2 =>
      rw [hsp] at h
      simp only [exceptBind_ok] at h
      rcases List.mem_cons.mp htx with he | htx2
      · subst he
        exact canonMetas_some_preserve _ _ _ _ _ h _
          (spendInputs_ref _ _ _ _ hsp inp hinp)
      · exact ih _ h tx htx2 inp hinp

theorem canonMetas_keysNodup (s : BCDB) (height : Nat)
    (txs : List IndexedTransaction) (m0 m1 : List (Nat × TransactionMeta))
    (h : BCDB.canonMetas s height txs m0 = Except.ok m1)
    (hnd : (m0.map Prod.fst).Nodup) : (m1.map Prod.fst).Nodup := by
  induction txs generalizing m0 with
  | nil =>
    simp only [BCDB.canonMetas] at h
    injection h with h
    subst h
    exact hnd
  | cons tx rest ih =>
    simp only [BCDB.canonMetas] at h
    cases hsp : BCDB.spendInputs s tx.raw.inputs
        (alistSet m0 tx.hash (TransactionMeta.new height tx.raw.outputs.length)) with
    | error e =>
      rw [hsp] at h
      simp only [exceptBind_error] at h
      cases h
    | ok m2 =>
      rw [hsp] at h
      simp only [exceptBind_ok] at h
      exact ih _ h (spendInputs_keysNodup _ _ _ _ hsp
        (alistSet_keysNodup _ _ _ hnd))

theorem canonInitMetas_keysNodup (N : Nat) (blk : IndexedBlock) :
    ((BCDB.canonInitMetas N blk).map Prod.fst).Nodup := by
  unfold BCDB.canonInitMetas
  cases blk.transactions with
  | nil => simp
  | cons tx0 rest => simp

theorem canonInitMetas_lookup_none (N : Nat) (blk : IndexedBlock) (k : Nat)
    (hk : k ∉ blk.transactions.map (fun t => t.hash)) :
    alistLookup (BCDB.canonInitMetas N blk) k = none := by
  unfold BCDB.canonInitMetas
  cases htx : blk.transactions with
  | nil => rfl
  | cons tx0 rest =>
    rw [htx, List.map_cons] at hk
    simp only [List.mem_cons] at hk
    push_neg at hk
    have hne : ¬tx0.hash = k := fun e => hk.1 e.symm
    simp [alistLookup, hne]

theorem unspendInputs_char (s : BCDB) (inputs : List TransactionInput)
    (m m' : List (Nat × TransactionMeta))
    (h : BCDB.unspendInputs s inputs m = Except.ok m') (k : Nat) :
    alistLookup m' k = applyUnspends s k (idxsFor k inputs) (alistLookup m k) := by
  induction inputs generalizing m with
  | nil =>
    simp only [BCDB.unspendInputs] at h
    injection h with h
    subst h
    rfl
  | cons inp rest ih =>
    simp only [BCDB.unspendInputs] at h
    cases hl : alistLookup m inp.previous_output.hash with
    | some mm =>
      rw [hl] at h
      have ihh := ih _ h
      by_cases hk : inp.previous_output.hash = k
      · rw [idxsFor_cons_pos _ _ _ hk]
        subst hk
        rw [ihh, alistLookup_set_self, hl]
        rfl
      · rw [idxsFor_cons_neg _ _ _ hk, ihh,
          alistLookup_set_ne _ _ _ _ (fun e => hk e.symm)]
    | none =>
      rw [hl] at h
      cases hst : BCDB.transaction_meta s inp.previous_output.hash with
      | none =>
        rw [hst] at h
        cases h
      | some mm =>
        rw [hst] at h
        have ihh := ih _ h
        by_cases hk : inp.previous_output.hash = k
        · rw [idxsFor_cons_pos _ _ _ hk]
          subst hk
          rw [ihh, alistLookup_set_self, hl]
          show applyUnspends s inp.previous_output.hash (idxsFor _ rest)
              (some (mm.denote_unused inp.previous_output.index)) =
            (match BCDB.transaction_meta s inp.previous_output.hash with
              | none => none
              | some mm => applyUnspends s inp.previous_output.hash (idxsFor _ rest)
                  (some (mm.denote_unused inp.previous_output.index)))
          rw [hst]
        · rw [idxsFor_cons_neg _ _ _ hk, ihh,
            alistLookup_set_ne _ _ _ _ (fun e => hk e.symm)]

theorem unspendInputs_some_preserve (s : BCDB)
    (inputs : List TransactionInput) (m m' : List (Nat × TransactionMeta))
    (h : BCDB.unspendInputs s inputs m = Except.ok m') (k : Nat)
    (hk : (alistLookup m k).isSome) : (alistLookup m' k).isSome := by
  rw [unspendInputs_char s inputs m m' h k]
  exact applyUnspends_isSome _ _ _ _ hk

theorem unspendInputs_keysNodup (s : BCDB) (inputs : List TransactionInput)
    (m m' : List (Nat × TransactionMeta))
    (h : BCDB.unspendInputs s inputs m = Except.ok m')
    (hnd : (m.map Prod.fst).Nodup) : (m'.map Prod.fst).Nodup := by
  induction inputs generalizing m with
  | nil =>
    simp only [BCDB.unspendInputs] at h
    injection h with h
    subst h
    exact hnd
  | cons inp rest ih =>
    simp only [BCDB.unspendInputs] at h
    cases hl : alistLookup m inp.previous_output.hash with
    | some mm =>
      rw [hl] at h
      exact ih _ h (alistSet_keysNodup _ _ _ hnd)
    | none =>
      rw [hl] at h
      cases hst : BCDB.transaction_meta s inp.previous_output.hash with
      | none =>
        rw [hst] at h
        cases h
      | some mm =>
        rw [hst] at h
        exact ih _ h (alistSet_keysNodup _ _ _ hnd)

theorem unspendInputs_succ (s : BCDB) (inputs : List TransactionInput)
    (m : List (Nat × TransactionMeta))
    (h : ∀ inp ∈ inputs, (alistLookup m inp.previous_output.hash).isSome ∨
      (BCDB.transaction_meta s inp.previous_output.hash).isSome) :
    ∃ m', BCDB.unspendInputs s inputs m = Except.ok m' := by
  induction inputs generalizing m with
  | nil => exact ⟨m, rfl⟩
  | cons inp rest ih =>
    have hrest : ∀ (v : TransactionMeta), ∀ inp2 ∈ rest,
        (alistLookup (alistSet m inp.previous_output.hash v)
          inp2.previous_output.hash).isSome ∨
        (BCDB.transaction_meta s inp2.previous_output.hash).isSome := by
      intro v inp2 hm2
      rcases h inp2 (List.mem_cons_of_mem _ hm2) with hc | hc
      · exact Or.inl (alistLookup_isSome_set _ _ _ _ hc)
      · exact Or.inr hc
    cases hl : alistLookup m inp.previous_output.hash with
    | some mm =>
      obtain ⟨m', hm'⟩ := ih _ (hrest (mm.denote_unused inp.previous_output.index))
      refine ⟨m', ?_⟩
      simp only [BCDB.unspendInputs]
      rw [hl]
      exact hm'
    | none =>
      cases hst : BCDB.transaction_meta s inp.previous_output.hash with
      | none =>
        rcases h inp (List.mem_cons_self _ _) with hc | hc
        · rw [hl] at hc
          cases hc
        · rw [hst] at hc
          cases hc
      | some mm =>
        obtain ⟨m', hm'⟩ := ih _ (hrest (mm.denote_unused inp.previous_output.index))
        refine ⟨m', ?_⟩
        simp only [BCDB.unspendInputs]
        rw [hl, hst]
        exact hm'

theorem decanonMetas_char (s : BCDB) (txs : List IndexedTransaction)
    (m0 m1 : List (Nat × TransactionMeta))
    (h : BCDB.decanonMetas s txs m0 = Except.ok m1) (k : Nat) :
    alistLookup m1 k =
      applyUnspends s k (idxsFor k (txs.flatMap (fun t => t.raw.inputs)))
        (alistLookup m0 k) := by
  induction txs generalizing m0 with
  | nil =>
    simp only [BCDB.decanonMetas] at h
    injection h with h
    subst h
    rfl
  | cons tx rest ih =>
    simp only [BCDB.decanonMetas] at h
    cases hsp : BCDB.unspendInputs s tx.raw.inputs m0 with
    | error e =>
      rw [hsp] at h
      simp only [exceptBind_error] at h
      cases h
    | ok m2 =>
      rw [hsp] at h
      simp only [exceptBind_ok] at h
      rw [ih _ h, unspendInputs_char _ _ _ _ hsp k, List.flatMap_cons,
        idxsFor_append, applyUnspends_append]

theorem decanonMetas_keysNodup (s : BCDB) (txs : List IndexedTransaction)
    (m0 m1 : List (Nat × TransactionMeta))
    (h : BCDB.decanonMetas s txs m0 = Except.ok m1)
    (hnd : (m0.map Prod.fst).Nodup) : (m1.map Prod.fst).Nodup := by
  induction txs generalizing m0 with
  | nil =>
    simp only [BCDB.decanonMetas] at h
    injection h with h
    subst h
    exact hnd
  | cons tx rest ih =>
    simp only [BCDB.decanonMetas] at h
    cases hsp : BCDB.unspendInputs s tx.raw.inputs m0 with
    | error e =>
      rw [hsp] at h
      simp only [exceptBind_error] at h
      cases h
    | ok m2 =>
      rw [hsp] at h
      simp only [exceptBind_ok] at h
      exact ih _ h (unspendInputs_keysNodup _ _ _ _ hsp hnd)

theorem decanonMetas_succ (s : BCDB) (txs : List IndexedTransaction)
    (m : List (Nat × TransactionMeta))
    (h : ∀ tx ∈ txs, ∀ inp ∈ tx.raw.inputs,
      (alistLookup m inp.previous_output.hash).isSome ∨
      (BCDB.transaction_meta s inp.previous_output.hash).isSome) :
    ∃ m', BCDB.decanonMetas s txs m = Except.ok m' := by
  induction txs generalizing m with
  | nil => exact ⟨m, rfl⟩
  | cons tx rest ih =>
    obtain ⟨m2, hm2⟩ := unspendInputs_succ s tx.raw.inputs m
      (fun inp hinp => h tx (List.mem_cons_self _ _) inp hinp)
    have hrest : ∀ tx2 ∈ rest, ∀ inp ∈ tx2.raw.inputs,
        (alistLookup m2 inp.previous_output.hash).isSome ∨
        (BCDB.transaction_meta s inp.previous_output.hash).isSome := by
      intro tx2 htx2 inp hinp
      rcases h tx2 (List.mem_cons_of_mem _ htx2) inp hinp with hc | hc
      · exact Or.inl (unspendInputs_some_preserve _ _ _ _ hm2 _ hc)
      · exact Or.inr hc
    obtain ⟨m', hm'⟩ := ih _ hrest
    refine ⟨m', ?_⟩
    simp only [BCDB.decanonMetas]
    rw [hm2]
    simp only [exceptBind_ok]
    exact hm'

/-- The nullifier deletions `decanonize` issues, in source order. -/
def decanonNullOpsList (txs : List IndexedTransaction) : List DBOp :=
  txs.flatMap (fun tx =>
    (jsNullifiersOf tx.raw).map
      (fun n => DBOp.del (DBKey.Nullifier EpochTag.Sprout n))
    ++ (saplingNullifiersOf tx.raw).map
      (fun n => DBOp.del (DBKey.Nullifier EpochTag.Sapling n)))

theorem nullifierDeletes_all_present (s : BCDB) (tag : EpochTag)
    (ns : List Nat)
    (h : ∀ n ∈ ns, BCDB.contains_nullifier s tag n = true) :
    BCDB.nullifierDeletes s tag ns =
      Except.ok (ns.map (fun n => DBOp.del (DBKey.Nullifier tag n))) := by
  induction ns with
  | nil => rfl
  | cons n rest ih =>
    simp only [BCDB.nullifierDeletes]
    rw [if_pos (h n (List.mem_cons_self _ _)),
      ih (fun n2 hn2 => h n2 (List.mem_cons_of_mem _ hn2))]
    rfl

theorem decanonNullOps_all_present (s : BCDB) (txs : List IndexedTransaction)
    (h : ∀ tx ∈ txs,
      (∀ n ∈ jsNullifiersOf tx.raw,
        BCDB.contains_nullifier s EpochTag.Sprout n = true) ∧
      (∀ n ∈ saplingNullifiersOf tx.raw,
        BCDB.contains_nullifier s EpochTag.Sapling n = true)) :
    BCDB.decanonNullOps s txs = Except.ok (decanonNullOpsList txs) := by
  induction txs with
  | nil => rfl
  | cons tx rest ih =>
    simp only [BCDB.decanonNullOps]
    rw [nullifierDeletes_all_present s EpochTag.Sprout _
        (h tx (List.mem_cons_self _ _)).1,
      nullifierDeletes_all_present s EpochTag.Sapling _
        (h tx (List.mem_cons_self _ _)).2,
      ih (fun tx2 htx2 => h tx2 (List.mem_cons_of_mem _ htx2))]
    simp only [exceptBind_ok]
    simp only [decanonNullOpsList, List.flatMap_cons]

theorem mem_decanonNullOpsList (txs : List IndexedTransaction)
    (tag : EpochTag) (n : Nat) :
    DBOp.del (DBKey.Nullifier tag n) ∈ decanonNullOpsList txs ↔
      (tag = EpochTag.Sprout ∧
        n ∈ txs.flatMap (fun tx => jsNullifiersOf tx.raw)) ∨
      (tag = EpochTag.Sapling ∧
        n ∈ txs.flatMap (fun tx => saplingNullifiersOf tx.raw)) := by
  simp only [decanonNullOpsList, List.mem_flatMap, List.mem_append,
    List.mem_map]
  constructor
  · rintro ⟨tx, htx, hcase⟩
    rcases hcase with ⟨m, hm, he⟩ | ⟨m, hm, he⟩
    · injection he with he
      injection he with h1 h2
      subst h1
      subst h2
      exact Or.inl ⟨rfl, ⟨tx, htx, hm⟩⟩
    · injection he with he
      injection he with h1 h2
      subst h1
      subst h2
      exact Or.inr ⟨rfl, ⟨tx, htx, hm⟩⟩
  · rintro (⟨htag, tx, htx, hm⟩ | ⟨htag, tx, htx, hm⟩)
    · subst htag
      exact ⟨tx, htx, Or.inl ⟨n, hm, rfl⟩⟩
    · subst htag
      exact ⟨tx, htx, Or.inr ⟨n, hm, rfl⟩⟩

theorem decanonNullOpsList_all_del (txs : List IndexedTransaction) :
    ∀ op ∈ decanonNullOpsList txs,
      ∃ tag n, op = DBOp.del (DBKey.Nullifier tag n) := by
  intro op hop
  simp only [decanonNullOpsList, List.mem_flatMap, List.mem_append,
    List.mem_map] at hop
  obtain ⟨tx, _, hcase⟩ := hop
  rcases hcase with ⟨m, _, he⟩ | ⟨m, _, he⟩
  · exact ⟨EpochTag.Sprout, m, he.symm⟩
  · exact ⟨EpochTag.Sapling, m, he.symm⟩

theorem canonOps_mem_shape (bh N : Nat) (nullOps : List DBOp)
    (metas : List (Nat × TransactionMeta))
    (hall : ∀ op ∈ nullOps, ∃ t m, op = DBOp.ins (KeyValue.Nullifier t m)) :
    ∀ op ∈ BCDB.canonOps bh N nullOps metas,
      op = DBOp.ins (KeyValue.BlockHash N bh) ∨
      op = DBOp.ins (KeyValue.BlockNumber bh N) ∨
      op = DBOp.ins (KeyValue.MetaBestHash bh) ∨
      op = DBOp.ins (KeyValue.MetaBestNumber N) ∨
      (∃ t m, op = DBOp.ins (KeyValue.Nullifier t m)) ∨
      (∃ k v, op = DBOp.ins (KeyValue.TxMeta k v)) := by
  intro op hop
  simp only [BCDB.canonOps, List.mem_append, List.mem_cons, List.mem_map,
    List.not_mem_nil, or_false] at hop
  rcases hop with ((rfl | rfl | rfl | rfl) | hnull) | ⟨p, _, rfl⟩
  · exact Or.inl rfl
  · exact Or.inr (Or.inl rfl)
  · exact Or.inr (Or.inr (Or.inl rfl))
  · exact Or.inr (Or.inr (Or.inr (Or.inl rfl)))
  · exact Or.inr (Or.inr (Or.inr (Or.inr (Or.inl (hall op hnull)))))
  · exact Or.inr (Or.inr (Or.inr (Or.inr (Or.inr ⟨p.1, p.2, rfl⟩))))

theorem decanonOps_mem_shape (bn bh : Nat) (nb : BestBlock)
    (nullOps : List DBOp) (metas : List (Nat × TransactionMeta))
    (blk : IndexedBlock)
    (hall : ∀ op ∈ nullOps, ∃ t m, op = DBOp.del (DBKey.Nullifier t m)) :
    ∀ op ∈ BCDB.decanonOps bn bh nb nullOps metas blk,
      op = DBOp.del (DBKey.BlockHash bn) ∨
      op = DBOp.del (DBKey.BlockNumber bh) ∨
      op = DBOp.ins (KeyValue.MetaBestHash nb.hash) ∨
      op = DBOp.ins (KeyValue.MetaBestNumber nb.number) ∨
      (∃ t m, op = DBOp.del (DBKey.Nullifier t m)) ∨
      (∃ k v, op = DBOp.ins (KeyValue.TxMeta k v)) ∨
      (∃ k, op = DBOp.del (DBKey.TxMeta k)) := by
  intro op hop
  simp only [BCDB.decanonOps, List.mem_append, List.mem_cons, List.mem_map,
    List.not_mem_nil, or_false] at hop
  rcases hop with (((rfl | rfl | rfl | rfl) | hnull) | ⟨p, _, rfl⟩) | ⟨tx, _, rfl⟩
  · exact Or.inl rfl
  · exact Or.inr (Or.inl rfl)
  · exact Or.inr (Or.inr (Or.inl rfl))
  · exact Or.inr (Or.inr (Or.inr (Or.inl rfl)))
  · exact Or.inr (Or.inr (Or.inr (Or.inr (Or.inl (hall op hnull)))))
  · exact Or.inr (Or.inr (Or.inr (Or.inr (Or.inr (Or.inl ⟨p.1, p.2, rfl⟩)))))
  · exact Or.inr (Or.inr (Or.inr (Or.inr (Or.inr (Or.inr ⟨tx.hash, rfl⟩)))))

theorem canonOps_frame (s : DBState) (bh N : Nat) (nullOps : List DBOp)
    (metas : List (Nat × TransactionMeta))
    (hall : ∀ op ∈ nullOps, ∃ t m, op = DBOp.ins (KeyValue.Nullifier t m)) :
    (writeOps s (BCDB.canonOps bh N nullOps metas)).blockHeaders = s.blockHeaders ∧
    (writeOps s (BCDB.canonOps bh N nullOps metas)).blockTransactions = s.blockTransactions ∧
    (writeOps s (BCDB.canonOps bh N nullOps metas)).transactions = s.transactions ∧
    (writeOps s (BCDB.canonOps bh N nullOps metas)).treeStates = s.treeStates ∧
    (writeOps s (BCDB.canonOps bh N nullOps metas)).sproutBlockRoots = s.sproutBlockRoots := by
  have hshape := canonOps_mem_shape bh N nullOps metas hall
  refine ⟨writeOps_blockHeaders _ _ ?_, writeOps_blockTransactions _ _ ?_,
    writeOps_transactions _ _ ?_, writeOps_treeStates _ _ ?_,
    writeOps_sproutBlockRoots _ _ ?_⟩
  all_goals
    intro op hop
    rcases hshape op hop with rfl | rfl | rfl | rfl | ⟨t, m, rfl⟩ | ⟨k, v, rfl⟩ <;> rfl

theorem decanonOps_frame (s : DBState) (bn bh : Nat) (nb : BestBlock)
    (nullOps : List DBOp) (metas : List (Nat × TransactionMeta))
    (blk : IndexedBlock)
    (hall : ∀ op ∈ nullOps, ∃ t m, op = DBOp.del (DBKey.Nullifier t m)) :
    (writeOps s (BCDB.decanonOps bn bh nb nullOps metas blk)).blockHeaders = s.blockHeaders ∧
    (writeOps s (BCDB.decanonOps bn bh nb nullOps metas blk)).blockTransactions = s.blockTransactions ∧
    (writeOps s (BCDB.decanonOps bn bh nb nullOps metas blk)).transactions = s.transactions ∧
    (writeOps s (BCDB.decanonOps bn bh nb nullOps metas blk)).treeStates = s.treeStates ∧
    (writeOps s (BCDB.decanonOps bn bh nb nullOps metas blk)).sproutBlockRoots = s.sproutBlockRoots := by
  have hshape := decanonOps_mem_shape bn bh nb nullOps metas blk hall
  refine ⟨writeOps_blockHeaders _ _ ?_, writeOps_blockTransactions _ _ ?_,
    writeOps_transactions _ _ ?_, writeOps_treeStates _ _ ?_,
    writeOps_sproutBlockRoots _ _ ?_⟩
  all_goals
    intro op hop
    rcases hshape op hop with rfl | rfl | rfl | rfl | ⟨t, m, rfl⟩ | ⟨k, v, rfl⟩ | ⟨k, rfl⟩ <;> rfl

theorem canonOps_blockHashes (s : DBState) (bh N : Nat) (nullOps : List DBOp)
    (metas : List (Nat × TransactionMeta))
    (hall : ∀ op ∈ nullOps, ∃ t m, op = DBOp.ins (KeyValue.Nullifier t m)) :
    (writeOps s (BCDB.canonOps bh N nullOps metas)).blockHashes =
      upd s.blockHashes N (some bh) := by
  unfold BCDB.canonOps
  rw [writeOps_append, writeOps_append]
  have hm : ∀ st : DBState,
      (writeOps st (metas.map (fun p => DBOp.ins (KeyValue.TxMeta p.1 p.2)))).blockHashes =
        st.blockHashes := fun st => writeOps_blockHashes st _ (by
    intro op hop
    obtain ⟨p, _, rfl⟩ := List.mem_map.mp hop
    rfl)
  have hn2 : ∀ st : DBState, (writeOps st nullOps).blockHashes = st.blockHashes :=
    fun st => writeOps_blockHashes st _ (by
      intro op hop
      obtain ⟨t, m, rfl⟩ := hall op hop
      rfl)
  rw [hm, hn2]
  rfl

theorem canonOps_blockNumbers (s : DBState) (bh N : Nat) (nullOps : List DBOp)
    (metas : List (Nat × TransactionMeta))
    (hall : ∀ op ∈ nullOps, ∃ t m, op = DBOp.ins (KeyValue.Nullifier t m)) :
    (writeOps s (BCDB.canonOps bh N nullOps metas)).blockNumbers =
      upd s.blockNumbers bh (some N) := by
  unfold BCDB.canonOps
  rw [writeOps_append, writeOps_append]
  have hm : ∀ st : DBState,
      (writeOps st (metas.map (fun p => DBOp.ins (KeyValue.TxMeta p.1 p.2)))).blockNumbers =
        st.blockNumbers := fun st => writeOps_blockNumbers st _ (by
    intro op hop
    obtain ⟨p, _, rfl⟩ := List.mem_map.mp hop
    rfl)
  have hn2 : ∀ st : DBState, (writeOps st nullOps).blockNumbers = st.blockNumbers :=
    fun st => writeOps_blockNumbers st _ (by
      intro op hop
      obtain ⟨t, m, rfl⟩ := hall op hop
      rfl)
  rw [hm, hn2]
  rfl

theorem canonOps_metaBest (s : DBState) (bh N : Nat) (nullOps : List DBOp)
    (metas : List (Nat × TransactionMeta))
    (hall : ∀ op ∈ nullOps, ∃ t m, op = DBOp.ins (KeyValue.Nullifier t m)) :
    (writeOps s (BCDB.canonOps bh N nullOps metas)).metaBestHash = some bh ∧
    (writeOps s (BCDB.canonOps bh N nullOps metas)).metaBestNumber = some N := by
  unfold BCDB.canonOps
  rw [writeOps_append, writeOps_append]
  have hm : ∀ st : DBState,
      (writeOps st (metas.map (fun p => DBOp.ins (KeyValue.TxMeta p.1 p.2)))).metaBestHash =
        st.metaBestHash ∧
      (writeOps st (metas.map (fun p => DBOp.ins (KeyValue.TxMeta p.1 p.2)))).metaBestNumber =
        st.metaBestNumber := fun st => writeOps_metaBest st _ (by
    intro op hop
    obtain ⟨p, _, rfl⟩ := List.mem_map.mp hop
    rfl)
  have hn2 : ∀ st : DBState, (writeOps st nullOps).metaBestHash = st.metaBestHash ∧
      (writeOps st nullOps).metaBestNumber = st.metaBestNumber :=
    fun st => writeOps_metaBest st _ (by
      intro op hop
      obtain ⟨t, m, rfl⟩ := hall op hop
      rfl)
  constructor
  · rw [(hm _).1, (hn2 _).1]
    rfl
  · rw [(hm _).2, (hn2 _).2]
    rfl

theorem canonOps_txMeta (s : DBState) (bh N : Nat) (nullOps : List DBOp)
    (metas : List (Nat × TransactionMeta)) (k : Nat)
    (hall : ∀ op ∈ nullOps, ∃ t m, op = DBOp.ins (KeyValue.Nullifier t m))
    (hnd : (metas.map Prod.fst).Nodup) :
    (writeOps s (BCDB.canonOps bh N nullOps metas)).transactionsMeta k =
      match alistLookup metas k with
      | some v => some v
      | none => s.transactionsMeta k := by
  unfold BCDB.canonOps
  rw [writeOps_append, writeOps_append, writeOps_txMeta_insList _ _ _ hnd]
  have hn2 : ∀ st : DBState, (writeOps st nullOps).transactionsMeta =
      st.transactionsMeta :=
    fun st => writeOps_transactionsMeta st _ (by
      intro op hop
      obtain ⟨t, m, rfl⟩ := hall op hop
      rfl)
  rw [hn2]
  cases alistLookup metas k with
  | some v => rfl
  | none => rfl

theorem decanonOps_blockHashes (s : DBState) (bn bh : Nat) (nb : BestBlock)
    (nullOps : List DBOp) (metas : List (Nat × TransactionMeta))
    (blk : IndexedBlock)
    (hall : ∀ op ∈ nullOps, ∃ t m, op = DBOp.del (DBKey.Nullifier t m)) :
    (writeOps s (BCDB.decanonOps bn bh nb nullOps metas blk)).blockHashes =
      upd s.blockHashes bn none := by
  unfold BCDB.decanonOps
  rw [writeOps_append, writeOps_append, writeOps_append]
  have htx : ∀ st : DBState,
      (writeOps st (blk.transactions.map (fun tx => DBOp.del (DBKey.TxMeta tx.hash)))).blockHashes =
        st.blockHashes := fun st => writeOps_blockHashes st _ (by
    intro op hop
    obtain ⟨tx, _, rfl⟩ := List.mem_map.mp hop
    rfl)
  have hmi : ∀ st : DBState,
      (writeOps st (metas.map (fun p => DBOp.ins (KeyValue.TxMeta p.1 p.2)))).blockHashes =
        st.blockHashes := fun st => writeOps_blockHashes st _ (by
    intro op hop
    obtain ⟨p, _, rfl⟩ := List.mem_map.mp hop
    rfl)
  have hn2 : ∀ st : DBState, (writeOps st nullOps).blockHashes = st.blockHashes :=
    fun st => writeOps_blockHashes st _ (by
      intro op hop
      obtain ⟨t, m, rfl⟩ := hall op hop
      rfl)
  rw [htx, hmi, hn2]
  rfl

theorem decanonOps_blockNumbers (s : DBState) (bn bh : Nat) (nb : BestBlock)
    (nullOps : List DBOp) (metas : List (Nat × TransactionMeta))
    (blk : IndexedBlock)
    (hall : ∀ op ∈ nullOps, ∃ t m, op = DBOp.del (DBKey.Nullifier t m)) :
    (writeOps s (BCDB.decanonOps bn bh nb nullOps metas blk)).blockNumbers =
      upd s.blockNumbers bh none := by
  unfold BCDB.decanonOps
  rw [writeOps_append, writeOps_append, writeOps_append]
  have htx : ∀ st : DBState,
      (writeOps st (blk.transactions.map (fun tx => DBOp.del (DBKey.TxMeta tx.hash)))).blockNumbers =
        st.blockNumbers := fun st => writeOps_blockNumbers st _ (by
    intro op hop
    obtain ⟨tx, _, rfl⟩ := List.mem_map.mp hop
    rfl)
  have hmi : ∀ st : DBState,
      (writeOps st (metas.map (fun p => DBOp.ins (KeyValue.TxMeta p.1 p.2)))).blockNumbers =
        st.blockNumbers := fun st => writeOps_blockNumbers st _ (by
    intro op hop
    obtain ⟨p, _, rfl⟩ := List.mem_map.mp hop
    rfl)
  have hn2 : ∀ st : DBState, (writeOps st nullOps).blockNumbers = st.blockNumbers :=
    fun st => writeOps_blockNumbers st _ (by
      intro op hop
      obtain ⟨t, m, rfl⟩ := hall op hop
      rfl)
  rw [htx, hmi, hn2]
  rfl

theorem decanonOps_metaBest (s : DBState) (bn bh : Nat) (nb : BestBlock)
    (nullOps : List DBOp) (metas : List (Nat × TransactionMeta))
    (blk : IndexedBlock)
    (hall : ∀ op ∈ nullOps, ∃ t m, op = DBOp.del (DBKey.Nullifier t m)) :
    (writeOps s (BCDB.decanonOps bn bh nb nullOps metas blk)).metaBestHash =
      some nb.hash ∧
    (writeOps s (BCDB.decanonOps bn bh nb nullOps metas blk)).metaBestNumber =
      some nb.number := by
  unfold BCDB.decanonOps
  rw [writeOps_append, writeOps_append, writeOps_append]
  have htx : ∀ st : DBState,
      (writeOps st (blk.transactions.map (fun tx => DBOp.del (DBKey.TxMeta tx.hash)))).metaBestHash =
        st.metaBestHash ∧
      (writeOps st (blk.transactions.map (fun tx => DBOp.del (DBKey.TxMeta tx.hash)))).metaBestNumber =
        st.metaBestNumber := fun st => writeOps_metaBest st _ (by
    intro op hop
    obtain ⟨tx, _, rfl⟩ := List.mem_map.mp hop
    rfl)
  have hmi : ∀ st : DBState,
      (writeOps st (metas.map (fun p => DBOp.ins (KeyValue.TxMeta p.1 p.2)))).metaBestHash =
        st.metaBestHash ∧
      (writeOps st (metas.map (fun p => DBOp.ins (KeyValue.TxMeta p.1 p.2)))).metaBestNumber =
        st.metaBestNumber := fun st => writeOps_metaBest st _ (by
    intro op hop
    obtain ⟨p, _, rfl⟩ := List.mem_map.mp hop
    rfl)
  have hn2 : ∀ st : DBState, (writeOps st nullOps).metaBestHash = st.metaBestHash ∧
      (writeOps st nullOps).metaBestNumber = st.metaBestNumber :=
    fun st => writeOps_metaBest st _ (by
      intro op hop
      obtain ⟨t, m, rfl⟩ := hall op hop
      rfl)
  constructor
  · rw [(htx _).1, (hmi _).1, (hn2 _).1]
    rfl
  · rw [(htx _).2, (hmi _).2, (hn2 _).2]
    rfl

theorem decanonOps_txMeta (s : DBState) (bn bh : Nat) (nb : BestBlock)
    (nullOps : List DBOp) (metas : List (Nat × TransactionMeta))
    (blk : IndexedBlock) (k : Nat)
    (hall : ∀ op ∈ nullOps, ∃ t m, op = DBOp.del (DBKey.Nullifier t m))
    (hnd : (metas.map Prod.fst).Nodup) :
    (writeOps s (BCDB.decanonOps bn bh nb nullOps metas blk)).transactionsMeta k =
      if k ∈ blk.transactions.map (fun t => t.hash) then none
      else match alistLookup metas k with
        | some v => some v
        | none => s.transactionsMeta k := by
  unfold BCDB.decanonOps
  rw [writeOps_append, writeOps_append, writeOps_append]
  have htd : blk.transactions.map (fun tx => DBOp.del (DBKey.TxMeta tx.hash)) =
      (blk.transactions.map (fun t => t.hash)).map
        (fun h2 => DBOp.del (DBKey.TxMeta h2)) := by
    rw [List.map_map]
    rfl
  rw [htd, writeOps_txMeta_delList, writeOps_txMeta_insList _ _ _ hnd]
  have hn2 : ∀ st : DBState, (writeOps st nullOps).transactionsMeta =
      st.transactionsMeta :=
    fun st => writeOps_transactionsMeta st _ (by
      intro op hop
      obtain ⟨t, m, rfl⟩ := hall op hop
      rfl)
  rw [hn2]
  by_cases hk : k ∈ blk.transactions.map (fun t => t.hash)
  · rw [if_pos hk, if_pos hk]
  · rw [if_neg hk, if_neg hk]
    cases alistLookup metas k with
    | some v => rfl
    | none => rfl

theorem decanonOps_nullifiers (s : DBState) (bn bh : Nat) (nb : BestBlock)
    (nullOps : List DBOp) (metas : List (Nat × TransactionMeta))
    (blk : IndexedBlock) (tag : EpochTag) (n : Nat)
    (hall : ∀ op ∈ nullOps, ∃ t m, op = DBOp.del (DBKey.Nullifier t m)) :
    (writeOps s (BCDB.decanonOps bn bh nb nullOps metas blk)).nullifiers tag n =
      (s.nullifiers tag n
        && !decide (DBOp.del (DBKey.Nullifier tag n) ∈ nullOps)) := by
  unfold BCDB.decanonOps
  rw [writeOps_append, writeOps_append, writeOps_append]
  have htx : ∀ st : DBState,
      (writeOps st (blk.transactions.map (fun tx => DBOp.del (DBKey.TxMeta tx.hash)))).nullifiers =
        st.nullifiers := fun st => writeOps_nullifiers st _ (by
    intro op hop
    obtain ⟨tx, _, rfl⟩ := List.mem_map.mp hop
    rfl)
  have hmi : ∀ st : DBState,
      (writeOps st (metas.map (fun p => DBOp.ins (KeyValue.TxMeta p.1 p.2)))).nullifiers =
        st.nullifiers := fun st => writeOps_nullifiers st _ (by
    intro op hop
    obtain ⟨p, _, rfl⟩ := List.mem_map.mp hop
    rfl)
  rw [htx, hmi]
  rw [writeOps_nullifiers_at_del _ nullOps tag n (by
    intro hc
    obtain ⟨t, m, he⟩ := hall _ hc
    exact DBOp.noConfusion he)]
  rfl

theorem block_congr (s' s : BCDB) (h : Nat)
    (h1 : s'.db.blockHeaders = s.db.blockHeaders)
    (h2 : s'.db.blockTransactions = s.db.blockTransactions)
    (h3 : s'.db.transactions = s.db.transactions) :
    BCDB.block s' h = BCDB.block s h := by
  unfold BCDB.block BCDB.block_header BCDB.block_transactions
    BCDB.block_transaction_hashes
  rw [h1, h2, h3]

theorem decanonize_eval (s : BCDB) (blk : IndexedBlock) (nb : BestBlock)
    (nullOps : List DBOp) (metas : List (Nat × TransactionMeta))
    (hb : BCDB.block s s.best.hash = some blk)
    (hnb : (if s.best.number > 0 then
        Except.ok (BestBlock.mk blk.header.raw.previous_header_hash
          (s.best.number - 1))
      else if blk.header.raw.previous_header_hash = 0 then
        Except.ok (BestBlock.mk blk.header.raw.previous_header_hash 0)
      else (Except.error DbError.Inconsistent : Except DbError BestBlock)) =
        Except.ok nb)
    (hn : BCDB.decanonNullOps s (blk.transactions.drop 1) = Except.ok nullOps)
    (hm : BCDB.decanonMetas s (blk.transactions.drop 1) [] = Except.ok metas) :
    BCDB.decanonize s = Except.ok (s.best.hash,
      { best := nb,
        db := writeOps s.db
          (BCDB.decanonOps s.best.number s.best.hash nb nullOps metas blk) }) := by
  unfold BCDB.decanonize
  rw [hb]
  simp only [exceptBind_ok]
  by_cases hpos : s.best.number > 0
  · rw [if_pos hpos] at hnb
    injection hnb with hnb
    subst hnb
    rw [if_pos hpos, hn]
    simp only [exceptBind_ok]
    rw [hm]
    simp only [exceptBind_ok]
  · rw [if_neg hpos] at hnb
    by_cases hz : blk.header.raw.previous_header_hash = 0
    · rw [if_pos hz] at hnb
      injection hnb with hnb
      subst hnb
      rw [if_neg hpos, if_pos hz, hn]
      simp only [exceptBind_ok]
      rw [hm]
      simp only [exceptBind_ok]
    · rw [if_neg hz] at hnb
      cases hnb

/-- C3: for a store state reached by a successful `insert(b)` whose best-block
meta keys agree with the in-memory best pointer, whose height/hash rows for the
about-to-be-canonized position are vacant, whose block transactions carry no
pre-existing metas, and whose out-of-block prevout spend bits are clear,
a successful `canonize(b.hash)` followed by `decanonize()` returns `b`'s hash
and restores the store exactly to the post-insert state — every column
(height-to-hash, hash-to-height, best-pointer meta keys, transaction metas with
their spend bits, and both epoch-tagged nullifier sets) is proved pointwise
identical. -/
theorem C3_canonize_decanonize_inverse
    (s₀ s₁ s₂ : BCDB) (b blk : IndexedBlock)
    (_hins : s₀.insert b = Except.ok s₁)
    (hblk : s₁.block b.hash = some blk)
    (hcan : s₁.canonize b.hash = Except.ok s₂)
    (hmetaH : s₁.db.metaBestHash = some s₁.best.hash)
    (hmetaN : s₁.db.metaBestNumber = some s₁.best.number)
    (hbh : s₁.db.blockHashes (if blk.header.raw.previous_header_hash = 0 then 0
        else s₁.best.number + 1) = none)
    (hbn : s₁.db.blockNumbers b.hash = none)
    (hmetas : ∀ tx ∈ blk.transactions, s₁.transaction_meta tx.hash = none)
    (hspent : ∀ tx ∈ blk.transactions.drop 1, ∀ inp ∈ tx.raw.inputs,
        inp.previous_output.hash ∉ blk.transactions.map (fun t => t.hash) →
        ∀ mm, s₁.transaction_meta inp.previous_output.hash = some mm →
          mm.is_spent inp.previous_output.index ≠ some true) :
    s₂.decanonize = Except.ok (b.hash, s₁) := by
  obtain ⟨blk2, N, nullOps, metas, hb2, hpar, hN, hnull, hmetasOk, hs2⟩ :=
    canonize_ok_shape s₁ b.hash s₂ hcan
  rw [hblk] at hb2
  injection hb2 with hb2
  subst hb2
  obtain ⟨hnulleq, hfresh⟩ := canonNullOps_ok s₁ _ _ hnull
  subst hnulleq
  have hallIns := canonNullOpsList_all_ins (blk.transactions.drop 1)
  have hndMetas : (metas.map Prod.fst).Nodup :=
    canonMetas_keysNodup _ _ _ _ _ hmetasOk (canonInitMetas_keysNodup N blk)
  have hs2best : s₂.best = BestBlock.mk b.hash N := by rw [hs2]
  have hs2db : s₂.db = writeOps s₁.db
      (BCDB.canonOps b.hash N (canonNullOpsList (blk.transactions.drop 1)) metas) := by
    rw [hs2]
  have hbesth : s₂.best.hash = b.hash := by rw [hs2best]
  have hbestn : s₂.best.number = N := by rw [hs2best]
  have hframe := canonOps_frame s₁.db b.hash N
    (canonNullOpsList (blk.transactions.drop 1)) metas hallIns
  have hcol1 : s₂.db.blockHeaders = s₁.db.blockHeaders := by
    rw [hs2db]; exact hframe.1
  have hcol2 : s₂.db.blockTransactions = s₁.db.blockTransactions := by
    rw [hs2db]; exact hframe.2.1
  have hcol3 : s₂.db.transactions = s₁.db.transactions := by
    rw [hs2db]; exact hframe.2.2.1
  have hcol4 : s₂.db.treeStates = s₁.db.treeStates := by
    rw [hs2db]; exact hframe.2.2.2.1
  have hcol5 : s₂.db.sproutBlockRoots = s₁.db.sproutBlockRoots := by
    rw [hs2db]; exact hframe.2.2.2.2
  have hblk2 : s₂.block b.hash = some blk := by
    rw [block_congr s₂ s₁ b.hash hcol1 hcol2 hcol3]
    exact hblk
  have hbhN : s₁.db.blockHashes N = none := by
    rcases hN with ⟨hz, hb0, hNeq⟩ | ⟨hz, hNeq⟩
    · rw [hNeq]
      rwa [if_pos hz] at hbh
    · rw [hNeq]
      rwa [if_neg hz] at hbh
  have hnb' : (if N > 0 then
      Except.ok (BestBlock.mk blk.header.raw.previous_header_hash (N - 1))
    else if blk.header.raw.previous_header_hash = 0 then
      Except.ok (BestBlock.mk blk.header.raw.previous_header_hash 0)
    else (Except.error DbError.Inconsistent : Except DbError BestBlock)) =
      Except.ok s₁.best := by
    rcases hN with ⟨hz, hb0, hNeq⟩ | ⟨hz, hNeq⟩
    · subst hNeq
      rw [if_neg (by decide), if_pos hz]
      have he : BestBlock.mk blk.header.raw.previous_header_hash 0 = s₁.best := by
        rw [← hpar, ← hb0]
      rw [he]
    · subst hNeq
      rw [if_pos (Nat.succ_pos _)]
      have he : BestBlock.mk blk.header.raw.previous_header_hash
          (s₁.best.number + 1 - 1) = s₁.best := by
        rw [← hpar, Nat.add_sub_cancel]
      rw [he]
  have hnulls2 : ∀ tag n, s₂.db.nullifiers tag n =
      (s₁.db.nullifiers tag n || decide (DBOp.ins (KeyValue.Nullifier tag n) ∈
        canonNullOpsList (blk.transactions.drop 1))) := by
    intro tag n
    rw [hs2db]
    exact canonOps_nullifiers s₁.db b.hash N _ metas tag n hallIns
  have hmeta2 : ∀ k, s₂.db.transactionsMeta k =
      match alistLookup metas k with
      | some v => some v
      | none => s₁.db.transactionsMeta k := by
    intro k
    rw [hs2db]
    exact canonOps_txMeta s₁.db b.hash N _ metas k hallIns hndMetas
  have hdnull : BCDB.decanonNullOps s₂ (blk.transactions.drop 1) =
      Except.ok (decanonNullOpsList (blk.transactions.drop 1)) := by
    apply decanonNullOps_all_present
    intro tx htx
    constructor
    · intro n hn
      show s₂.db.nullifiers EpochTag.Sprout n = true
      rw [hnulls2]
      have hmem : DBOp.ins (KeyValue.Nullifier EpochTag.Sprout n) ∈
          canonNullOpsList (blk.transactions.drop 1) :=
        (mem_canonNullOpsList _ _ _).mpr
          (Or.inl ⟨rfl, List.mem_flatMap.mpr ⟨tx, htx, hn⟩⟩)
      rw [decide_eq_true hmem, Bool.or_true]
    · intro n hn
      show s₂.db.nullifiers EpochTag.Sapling n = true
      rw [hnulls2]
      have hmem : DBOp.ins (KeyValue.Nullifier EpochTag.Sapling n) ∈
          canonNullOpsList (blk.transactions.drop 1) :=
        (mem_canonNullOpsList _ _ _).mpr
          (Or.inr ⟨rfl, List.mem_flatMap.mpr ⟨tx, htx, hn⟩⟩)
      rw [decide_eq_true hmem, Bool.or_true]
  have href := canonMetas_ref s₁ N (blk.transactions.drop 1) _ metas hmetasOk
  obtain ⟨dmetas, hdm⟩ := decanonMetas_succ s₂ (blk.transactions.drop 1) [] (by
    intro tx htx inp hinp
    right
    show (s₂.db.transactionsMeta inp.previous_output.hash).isSome
    rw [hmeta2]
    obtain ⟨v, hv⟩ := Option.isSome_iff_exists.mp (href tx htx inp hinp)
    rw [hv]
    rfl)
  have hnddm : (dmetas.map Prod.fst).Nodup :=
    decanonMetas_keysNodup _ _ _ _ hdm (by simp)
  have hb' : s₂.block s₂.best.hash = some blk := by
    rw [hbesth]
    exact hblk2
  have hnb2 : (if s₂.best.number > 0 then
      Except.ok (BestBlock.mk blk.header.raw.previous_header_hash
        (s₂.best.number - 1))
    else if blk.header.raw.previous_header_hash = 0 then
      Except.ok (BestBlock.mk blk.header.raw.previous_header_hash 0)
    else (Except.error DbError.Inconsistent : Except DbError BestBlock)) =
      Except.ok s₁.best := by
    rw [hbestn]
    exact hnb'
  rw [decanonize_eval s₂ blk s₁.best _ dmetas hb' hnb2 hdnull hdm]
  rw [hbesth, hbestn]
  refine congrArg Except.ok (congrArg (Prod.mk b.hash) ?_)
  have dframe := decanonOps_frame s₂.db N b.hash s₁.best
    (decanonNullOpsList (blk.transactions.drop 1)) dmetas blk
    (decanonNullOpsList_all_del _)
  refine BCDB.ext rfl ?_
  refine DBState.ext ?_ ?_ ?_ ?_ ?_ ?_ ?_ ?_ ?_ ?_ ?_
  · exact dframe.1.trans hcol1
  · exact dframe.2.1.trans hcol2
  · exact dframe.2.2.1.trans hcol3
  · -- blockHashes
    rw [decanonOps_blockHashes s₂.db N b.hash s₁.best _ dmetas blk
      (decanonNullOpsList_all_del _)]
    rw [show s₂.db.blockHashes = upd s₁.db.blockHashes N (some b.hash) from by
      rw [hs2db]
      exact canonOps_blockHashes s₁.db b.hash N _ metas hallIns]
    funext n
    simp only [upd]
    by_cases hn : n = N
    · rw [if_pos hn, hn]
      exact hbhN.symm
    · rw [if_neg hn, if_neg hn]
  · -- blockNumbers
    rw [decanonOps_blockNumbers s₂.db N b.hash s₁.best _ dmetas blk
      (decanonNullOpsList_all_del _)]
    rw [show s₂.db.blockNumbers = upd s₁.db.blockNumbers b.hash (some N) from by
      rw [hs2db]
      exact canonOps_blockNumbers s₁.db b.hash N _ metas hallIns]
    funext n
    simp only [upd]
    by_cases hn : n = b.hash
    · rw [if_pos hn, hn]
      exact hbn.symm
    · rw [if_neg hn, if_neg hn]
  · -- transactionsMeta
    funext k
    rw [decanonOps_txMeta s₂.db N b.hash s₁.best _ dmetas blk k
      (decanonNullOpsList_all_del _) hnddm]
    by_cases hk : k ∈ blk.transactions.map (fun t => t.hash)
    · rw [if_pos hk]
      obtain ⟨tx, htx, hke⟩ := List.mem_map.mp hk
      subst hke
      exact (hmetas tx htx).symm
    · rw [if_neg hk]
      have hkd : k ∉ (blk.transactions.drop 1).map (fun t => t.hash) := by
        intro hc
        obtain ⟨tx, htx, hke⟩ := List.mem_map.mp hc
        exact hk (List.mem_map.mpr ⟨tx, List.mem_of_mem_drop htx, hke⟩)
      have hml : alistLookup metas k =
          applySpends s₁ k
            (idxsFor k ((blk.transactions.drop 1).flatMap (fun t => t.raw.inputs)))
            none := by
        rw [canonMetas_char s₁ N _ _ metas hmetasOk k hkd,
          canonInitMetas_lookup_none N blk k hk]
      have hdl : alistLookup dmetas k =
          applyUnspends s₂ k
            (idxsFor k ((blk.transactions.drop 1).flatMap (fun t => t.raw.inputs)))
            none := by
        rw [decanonMetas_char s₂ _ _ dmetas hdm k]
        rfl
      cases hst : s₁.db.transactionsMeta k with
      | none =>
        have hstm : BCDB.transaction_meta s₁ k = none := hst
        have hm2k : s₂.db.transactionsMeta k = none := by
          rw [hmeta2 k, hml, applySpends_none_store s₁ k _ hstm]
          exact hst
        rw [hdl, applyUnspends_none_store s₂ k _ hm2k]
        exact hm2k
      | some mm =>
        have hstm : BCDB.transaction_meta s₁ k = some mm := hst
        cases hI : idxsFor k
            ((blk.transactions.drop 1).flatMap (fun t => t.raw.inputs)) with
        | nil =>
          have hm2k : s₂.db.transactionsMeta k = some mm := by
            rw [hmeta2 k, hml, hI]
            exact hst
          rw [hdl, hI]
          exact hm2k
        | cons i rest =>
          have hm2k : s₂.db.transactionsMeta k =
              some (usedFold mm (i :: rest)) := by
            rw [hmeta2 k, hml, hI, applySpends_cons_store s₁ k i rest mm hstm]
          have hs2meta : BCDB.transaction_meta s₂ k =
              some (usedFold mm (i :: rest)) := hm2k
          rw [hdl, hI,
            applyUnspends_cons_store s₂ k i rest (usedFold mm (i :: rest)) hs2meta]
          have hinv : unusedFold (usedFold mm (i :: rest)) (i :: rest) = mm := by
            apply fold_unspend_spend
            intro j hj
            rw [← hI] at hj
            obtain ⟨inp, hinp, hkk, hjj⟩ := (mem_idxsFor _ _ _).mp hj
            obtain ⟨tx, htx, hinp2⟩ := List.mem_flatMap.mp hinp
            subst hjj
            rw [← hkk] at hstm hk
            exact hspent tx htx inp hinp2 hk mm hstm
          rw [hinv]
  · -- nullifiers
    funext tag n
    rw [decanonOps_nullifiers s₂.db N b.hash s₁.best _ dmetas blk tag n
      (decanonNullOpsList_all_del _)]
    rw [hnulls2 tag n]
    by_cases hmem : DBOp.ins (KeyValue.Nullifier tag n) ∈
        canonNullOpsList (blk.transactions.drop 1)
    · have hdel : DBOp.del (DBKey.Nullifier tag n) ∈
          decanonNullOpsList (blk.transactions.drop 1) :=
        (mem_decanonNullOpsList _ _ _).mpr ((mem_canonNullOpsList _ _ _).mp hmem)
      have hfalse : s₁.db.nullifiers tag n = false := by
        rcases (mem_canonNullOpsList _ _ _).mp hmem with ⟨htag, hx⟩ | ⟨htag, hx⟩
        · obtain ⟨tx, htx, hnn⟩ := List.mem_flatMap.mp hx
          subst htag
          exact (hfresh tx htx).1 n hnn
        · obtain ⟨tx, htx, hnn⟩ := List.mem_flatMap.mp hx
          subst htag
          exact (hfresh tx htx).2 n hnn
      rw [hfalse, decide_eq_true hmem, decide_eq_true hdel]
      rfl
    · have hdel : DBOp.del (DBKey.Nullifier tag n) ∉
          decanonNullOpsList (blk.transactions.drop 1) :=
        fun hc => hmem
          ((mem_canonNullOpsList _ _ _).mpr ((mem_decanonNullOpsList _ _ _).mp hc))
      rw [decide_eq_false hmem, decide_eq_false hdel, Bool.or_false,
        Bool.not_false, Bool.and_true]
  · exact dframe.2.2.2.1.trans hcol4
  · exact dframe.2.2.2.2.trans hcol5
  · -- metaBestHash
    rw [(decanonOps_metaBest s₂.db N b.hash s₁.best _ dmetas blk
      (decanonNullOpsList_all_del _)).1, hmetaH]
  · -- metaBestNumber
    rw [(decanonOps_metaBest s₂.db N b.hash s₁.best _ dmetas blk
      (decanonNullOpsList_all_del _)).2, hmetaN]

/-- A minimal coinbase transaction (null prevout) for the C3 witness block. -/
def c3CoinbaseTx : Transaction :=
  { overwintered := false, version := 1, version_group_id := 0
    inputs := [⟨⟨0, 0⟩, [], 0⟩], outputs := [⟨50, []⟩]
    lock_time := 0, expiry_height := 0, join_split := none, sapling := none }

/-- Block 200 on top of the genesis block, carrying one coinbase. -/
def c3Block2 : IndexedBlock :=
  { header := ⟨200, ⟨100, 0⟩⟩, transactions := [⟨201, c3CoinbaseTx⟩] }

/-- The canonized-genesis store after inserting block 200. -/
def c3w1 : BCDB := okD (c3s2.insert c3Block2) freshStore

/-- After canonizing block 200. -/
def c3w2 : BCDB := okD (c3w1.canonize 200) freshStore

/-- Witness for C3: on the canonized-genesis store (whose best-pointer meta
keys are populated), insert block 200, canonize it, decanonize — the call
returns hash 200 and the exact post-insert state. -/
theorem C3_canonize_decanonize_inverse_witness :
    c3w2.decanonize = Except.ok (200, c3w1) :=
  C3_canonize_decanonize_inverse c3s2 c3w1 c3w2 c3Block2 c3Block2
    rfl rfl rfl rfl rfl rfl rfl
    (by
      intro tx htx
      cases htx with
      | head => rfl
      | tail _ h2 => cases h2)
    (by
      intro tx htx
      cases htx)

/-- Sighash base mode (sign.rs `SighashBase`). -/
inductive SighashBase where
  | All
  | None
  | Single
  deriving DecidableEq, Repr

/-- Signature hash type (sign.rs `Sighash`). -/
structure Sighash where
  base : SighashBase
  anyone_can_pay : Bool
  fork_id : Bool
  deriving DecidableEq, Repr

/-- `Sighash::from_u32`: bit 0x80 is anyone-can-pay, the low five bits pick
the base (2 = None, 3 = Single, anything else = All); fork id is never set. -/
def Sighash.from_u32 (u : Nat) : Sighash :=
  { base :=
      match u &&& 0x1f with
      | 2 => SighashBase.None
      | 3 => SighashBase.Single
      | _ => SighashBase.All
    anyone_can_pay := decide ((u &&& 0x80) = 0x80)
    fork_id := false }

/-- Input stripped for signing (sign.rs `UnsignedTransactionInput`). -/
structure UnsignedTransactionInput where
  previous_output : OutPoint
  sequence : Nat
  deriving DecidableEq, Repr

/-- Signing view of a transaction (sign.rs `TransactionInputSigner`). -/
structure TransactionInputSigner where
  overwintered : Bool
  version : Int
  version_group_id : Nat
  inputs : List UnsignedTransactionInput
  outputs : List TransactionOutput
  lock_time : Nat
  expiry_height : Nat
  join_split : Option JoinSplit
  sapling : Option Sapling

/-- `From<Transaction> for TransactionInputSigner`. -/
def TransactionInputSigner.fromTx (t : Transaction) : TransactionInputSigner :=
  { overwintered := t.overwintered
    version := t.version
    version_group_id := t.version_group_id
    inputs := t.inputs.map (fun i => ⟨i.previous_output, i.sequence⟩)
    outputs := t.outputs
    lock_time := t.lock_time
    expiry_height := t.expiry_height
    join_split := t.join_split
    sapling := t.sapling }

/-- Signature portions cache (sign.rs `SighashCache`); digests are
abstracted as naturals. -/
structure SighashCache where
  hash_prevouts : Option Nat
  hash_sequence : Option Nat
  hash_outputs : Option Nat
  hash_join_split : Option Nat
  hash_sapling_spends : Option Nat
  hash_sapling_outputs : Option Nat
  deriving DecidableEq, Repr

/-- `SighashCache::default()` — all portions empty. -/
def SighashCache.empty : SighashCache := ⟨none, none, none, none, none, none⟩

/-- Modelled from the spec: the BLAKE2b-personalised digests of sign.rs are
pure functions of the serialized content (the spec places the hash
primitives out of scope), so they are abstracted as an arbitrary family of
functions on the hashed components; every theorem below holds for every
such family.  `sproutDigest` likewise abstracts the cache-free
`signature_hash_sprout` path. -/
structure SighashPrims where
  hashPrevouts : List UnsignedTransactionInput → Nat
  hashSequence : List UnsignedTransactionInput → Nat
  hashOutputsAll : List TransactionOutput → Nat
  hashOutputsSingle : TransactionOutput → Nat
  hashJoinSplit : JoinSplit → Nat
  hashSaplingSpends : List SaplingSpendDescription → Nat
  hashSaplingOutputs : List SaplingOutputDescription → Nat
  finalDigest : Nat → List Int → Nat
  sproutDigest : TransactionInputSigner → Option Nat → List Nat → Nat → Nat

/-- sign.rs `compute_hash_prevouts`: with anyone-can-pay the zero digest,
uncached; otherwise the cached value or the digest of all prevouts, and the
result is cached. -/
def compute_hash_prevouts (prims : SighashPrims) (cache : SighashCache)
    (sighash : Sighash) (inputs : List UnsignedTransactionInput) : Nat × Bool :=
  match sighash.anyone_can_pay with
  | false => (cache.hash_prevouts.getD (prims.hashPrevouts inputs), true)
  | true => (0, false)

/-- sign.rs `compute_hash_sequence`: cached only for ALL without
anyone-can-pay. -/
def compute_hash_sequence (prims : SighashPrims) (cache : SighashCache)
    (sighash : Sighash) (inputs : List UnsignedTransactionInput) : Nat × Bool :=
  if sighash.base = SighashBase.All ∧ sighash.anyone_can_pay = false then
    (cache.hash_sequence.getD (prims.hashSequence inputs), true)
  else (0, false)

/-- sign.rs `compute_hash_outputs`: ALL uses (and fills) the cache over all
outputs; SINGLE with an in-range index hashes just that output, uncached. -/
def compute_hash_outputs (prims : SighashPrims) (cache : SighashCache)
    (sighash : Sighash) (input_index : Option Nat)
    (outputs : List TransactionOutput) : Nat × Bool :=
  match sighash.base, input_index with
  | SighashBase.All, _ => (cache.hash_outputs.getD (prims.hashOutputsAll outputs), true)
  | SighashBase.Single, some idx =>
    if idx < outputs.length then
      (prims.hashOutputsSingle (outputs.getD idx ⟨0, []⟩), false)
    else (0, false)
  | _, _ => (0, false)

/-- sign.rs `compute_hash_join_split`. -/
def compute_hash_join_split (prims : SighashPrims) (cache : SighashCache)
    (join_split : Option JoinSplit) : Nat × Bool :=
  match join_split with
  | some js =>
    if js.descriptions ≠ [] then
      (cache.hash_join_split.getD (prims.hashJoinSplit js), true)
    else (0, false)
  | none => (0, false)

/-- sign.rs `compute_hash_sapling_spends`. -/
def compute_hash_sapling_spends (prims : SighashPrims) (cache : SighashCache)
    (is_sapling : Bool) (sapling : Option Sapling) : Nat × Bool :=
  if !is_sapling then (0, false)
  else
    match sapling with
    | some s =>
      if s.spends ≠ [] then
        (cache.hash_sapling_spends.getD (prims.hashSaplingSpends s.spends), true)
      else (0, false)
    | none => (0, false)

/-- sign.rs `compute_hash_sapling_outputs`. -/
def compute_hash_sapling_outputs (prims : SighashPrims) (cache : SighashCache)
    (is_sapling : Bool) (sapling : Option Sapling) : Nat × Bool :=
  if !is_sapling then (0, false)
  else
    match sapling with
    | some s =>
      if s.outputs ≠ [] then
        (cache.hash_sapling_outputs.getD (prims.hashSaplingOutputs s.outputs), true)
      else (0, false)
    | none => (0, false)

/-- sign.rs `signature_hash_post_overwinter` (lines 267-353): the six
portions are computed (consulting the cache), the cache is updated where
flagged, and the final personalised digest is taken over the serialized
stream; the stream is modelled as the list of appended components.  The
out-of-range indexing panic of `self.inputs[input_index]` is modelled by a
default input (it is identical across the compared runs). -/
def signature_hash_post_overwinter (prims : SighashPrims)
    (signer : TransactionInputSigner) (cache : SighashCache)
    (input_index : Option Nat) (input_amount : Nat)
    (script_pubkey : List Nat) (sighashtype : Nat) (sighash : Sighash)
    (consensus_branch_id : Nat) (sapling : Bool) : Nat × SighashCache :=
  let hp := compute_hash_prevouts prims cache sighash signer.inputs
  let hs := compute_hash_sequence prims cache sighash signer.inputs
  let ho := compute_hash_outputs prims cache sighash input_index signer.outputs
  let hj := compute_hash_join_split prims cache signer.join_split
  let hss := compute_hash_sapling_spends prims cache sapling signer.sapling
  let hso := compute_hash_sapling_outputs prims cache sapling signer.sapling
  let cache2 : SighashCache :=
    { hash_prevouts := if hp.2 then some hp.1 else cache.hash_prevouts
      hash_sequence := if hs.2 then some hs.1 else cache.hash_sequence
      hash_outputs := if ho.2 then some ho.1 else cache.hash_outputs
      hash_join_split := if hj.2 then some hj.1 else cache.hash_join_split
      hash_sapling_spends := if hss.2 then some hss.1 else cache.hash_sapling_spends
      hash_sapling_outputs := if hso.2 then some hso.1 else cache.hash_sapling_outputs }
  let versionWord : Nat :=
    if signer.overwintered then Int.toNat (signer.version % (2 ^ 32 : Int)) ||| 2 ^ 31
    else Int.toNat (signer.version % (2 ^ 32 : Int))
  let stream : List Int :=
    [Int.ofNat versionWord, Int.ofNat signer.version_group_id, Int.ofNat hp.1,
      Int.ofNat hs.1, Int.ofNat ho.1, Int.ofNat hj.1]
    ++ (if sapling then [Int.ofNat hss.1, Int.ofNat hso.1] else [])
    ++ [Int.ofNat signer.lock_time, Int.ofNat signer.expiry_height]
    ++ (if sapling then
          match signer.sapling with
          | some sp => [sp.balancing_value]
          | none => []
        else [])
    ++ [Int.ofNat sighashtype]
    ++ (match input_index with
        | some idx =>
          [Int.ofNat ((signer.inputs.getD idx ⟨⟨0, 0⟩, 0⟩).previous_output.hash),
           Int.ofNat ((signer.inputs.getD idx ⟨⟨0, 0⟩, 0⟩).previous_output.index)]
          ++ script_pubkey.map Int.ofNat
          ++ [Int.ofNat input_amount,
              Int.ofNat ((signer.inputs.getD idx ⟨⟨0, 0⟩, 0⟩).sequence)]
        | none => [])
  (prims.finalDigest consensus_branch_id stream, cache2)

/-- Signature era (sign.rs `SignatureVersion`). -/
inductive SignatureVersion where
  | Sprout
  | Overwinter
  | Sapling
  deriving DecidableEq, Repr

/-- Sapling transaction version group id (chain crate constant). -/
def SAPLING_TX_VERSION_GROUP_ID : Nat := 0x892F2085

/-- sign.rs `signature_version`. -/
def TransactionInputSigner.signature_version (s : TransactionInputSigner) :
    SignatureVersion :=
  if s.overwintered then
    if s.version_group_id = SAPLING_TX_VERSION_GROUP_ID then
      SignatureVersion.Sapling
    else SignatureVersion.Overwinter
  else SignatureVersion.Sprout

/-- sign.rs `signature_hash`: dispatches on the era; the Sprout path never
reads or writes the cache. -/
def signature_hash (prims : SighashPrims) (signer : TransactionInputSigner)
    (cache : SighashCache) (input_index : Option Nat) (input_amount : Nat)
    (script_pubkey : List Nat) (sighashtype : Nat)
    (consensus_branch_id : Nat) : Nat × SighashCache :=
  match signer.signature_version with
  | SignatureVersion.Sprout =>
    (prims.sproutDigest signer input_index script_pubkey sighashtype, cache)
  | SignatureVersion.Overwinter =>
    signature_hash_post_overwinter prims signer cache input_index input_amount
      script_pubkey sighashtype (Sighash.from_u32 sighashtype)
      consensus_branch_id false
  | SignatureVersion.Sapling =>
    signature_hash_post_overwinter prims signer cache input_index input_amount
      script_pubkey sighashtype (Sighash.from_u32 sighashtype)
      consensus_branch_id true

/-- The canonical (transaction-only) value of each cacheable portion. -/
def canonJSOpt (prims : SighashPrims) (jso : Option JoinSplit) : Nat :=
  match jso with
  | some js => prims.hashJoinSplit js
  | none => 0

def canonSapSpendsOpt (prims : SighashPrims) (sapo : Option Sapling) : Nat :=
  match sapo with
  | some s => prims.hashSaplingSpends s.spends
  | none => 0

def canonSapOutputsOpt (prims : SighashPrims) (sapo : Option Sapling) : Nat :=
  match sapo with
  | some s => prims.hashSaplingOutputs s.outputs
  | none => 0

def canonJoinSplit (prims : SighashPrims) (signer : TransactionInputSigner) : Nat :=
  canonJSOpt prims signer.join_split

def canonSapSpends (prims : SighashPrims) (signer : TransactionInputSigner) : Nat :=
  canonSapSpendsOpt prims signer.sapling

def canonSapOutputs (prims : SighashPrims) (signer : TransactionInputSigner) : Nat :=
  canonSapOutputsOpt prims signer.sapling

/-- A cache is coherent for a transaction when every populated entry holds
that transaction's canonical portion digest. -/
def CacheCoherent (prims : SighashPrims) (signer : TransactionInputSigner)
    (cache : SighashCache) : Prop :=
  (∀ v, cache.hash_prevouts = some v → v = prims.hashPrevouts signer.inputs) ∧
  (∀ v, cache.hash_sequence = some v → v = prims.hashSequence signer.inputs) ∧
  (∀ v, cache.hash_outputs = some v → v = prims.hashOutputsAll signer.outputs) ∧
  (∀ v, cache.hash_join_split = some v → v = canonJoinSplit prims signer) ∧
  (∀ v, cache.hash_sapling_spends = some v → v = canonSapSpends prims signer) ∧
  (∀ v, cache.hash_sapling_outputs = some v → v = canonSapOutputs prims signer)

theorem cacheCoherent_empty (prims : SighashPrims)
    (signer : TransactionInputSigner) :
    CacheCoherent prims signer SighashCache.empty :=
  ⟨fun v h => Option.noConfusion h, fun v h => Option.noConfusion h,
   fun v h => Option.noConfusion h, fun v h => Option.noConfusion h,
   fun v h => Option.noConfusion h, fun v h => Option.noConfusion h⟩

theorem compute_hash_prevouts_coherent (prims : SighashPrims)
    (signer : TransactionInputSigner) (cache : SighashCache) (sh : Sighash)
    (hc : ∀ v, cache.hash_prevouts = some v →
      v = prims.hashPrevouts signer.inputs) :
    compute_hash_prevouts prims cache sh signer.inputs =
      compute_hash_prevouts prims SighashCache.empty sh signer.inputs := by
  unfold compute_hash_prevouts
  cases sh.anyone_can_pay with
  | true => rfl
  | false =>
    cases hv : cache.hash_prevouts with
    | none => rfl
    | some v =>
      rw [hc v hv]
      rfl

theorem compute_hash_sequence_coherent (prims : SighashPrims)
    (signer : TransactionInputSigner) (cache : SighashCache) (sh : Sighash)
    (hc : ∀ v, cache.hash_sequence = some v →
      v = prims.hashSequence signer.inputs) :
    compute_hash_sequence prims cache sh signer.inputs =
      compute_hash_sequence prims SighashCache.empty sh signer.inputs := by
  unfold compute_hash_sequence
  by_cases hb : sh.base = SighashBase.All ∧ sh.anyone_can_pay = false
  · rw [if_pos hb, if_pos hb]
    cases hv : cache.hash_sequence with
    | none => rfl
    | some v =>
      rw [hc v hv]
      rfl
  · rw [if_neg hb, if_neg hb]

theorem compute_hash_outputs_coherent (prims : SighashPrims)
    (signer : TransactionInputSigner) (cache : SighashCache) (sh : Sighash)
    (ii : Option Nat)
    (hc : ∀ v, cache.hash_outputs = some v →
      v = prims.hashOutputsAll signer.outputs) :
    compute_hash_outputs prims cache sh ii signer.outputs =
      compute_hash_outputs prims SighashCache.empty sh ii signer.outputs := by
  unfold compute_hash_outputs
  cases sh.base with
  | All =>
    cases hv : cache.hash_outputs with
    | none => rfl
    | some v =>
      rw [hc v hv]
      rfl
  | None => cases ii <;> rfl
  | Single => cases ii <;> rfl

theorem compute_hash_join_split_coherent (prims : SighashPrims)
    (cache : SighashCache) (jso : Option JoinSplit)
    (hc : ∀ v, cache.hash_join_split = some v → v = canonJSOpt prims jso) :
    compute_hash_join_split prims cache jso =
      compute_hash_join_split prims SighashCache.empty jso := by
  unfold compute_hash_join_split
  cases jso with
  | none => rfl
  | some js =>
    show (if js.descriptions ≠ [] then
        (cache.hash_join_split.getD (prims.hashJoinSplit js), true)
      else (0, false)) =
      (if js.descriptions ≠ [] then
        (SighashCache.empty.hash_join_split.getD (prims.hashJoinSplit js), true)
      else (0, false))
    by_cases hd : js.descriptions ≠ []
    · rw [if_pos hd, if_pos hd]
      cases hcv : cache.hash_join_split with
      | none => rfl
      | some w =>
        rw [hc w hcv]
        rfl
    · rw [if_neg hd, if_neg hd]

theorem compute_hash_sapling_spends_coherent (prims : SighashPrims)
    (cache : SighashCache) (sap : Bool) (sapo : Option Sapling)
    (hc : ∀ v, cache.hash_sapling_spends = some v →
      v = canonSapSpendsOpt prims sapo) :
    compute_hash_sapling_spends prims cache sap sapo =
      compute_hash_sapling_spends prims SighashCache.empty sap sapo := by
  unfold compute_hash_sapling_spends
  cases sap with
  | false => rfl
  | true =>
    cases sapo with
    | none => rfl
    | some s =>
      show (if s.spends ≠ [] then
          (cache.hash_sapling_spends.getD (prims.hashSaplingSpends s.spends), true)
        else (0, false)) =
        (if s.spends ≠ [] then
          (SighashCache.empty.hash_sapling_spends.getD
            (prims.hashSaplingSpends s.spends), true)
        else (0, false))
      by_cases hd : s.spends ≠ []
      · rw [if_pos hd, if_pos hd]
        cases hcv : cache.hash_sapling_spends with
        | none => rfl
        | some w =>
          rw [hc w hcv]
          rfl
      · rw [if_neg hd, if_neg hd]

theorem compute_hash_sapling_outputs_coherent (prims : SighashPrims)
    (cache : SighashCache) (sap : Bool) (sapo : Option Sapling)
    (hc : ∀ v, cache.hash_sapling_outputs = some v →
      v = canonSapOutputsOpt prims sapo) :
    compute_hash_sapling_outputs prims cache sap sapo =
      compute_hash_sapling_outputs prims SighashCache.empty sap sapo := by
  unfold compute_hash_sapling_outputs
  cases sap with
  | false => rfl
  | true =>
    cases sapo with
    | none => rfl
    | some s =>
      show (if s.outputs ≠ [] then
          (cache.hash_sapling_outputs.getD (prims.hashSaplingOutputs s.outputs), true)
        else (0, false)) =
        (if s.outputs ≠ [] then
          (SighashCache.empty.hash_sapling_outputs.getD
            (prims.hashSaplingOutputs s.outputs), true)
        else (0, false))
      by_cases hd : s.outputs ≠ []
      · rw [if_pos hd, if_pos hd]
        cases hcv : cache.hash_sapling_outputs with
        | none => rfl
        | some w =>
          rw [hc w hcv]
          rfl
      · rw [if_neg hd, if_neg hd]

/-- A coherent warm cache yields the same post-overwinter digest as the
fresh cache, for every sighash mode, input index and auxiliary argument. -/
theorem post_overwinter_coherent_eq (prims : SighashPrims)
    (signer : TransactionInputSigner) (cache : SighashCache)
    (ii : Option Nat) (amt : Nat) (spk : List Nat) (sht : Nat) (sh : Sighash)
    (cbi : Nat) (sap : Bool) (hc : CacheCoherent prims signer cache) :
    (signature_hash_post_overwinter prims signer cache ii amt spk sht sh cbi sap).1 =
    (signature_hash_post_overwinter prims signer SighashCache.empty ii amt spk
      sht sh cbi sap).1 := by
  unfold signature_hash_post_overwinter
  rw [compute_hash_prevouts_coherent prims signer cache sh hc.1,
    compute_hash_sequence_coherent prims signer cache sh hc.2.1,
    compute_hash_outputs_coherent prims signer cache sh ii hc.2.2.1,
    compute_hash_join_split_coherent prims cache signer.join_split hc.2.2.2.1,
    compute_hash_sapling_spends_coherent prims cache sap signer.sapling
      hc.2.2.2.2.1,
    compute_hash_sapling_outputs_coherent prims cache sap signer.sapling
      hc.2.2.2.2.2]

theorem compute_hash_prevouts_spec (prims : SighashPrims)
    (cache : SighashCache) (sh : Sighash)
    (inputs : List UnsignedTransactionInput)
    (hc : ∀ v, cache.hash_prevouts = some v → v = prims.hashPrevouts inputs) :
    ∀ v, compute_hash_prevouts prims cache sh inputs = (v, true) →
      v = prims.hashPrevouts inputs := by
  intro v h
  unfold compute_hash_prevouts at h
  split at h
  · injection h with h1 h2
    subst h1
    cases hcv : cache.hash_prevouts with
    | none => rfl
    | some w => exact hc w hcv
  · injection h with h1 h2
    exact Bool.noConfusion h2

theorem compute_hash_sequence_spec (prims : SighashPrims)
    (cache : SighashCache) (sh : Sighash)
    (inputs : List UnsignedTransactionInput)
    (hc : ∀ v, cache.hash_sequence = some v → v = prims.hashSequence inputs) :
    ∀ v, compute_hash_sequence prims cache sh inputs = (v, true) →
      v = prims.hashSequence inputs := by
  intro v h
  unfold compute_hash_sequence at h
  split at h
  · injection h with h1 h2
    subst h1
    cases hcv : cache.hash_sequence with
    | none => rfl
    | some w => exact hc w hcv
  · injection h with h1 h2
    exact Bool.noConfusion h2

theorem compute_hash_outputs_spec (prims : SighashPrims)
    (cache : SighashCache) (sh : Sighash) (ii : Option Nat)
    (outputs : List TransactionOutput)
    (hc : ∀ v, cache.hash_outputs = some v → v = prims.hashOutputsAll outputs) :
    ∀ v, compute_hash_outputs prims cache sh ii outputs = (v, true) →
      v = prims.hashOutputsAll outputs := by
  intro v h
  unfold compute_hash_outputs at h
  split at h
  · injection h with h1 h2
    subst h1
    cases hcv : cache.hash_outputs with
    | none => rfl
    | some w => exact hc w hcv
  · split at h
    · injection h with h1 h2
      exact Bool.noConfusion h2
    · injection h with h1 h2
      exact Bool.noConfusion h2
  · injection h with h1 h2
    exact Bool.noConfusion h2

theorem compute_hash_join_split_spec (prims : SighashPrims)
    (cache : SighashCache) (jso : Option JoinSplit)
    (hc : ∀ v, cache.hash_join_split = some v → v = canonJSOpt prims jso) :
    ∀ v, compute_hash_join_split prims cache jso = (v, true) →
      v = canonJSOpt prims jso := by
  intro v h
  unfold compute_hash_join_split at h
  split at h
  · rename_i js
    split at h
    · injection h with h1 h2
      subst h1
      cases hcv : cache.hash_join_split with
      | none => rfl
      | some w => exact hc w hcv
    · injection h with h1 h2
      exact Bool.noConfusion h2
  · injection h with h1 h2
    exact Bool.noConfusion h2

theorem compute_hash_sapling_spends_spec (prims : SighashPrims)
    (cache : SighashCache) (sap : Bool) (sapo : Option Sapling)
    (hc : ∀ v, cache.hash_sapling_spends = some v →
      v = canonSapSpendsOpt prims sapo) :
    ∀ v, compute_hash_sapling_spends prims cache sap sapo = (v, true) →
      v = canonSapSpendsOpt prims sapo := by
  intro v h
  unfold compute_hash_sapling_spends at h
  split at h
  · injection h with h1 h2
    exact Bool.noConfusion h2
  · split at h
    · rename_i s
      split at h
      · injection h with h1 h2
        subst h1
        cases hcv : cache.hash_sapling_spends with
        | none => rfl
        | some w => exact hc w hcv
      · injection h with h1 h2
        exact Bool.noConfusion h2
    · injection h with h1 h2
      exact Bool.noConfusion h2

theorem compute_hash_sapling_outputs_spec (prims : SighashPrims)
    (cache : SighashCache) (sap : Bool) (sapo : Option Sapling)
    (hc : ∀ v, cache.hash_sapling_outputs = some v →
      v = canonSapOutputsOpt prims sapo) :
    ∀ v, compute_hash_sapling_outputs prims cache sap sapo = (v, true) →
      v = canonSapOutputsOpt prims sapo := by
  intro v h
  unfold compute_hash_sapling_outputs at h
  split at h
  · injection h with h1 h2
    exact Bool.noConfusion h2
  · split at h
    · rename_i s
      split at h
      · injection h with h1 h2
        subst h1
        cases hcv : cache.hash_sapling_outputs with
        | none => rfl
        | some w => exact hc w hcv
      · injection h with h1 h2
        exact Bool.noConfusion h2
    · injection h with h1 h2
      exact Bool.noConfusion h2

theorem if_cache_coherent (p : Nat × Bool) (old : Option Nat) (canon : Nat)
    (hold : ∀ v, old = some v → v = canon)
    (hnew : ∀ v, p = (v, true) → v = canon) :
    ∀ v, (if p.2 then some p.1 else old) = some v → v = canon := by
  intro v hv
  obtain ⟨pv, pb⟩ := p
  cases pb with
  | false =>
    replace hv : old = some v := hv
    exact hold v hv
  | true =>
    replace hv : some pv = some v := hv
    injection hv with hv
    subst hv
    exact hnew pv rfl

/-- The post-overwinter pass only ever caches a portion's canonical value:
cache coherence is preserved across calls on the same transaction. -/
theorem post_overwinter_preserves_coherent (prims : SighashPrims)
    (signer : TransactionInputSigner) (cache : SighashCache)
    (ii : Option Nat) (amt : Nat) (spk : List Nat) (sht : Nat) (sh : Sighash)
    (cbi : Nat) (sap : Bool) (hc : CacheCoherent prims signer cache) :
    CacheCoherent prims signer
      (signature_hash_post_overwinter prims signer cache ii amt spk sht sh
        cbi sap).2 := by
  refine ⟨?_, ?_, ?_, ?_, ?_, ?_⟩
  · exact if_cache_coherent (compute_hash_prevouts prims cache sh signer.inputs)
      cache.hash_prevouts (prims.hashPrevouts signer.inputs) hc.1
      (compute_hash_prevouts_spec prims cache sh signer.inputs hc.1)
  · exact if_cache_coherent (compute_hash_sequence prims cache sh signer.inputs)
      cache.hash_sequence (prims.hashSequence signer.inputs) hc.2.1
      (compute_hash_sequence_spec prims cache sh signer.inputs hc.2.1)
  · exact if_cache_coherent
      (compute_hash_outputs prims cache sh ii signer.outputs)
      cache.hash_outputs (prims.hashOutputsAll signer.outputs) hc.2.2.1
      (compute_hash_outputs_spec prims cache sh ii signer.outputs hc.2.2.1)
  · exact if_cache_coherent
      (compute_hash_join_split prims cache signer.join_split)
      cache.hash_join_split (canonJoinSplit prims signer) hc.2.2.2.1
      (compute_hash_join_split_spec prims cache signer.join_split hc.2.2.2.1)
  · exact if_cache_coherent
      (compute_hash_sapling_spends prims cache sap signer.sapling)
      cache.hash_sapling_spends (canonSapSpends prims signer) hc.2.2.2.2.1
      (compute_hash_sapling_spends_spec prims cache sap signer.sapling
        hc.2.2.2.2.1)
  · exact if_cache_coherent
      (compute_hash_sapling_outputs prims cache sap signer.sapling)
      cache.hash_sapling_outputs (canonSapOutputs prims signer) hc.2.2.2.2.2
      (compute_hash_sapling_outputs_spec prims cache sap signer.sapling
        hc.2.2.2.2.2)

/-- C5: for every Overwinter/Sapling-era transaction (every abstract digest
family, input index, amount, script, sighash type and branch id), the
signature hash computed against a warm cache — populated by an earlier
`signature_hash` call on the same transaction with any other index and
sighash type — equals the hash computed against a fresh, all-empty cache. -/
theorem C5_sighash_cache_consistent (prims : SighashPrims)
    (signer : TransactionInputSigner) (hover : signer.overwintered = true)
    (i1 i2 : Option Nat) (amt1 amt2 : Nat) (spk1 spk2 : List Nat)
    (sht1 sht2 : Nat) (cbi1 cbi2 : Nat) :
    (signature_hash prims signer
        (signature_hash prims signer SighashCache.empty i1 amt1 spk1 sht1 cbi1).2
        i2 amt2 spk2 sht2 cbi2).1 =
    (signature_hash prims signer SighashCache.empty i2 amt2 spk2 sht2 cbi2).1 := by
  unfold signature_hash
  cases hv : signer.signature_version with
  | Sprout =>
    exfalso
    unfold TransactionInputSigner.signature_version at hv
    rw [hover] at hv
    simp only [if_true] at hv
    by_cases hg : signer.version_group_id = SAPLING_TX_VERSION_GROUP_ID
    · rw [if_pos hg] at hv
      cases hv
    · rw [if_neg hg] at hv
      cases hv
  | Overwinter =>
    exact post_overwinter_coherent_eq prims signer _ i2 amt2 spk2 sht2
      (Sighash.from_u32 sht2) cbi2 false
      (post_overwinter_preserves_coherent prims signer SighashCache.empty i1
        amt1 spk1 sht1 (Sighash.from_u32 sht1) cbi1 false
        (cacheCoherent_empty prims signer))
  | Sapling =>
    exact post_overwinter_coherent_eq prims signer _ i2 amt2 spk2 sht2
      (Sighash.from_u32 sht2) cbi2 true
      (post_overwinter_preserves_coherent prims signer SighashCache.empty i1
        amt1 spk1 sht1 (Sighash.from_u32 sht1) cbi1 true
        (cacheCoherent_empty prims signer))

/-- A concrete digest family for the C5 witness. -/
def c5Prims : SighashPrims :=
  { hashPrevouts := fun l => l.length
    hashSequence := fun l => l.length + 1
    hashOutputsAll := fun l => l.length + 2
    hashOutputsSingle := fun o => o.value
    hashJoinSplit := fun js => js.descriptions.length
    hashSaplingSpends := fun l => l.length + 3
    hashSaplingOutputs := fun l => l.length + 4
    finalDigest := fun cbi stream => cbi + stream.length
    sproutDigest := fun _ _ _ _ => 0 }

/-- A concrete Sapling-era signer with two inputs for the C5 witness. -/
def c5Signer : TransactionInputSigner :=
  { overwintered := true, version := 4
    version_group_id := SAPLING_TX_VERSION_GROUP_ID
    inputs := [⟨⟨9, 0⟩, 5⟩, ⟨⟨9, 1⟩, 6⟩]
    outputs := [⟨10, []⟩]
    lock_time := 0, expiry_height := 0, join_split := none
    sapling := some ⟨1, [⟨7, 0⟩], [⟨8, 0⟩]⟩ }

/-- Witness for C5: warming the cache by signing input 0 with SIGHASH_ALL,
then signing input 1 with SIGHASH_SINGLE, matches the fresh-cache digest. -/
theorem C5_sighash_cache_consistent_witness :
    c5Signer.overwintered = true ∧
    (signature_hash c5Prims c5Signer
        (signature_hash c5Prims c5Signer SighashCache.empty (some 0) 10 [1] 1 7).2
        (some 1) 20 [2] 3 7).1 =
      (signature_hash c5Prims c5Signer SighashCache.empty (some 1) 20 [2] 3 7).1 :=
  ⟨rfl, C5_sighash_cache_consistent c5Prims c5Signer rfl (some 0) (some 1)
    10 20 [1] [2] 1 3 7 7⟩

/-- Modelled from the spec: reader failure of the serialization crate
(reader.rs is not under src/) — reading past the end of input. -/
inductive ReaderError where
  | UnexpectedEnd
  deriving DecidableEq, Repr

/-- Message-level payload errors (message crate error.rs taxonomy). -/
inductive MsgError where
  | Deserialize
  | InvalidVersion
  deriving DecidableEq, Repr

/-- Modelled from the spec: a wire reader is the remaining byte list; one
byte is consumed at a time. -/
def readByte : List Nat → Except ReaderError (Nat × List Nat)
  | [] => Except.error ReaderError.UnexpectedEnd
  | b :: rest => Except.ok (b, rest)

/-- Modelled from the spec: a fixed-size byte read. -/
def readBytesN : Nat → List Nat → Except ReaderError (List Nat × List Nat)
  | 0, bs => Except.ok ([], bs)
  | _ + 1, [] => Except.error ReaderError.UnexpectedEnd
  | n + 1, b :: bs =>
    match readBytesN n bs with
    | Except.ok (xs, r) => Except.ok (b :: xs, r)
    | Except.error e => Except.error e

/-- Little-endian value of a byte list (first byte least significant). -/
def leVal (bs : List Nat) : Nat := bs.foldr (fun b acc => b + 256 * acc) 0

/-- Little-endian u16/u32/u64 encoders (spec: all wire integers are LE). -/
def u16enc (v : Nat) : List Nat := [v % 256, v / 256 % 256]

def u32enc (v : Nat) : List Nat :=
  [v % 256, v / 256 % 256, v / 256 ^ 2 % 256, v / 256 ^ 3 % 256]

def u64enc (v : Nat) : List Nat :=
  [v % 256, v / 256 % 256, v / 256 ^ 2 % 256, v / 256 ^ 3 % 256,
   v / 256 ^ 4 % 256, v / 256 ^ 5 % 256, v / 256 ^ 6 % 256, v / 256 ^ 7 % 256]

def readU16 (bs : List Nat) : Except ReaderError (Nat × List Nat) :=
  match readBytesN 2 bs with
  | Except.ok (xs, r) => Except.ok (leVal xs, r)
  | Except.error e => Except.error e

def readU32 (bs : List Nat) : Except ReaderError (Nat × List Nat) :=
  match readBytesN 4 bs with
  | Except.ok (xs, r) => Except.ok (leVal xs, r)
  | Except.error e => Except.error e

def readU64 (bs : List Nat) : Except ReaderError (Nat × List Nat) :=
  match readBytesN 8 bs with
  | Except.ok (xs, r) => Except.ok (leVal xs, r)
  | Except.error e => Except.error e

/-- Two's complement reinterpretation of a u64 as i64. -/
def toSigned64 (n : Nat) : Int :=
  if n < 2 ^ 63 then (n : Int) else (n : Int) - 2 ^ 64

/-- Two's complement reinterpretation of a u32 as i32. -/
def toSigned32 (n : Nat) : Int :=
  if n < 2 ^ 31 then (n : Int) else (n : Int) - 2 ^ 32

def i64enc (v : Int) : List Nat := u64enc (Int.toNat (v % (2 ^ 64 : Int)))

def i32enc (v : Int) : List Nat := u32enc (Int.toNat (v % (2 ^ 32 : Int)))

def readI64 (bs : List Nat) : Except ReaderError (Int × List Nat) :=
  match readU64 bs with
  | Except.ok (n, r) => Except.ok (toSigned64 n, r)
  | Except.error e => Except.error e

def readI32 (bs : List Nat) : Except ReaderError (Int × List Nat) :=
  match readU32 bs with
  | Except.ok (n, r) => Except.ok (toSigned32 n, r)
  | Except.error e => Except.error e

/-- Modelled from the spec: compact integers use the 0xFD/0xFE/0xFF length
prefix (compact_integer.rs is not under src/). -/
def compactEnc (n : Nat) : List Nat :=
  if n < 0xFD then [n]
  else if n < 2 ^ 16 then 0xFD :: u16enc n
  else if n < 2 ^ 32 then 0xFE :: u32enc n
  else 0xFF :: u64enc n

def readCompact (bs : List Nat) : Except ReaderError (Nat × List Nat) :=
  match readByte bs with
  | Except.error e => Except.error e
  | Except.ok (b, r) =>
    if b < 0xFD then Except.ok (b, r)
    else if b = 0xFD then readU16 r
    else if b = 0xFE then readU32 r
    else readU64 r

/-- A byte string on the wire: compact length prefix, then the raw bytes. -/
def strEnc (s : List Nat) : List Nat := compactEnc s.length ++ s

def readStr (bs : List Nat) : Except ReaderError (List Nat × List Nat) :=
  match readCompact bs with
  | Except.ok (n, r) => readBytesN n r
  | Except.error e => Except.error e

/-- Modelled from the spec: a network address is an opaque fixed-width
(26-byte) field on the wire (NetAddress lives in the network crate, not
under src/). -/
structure NetAddress where
  raw : List Nat
  deriving DecidableEq, Repr

def netAddrEnc (a : NetAddress) : List Nat := a.raw

def readNetAddr (bs : List Nat) : Except ReaderError (NetAddress × List Nat) :=
  match readBytesN 26 bs with
  | Except.ok (xs, r) => Except.ok (⟨xs⟩, r)
  | Except.error e => Except.error e

theorem readBytesN_exact (xs rest : List Nat) :
    readBytesN xs.length (xs ++ rest) = Except.ok (xs, rest) := by
  induction xs with
  | nil => rfl
  | cons b bs ih =>
    show readBytesN (bs.length + 1) (b :: (bs ++ rest)) = _
    simp only [readBytesN, ih]

theorem leVal_u16enc (v : Nat) (h : v < 2 ^ 16) : leVal (u16enc v) = v := by
  simp only [u16enc, leVal, List.foldr]
  omega

theorem leVal_u32enc (v : Nat) (h : v < 2 ^ 32) : leVal (u32enc v) = v := by
  simp only [u32enc, leVal, List.foldr]
  omega

theorem leVal_u64enc (v : Nat) (h : v < 2 ^ 64) : leVal (u64enc v) = v := by
  simp only [u64enc, leVal, List.foldr]
  omega

theorem readU16_enc (v : Nat) (rest : List Nat) (h : v < 2 ^ 16) :
    readU16 (u16enc v ++ rest) = Except.ok (v, rest) := by
  have hl : (u16enc v).length = 2 := rfl
  unfold readU16
  rw [show (2 : Nat) = (u16enc v).length from hl.symm, readBytesN_exact]
  show Except.ok (leVal (u16enc v), rest) = _
  rw [leVal_u16enc v h]

theorem readU32_enc (v : Nat) (rest : List Nat) (h : v < 2 ^ 32) :
    readU32 (u32enc v ++ rest) = Except.ok (v, rest) := by
  have hl : (u32enc v).length = 4 := rfl
  unfold readU32
  rw [show (4 : Nat) = (u32enc v).length from hl.symm, readBytesN_exact]
  show Except.ok (leVal (u32enc v), rest) = _
  rw [leVal_u32enc v h]

theorem readU64_enc (v : Nat) (rest : List Nat) (h : v < 2 ^ 64) :
    readU64 (u64enc v ++ rest) = Except.ok (v, rest) := by
  have hl : (u64enc v).length = 8 := rfl
  unfold readU64
  rw [show (8 : Nat) = (u64enc v).length from hl.symm, readBytesN_exact]
  show Except.ok (leVal (u64enc v), rest) = _
  rw [leVal_u64enc v h]

theorem readI64_enc (v : Int) (rest : List Nat)
    (h1 : -(2 ^ 63) ≤ v) (h2 : v < 2 ^ 63) :
    readI64 (i64enc v ++ rest) = Except.ok (v, rest) := by
  unfold readI64 i64enc
  rw [readU64_enc _ rest (by omega)]
  show Except.ok (toSigned64 (Int.toNat (v % (2 ^ 64 : Int))), rest) = _
  have : toSigned64 (Int.toNat (v % (2 ^ 64 : Int))) = v := by
    unfold toSigned64
    split <;> omega
  rw [this]

theorem readI32_enc (v : Int) (rest : List Nat)
    (h1 : -(2 ^ 31) ≤ v) (h2 : v < 2 ^ 31) :
    readI32 (i32enc v ++ rest) = Except.ok (v, rest) := by
  unfold readI32 i32enc
  rw [readU32_enc _ rest (by omega)]
  show Except.ok (toSigned32 (Int.toNat (v % (2 ^ 32 : Int))), rest) = _
  have : toSigned32 (Int.toNat (v % (2 ^ 32 : Int))) = v := by
    unfold toSigned32
    split <;> omega
  rw [this]

theorem readCompact_cons (b : Nat) (r : List Nat) :
    readCompact (b :: r) =
      (if b < 0xFD then Except.ok (b, r)
       else if b = 0xFD then readU16 r
       else if b = 0xFE then readU32 r
       else readU64 r) := rfl

theorem readCompact_enc (n : Nat) (rest : List Nat) (h : n < 2 ^ 64) :
    readCompact (compactEnc n ++ rest) = Except.ok (n, rest) := by
  unfold compactEnc
  by_cases h1 : n < 0xFD
  · rw [if_pos h1]
    show readCompact (n :: rest) = _
    rw [readCompact_cons, if_pos h1]
  · rw [if_neg h1]
    by_cases h2 : n < 2 ^ 16
    · rw [if_pos h2]
      show readCompact (0xFD :: (u16enc n ++ rest)) = _
      rw [readCompact_cons, if_neg (by decide), if_pos rfl]
      exact readU16_enc n rest h2
    · rw [if_neg h2]
      by_cases h3 : n < 2 ^ 32
      · rw [if_pos h3]
        show readCompact (0xFE :: (u32enc n ++ rest)) = _
        rw [readCompact_cons, if_neg (by decide), if_neg (by decide), if_pos rfl]
        exact readU32_enc n rest h3
      · rw [if_neg h3]
        show readCompact (0xFF :: (u64enc n ++ rest)) = _
        rw [readCompact_cons, if_neg (by decide), if_neg (by decide),
          if_neg (by decide)]
        exact readU64_enc n rest h

theorem readStr_enc (s : List Nat) (rest : List Nat) (h : s.length < 2 ^ 64) :
    readStr (strEnc s ++ rest) = Except.ok (s, rest) := by
  unfold readStr strEnc
  rw [List.append_assoc, readCompact_enc s.length _ h]
  show readBytesN s.length (s ++ rest) = _
  exact readBytesN_exact s rest

theorem readNetAddr_enc (a : NetAddress) (rest : List Nat)
    (h : a.raw.length = 26) :
    readNetAddr (netAddrEnc a ++ rest) = Except.ok (a, rest) := by
  unfold readNetAddr netAddrEnc
  rw [show (26 : Nat) = a.raw.length from h.symm, readBytesN_exact]

/-- Base version sub-structure (version.rs `V0`): wire version, service
bits, timestamp and receiver address; services is a u64 bitset. -/
structure VersionV0 where
  version : Nat
  services : Nat
  timestamp : Int
  receiver : NetAddress
  deriving DecidableEq, Repr

/-- Sub-structure sent when version ≥ 106 (version.rs `V106`). -/
structure VersionV106 where
  from_addr : NetAddress
  nonce : Nat
  user_agent : List Nat
  start_height : Int
  deriving DecidableEq, Repr

/-- Sub-structure sent when version ≥ 70001 (version.rs `V70001`). -/
structure VersionV70001 where
  relay : Bool
  deriving DecidableEq, Repr

/-- The version payload (version.rs `Version`): one, two or three
concatenated sub-structures. -/
inductive Version where
  | V0 (simple : VersionV0)
  | V106 (simple : VersionV0) (v106 : VersionV106)
  | V70001 (simple : VersionV0) (v106 : VersionV106) (v70001 : VersionV70001)
  deriving DecidableEq, Repr

def boolEnc (b : Bool) : List Nat := [if b then 1 else 0]

def readBool (bs : List Nat) : Except ReaderError (Bool × List Nat) :=
  match readByte bs with
  | Except.ok (b, r) => Except.ok (decide (b ≠ 0), r)
  | Except.error e => Except.error e

/-- `Serializable for V0`. -/
def v0enc (s : VersionV0) : List Nat :=
  u32enc s.version ++ u64enc s.services ++ i64enc s.timestamp
    ++ netAddrEnc s.receiver

/-- `Deserializable for V0`. -/
def readV0 (bs : List Nat) : Except ReaderError (VersionV0 × List Nat) :=
  match readU32 bs with
  | Except.error e => Except.error e
  | Except.ok (version, r1) =>
    match readU64 r1 with
    | Except.error e => Except.error e
    | Except.ok (services, r2) =>
      match readI64 r2 with
      | Except.error e => Except.error e
      | Except.ok (timestamp, r3) =>
        match readNetAddr r3 with
        | Except.error e => Except.error e
        | Except.ok (receiver, r4) =>
          Except.ok (⟨version, services, timestamp, receiver⟩, r4)

/-- `Serializable for V106`. -/
def v106enc (s : VersionV106) : List Nat :=
  netAddrEnc s.from_addr ++ u64enc s.nonce ++ strEnc s.user_agent
    ++ i32enc s.start_height

/-- `Deserializable for V106`. -/
def readV106 (bs : List Nat) : Except ReaderError (VersionV106 × List Nat) :=
  match readNetAddr bs with
  | Except.error e => Except.error e
  | Except.ok (from_addr, r1) =>
    match readU64 r1 with
    | Except.error e => Except.error e
    | Except.ok (nonce, r2) =>
      match readStr r2 with
      | Except.error e => Except.error e
      | Except.ok (user_agent, r3) =>
        match readI32 r3 with
        | Except.error e => Except.error e
        | Except.ok (start_height, r4) =>
          Except.ok (⟨from_addr, nonce, user_agent, start_height⟩, r4)

/-- `Serializable for V70001`. -/
def v70001enc (s : VersionV70001) : List Nat := boolEnc s.relay

/-- `Deserializable for V70001`. -/
def readV70001 (bs : List Nat) :
    Except ReaderError (VersionV70001 × List Nat) :=
  match readBool bs with
  | Except.ok (relay, r) => Except.ok (⟨relay⟩, r)
  | Except.error e => Except.error e

/-- `Payload::serialize_payload for Version` (version.rs lines 50-63): the
variant alone decides how many sub-structures are written. -/
def Version.serialize_payload : Version → List Nat
  | Version.V0 simple => v0enc simple
  | Version.V106 simple v106 => v0enc simple ++ v106enc v106
  | Version.V70001 simple v106 v70001 =>
    v0enc simple ++ v106enc v106 ++ v70001enc v70001

/-- `Payload::deserialize_payload for Version` (version.rs lines 31-48):
the wire version field of the base sub-structure — not the variant that was
serialized — decides how many sub-structures are read back. -/
def Version.deserialize_payload (bs : List Nat) :
    Except ReaderError (Version × List Nat) :=
  match readV0 bs with
  | Except.error e => Except.error e
  | Except.ok (simple, r1) =>
    if simple.version < 106 then Except.ok (Version.V0 simple, r1)
    else
      match readV106 r1 with
      | Except.error e => Except.error e
      | Except.ok (v106, r2) =>
        if simple.version < 70001 then
          Except.ok (Version.V106 simple v106, r2)
        else
          match readV70001 r2 with
          | Except.error e => Except.error e
          | Except.ok (v70001, r3) =>
            Except.ok (Version.V70001 simple v106 v70001, r3)

/-- Modelled from the spec: the message-crate `deserialize_payload` wrapper
(serialization/mod.rs is not under src/) reads one payload and fails
`Deserialize` on a reader error or on trailing bytes. -/
def deserialize_version_payload (bs : List Nat) : Except MsgError Version :=
  match Version.deserialize_payload bs with
  | Except.error _ => Except.error MsgError.Deserialize
  | Except.ok (v, rest) =>
    if rest = [] then Except.ok v else Except.error MsgError.Deserialize

theorem readV0_enc (s : VersionV0) (rest : List Nat)
    (h1 : s.version < 2 ^ 32) (h2 : s.services < 2 ^ 64)
    (h3 : -(2 ^ 63) ≤ s.timestamp) (h4 : s.timestamp < 2 ^ 63)
    (h5 : s.receiver.raw.length = 26) :
    readV0 (v0enc s ++ rest) = Except.ok (s, rest) := by
  unfold readV0 v0enc
  simp only [List.append_assoc]
  simp only [readU32_enc _ _ h1]
  simp only [readU64_enc _ _ h2]
  simp only [readI64_enc _ _ h3 h4]
  simp only [readNetAddr_enc _ _ h5]

theorem readV106_enc (s : VersionV106) (rest : List Nat)
    (h1 : s.from_addr.raw.length = 26) (h2 : s.nonce < 2 ^ 64)
    (h3 : s.user_agent.length < 2 ^ 64)
    (h4 : -(2 ^ 31) ≤ s.start_height) (h5 : s.start_height < 2 ^ 31) :
    readV106 (v106enc s ++ rest) = Except.ok (s, rest) := by
  unfold readV106 v106enc
  simp only [List.append_assoc]
  simp only [readNetAddr_enc _ _ h1]
  simp only [readU64_enc _ _ h2]
  simp only [readStr_enc _ _ h3]
  simp only [readI32_enc _ _ h4 h5]

theorem readV70001_enc (s : VersionV70001) (rest : List Nat) :
    readV70001 (v70001enc s ++ rest) = Except.ok (s, rest) := by
  obtain ⟨relay⟩ := s
  cases relay <;> rfl

/-- Well-formedness of the base sub-structure: every field fits its wire
width. -/
def VersionV0.wf (s : VersionV0) : Prop :=
  s.version < 2 ^ 32 ∧ s.services < 2 ^ 64 ∧ -(2 ^ 63) ≤ s.timestamp ∧
  s.timestamp < 2 ^ 63 ∧ s.receiver.raw.length = 26

def VersionV106.wf (s : VersionV106) : Prop :=
  s.from_addr.raw.length = 26 ∧ s.nonce < 2 ^ 64 ∧
  s.user_agent.length < 2 ^ 64 ∧ -(2 ^ 31) ≤ s.start_height ∧
  s.start_height < 2 ^ 31

def Version.wf : Version → Prop
  | Version.V0 s => VersionV0.wf s
  | Version.V106 s a => VersionV0.wf s ∧ VersionV106.wf a
  | Version.V70001 s a _ => VersionV0.wf s ∧ VersionV106.wf a

/-- The variant agrees with the ranges the deserializer infers from the
wire version field. -/
def Version.rangeOk : Version → Prop
  | Version.V0 s => s.version < 106
  | Version.V106 s _ => 106 ≤ s.version ∧ s.version < 70001
  | Version.V70001 s _ _ => 70001 ≤ s.version

/-- The 26-byte zero address used by the C7 fixtures. -/
def c7Addr : NetAddress := ⟨List.replicate 26 0⟩

/-- A V0-variant payload whose wire version field claims ≥ 106. -/
def c7Bad : Version := Version.V0 ⟨106, 0, 0, c7Addr⟩

/-- Counterexample for C7: serializing `V0` with wire version 106 writes
only the base sub-structure, but deserialization trusts the version field
and tries to read a V106 sub-structure from the exhausted reader, so the
round trip returns `Deserialize` instead of the original value. -/
theorem C7_counterexample :
    deserialize_version_payload (Version.serialize_payload c7Bad) =
      Except.error MsgError.Deserialize ∧
    deserialize_version_payload (Version.serialize_payload c7Bad) ≠
      Except.ok c7Bad := by
  constructor
  · rfl
  · intro h
    rw [show deserialize_version_payload (Version.serialize_payload c7Bad) =
        Except.error MsgError.Deserialize from rfl] at h
    cases h

/-- C7 (amended): `deserialize_payload ∘ serialize_payload = id` on Version
payloads exactly when the fields fit their wire widths and the variant
matches the version ranges the deserializer branches on (`V0` ⇔ version <
106, `V106` ⇔ 106 ≤ version < 70001, `V70001` ⇔ version ≥ 70001). -/
theorem C7_version_roundtrip (v : Version) (hwf : Version.wf v)
    (hrange : Version.rangeOk v) :
    deserialize_version_payload (Version.serialize_payload v) =
      Except.ok v := by
  cases v with
  | V0 s =>
    obtain ⟨h1, h2, h3, h4, h5⟩ := hwf
    have hlt : s.version < 106 := hrange
    have hv0 : readV0 (v0enc s) = Except.ok (s, []) := by
      have := readV0_enc s [] h1 h2 h3 h4 h5
      rwa [List.append_nil] at this
    unfold deserialize_version_payload Version.serialize_payload
      Version.deserialize_payload
    simp only [hv0]
    rw [if_pos hlt]
    rfl
  | V106 s a =>
    obtain ⟨⟨h1, h2, h3, h4, h5⟩, ⟨g1, g2, g3, g4, g5⟩⟩ := hwf
    obtain ⟨hge, hlt⟩ := hrange
    have hv0 : readV0 (v0enc s ++ v106enc a) = Except.ok (s, v106enc a) :=
      readV0_enc s _ h1 h2 h3 h4 h5
    have hv106 : readV106 (v106enc a) = Except.ok (a, []) := by
      have := readV106_enc a [] g1 g2 g3 g4 g5
      rwa [List.append_nil] at this
    unfold deserialize_version_payload Version.serialize_payload
      Version.deserialize_payload
    simp only [hv0]
    rw [if_neg (by omega)]
    simp only [hv106]
    rw [if_pos hlt]
    rfl
  | V70001 s a b =>
    obtain ⟨⟨h1, h2, h3, h4, h5⟩, ⟨g1, g2, g3, g4, g5⟩⟩ := hwf
    have hge : 70001 ≤ s.version := hrange
    have hv0 : readV0 (v0enc s ++ (v106enc a ++ v70001enc b)) =
        Except.ok (s, v106enc a ++ v70001enc b) :=
      readV0_enc s _ h1 h2 h3 h4 h5
    have hv106 : readV106 (v106enc a ++ v70001enc b) =
        Except.ok (a, v70001enc b) :=
      readV106_enc a _ g1 g2 g3 g4 g5
    have hv70001 : readV70001 (v70001enc b) = Except.ok (b, []) := by
      have := readV70001_enc b []
      rwa [List.append_nil] at this
    unfold deserialize_version_payload Version.serialize_payload
      Version.deserialize_payload
    simp only [List.append_assoc]
    simp only [hv0]
    rw [if_neg (by omega)]
    simp only [hv106]
    rw [if_neg (by omega)]
    simp only [hv70001]
    simp

/-- A well-formed V106-variant payload for the C7 witness. -/
def c7Good : Version :=
  Version.V106 ⟨31900, 1, 5, c7Addr⟩ ⟨c7Addr, 99, [65], 7⟩

/-- Witness for C7: the amended round trip evaluated on a concrete
V106-variant payload. -/
theorem C7_version_roundtrip_witness :
    Version.wf c7Good ∧ Version.rangeOk c7Good ∧
    deserialize_version_payload (Version.serialize_payload c7Good) =
      Except.ok c7Good :=
  ⟨⟨⟨by decide, by decide, by decide, by decide, by decide⟩,
    ⟨by decide, by decide, by decide, by decide, by decide⟩⟩,
   ⟨by decide, by decide⟩,
   C7_version_roundtrip c7Good
     ⟨⟨by decide, by decide, by decide, by decide, by decide⟩,
      ⟨by decide, by decide, by decide, by decide, by decide⟩⟩
     ⟨by decide, by decide⟩⟩

/-- Append/ignore decision of the assembler policies (block_assembler.rs
`NextStep`). -/
inductive NextStep where
  | Append
  | FinishAndAppend
  | Ignore
  | FinishAndIgnore
  deriving DecidableEq, Repr

/-- `NextStep::and` — the lattice combining the size and sigops verdicts. -/
def NextStep.and : NextStep → NextStep → NextStep
  | _, NextStep.FinishAndIgnore => NextStep.FinishAndIgnore
  | NextStep.FinishAndIgnore, _ => NextStep.FinishAndIgnore
  | NextStep.FinishAndAppend, NextStep.Ignore => NextStep.FinishAndIgnore
  | NextStep.Ignore, NextStep.FinishAndAppend => NextStep.FinishAndIgnore
  | NextStep.Ignore, _ => NextStep.Ignore
  | _, NextStep.Ignore => NextStep.Ignore
  | _, NextStep.FinishAndAppend => NextStep.FinishAndAppend
  | NextStep.FinishAndAppend, _ => NextStep.FinishAndAppend
  | NextStep.Append, NextStep.Append => NextStep.Append

/-- Size/sigops budget of the assembler (block_assembler.rs `SizePolicy`). -/
structure SizePolicy where
  current_size : Nat
  max_size : Nat
  size_buffer : Nat
  finish_counter : Nat
  finish_limit : Nat
  deriving DecidableEq, Repr

def SizePolicy.new (current_size max_size size_buffer finish_limit : Nat) :
    SizePolicy :=
  ⟨current_size, max_size, size_buffer, 0, finish_limit⟩

/-- `SizePolicy::decide`: the finish counter advances whenever the buffer
is crossed, even for transactions that end up skipped. -/
def SizePolicy.decide (p : SizePolicy) (size : Nat) : NextStep × SizePolicy :=
  let finishing := p.max_size < p.current_size + p.size_buffer
  let fits := p.current_size + size ≤ p.max_size
  let finish := p.finish_limit ≤ p.finish_counter + 1
  let p2 := if finishing then
      { p with finish_counter := p.finish_counter + 1 }
    else p
  (if fits then
     if finish then NextStep.FinishAndAppend else NextStep.Append
   else
     if finish then NextStep.FinishAndIgnore else NextStep.Ignore, p2)

def SizePolicy.apply (p : SizePolicy) (size : Nat) : SizePolicy :=
  { p with current_size := p.current_size + size }

/-- A mempool entry as the fitting iterator consumes it: hash, serialized
size and the prevout hashes of its inputs. -/
structure Entry where
  hash : Nat
  size : Nat
  inputs : List Nat
  deriving DecidableEq, Repr

/-- Mutable state of `FittingTransactionsIterator`. -/
structure IterState where
  block_size : SizePolicy
  sigops : SizePolicy
  previous_entries : List Entry
  ignored : List Nat
  finished : Bool
  deriving DecidableEq, Repr

/-- `BLOCK_HEADER_SIZE` (block_assembler.rs line 16). -/
def BLOCK_HEADER_SIZE : Nat := 4 + 32 + 32 + 32 + 4 + 4 + 32 + 1344

/-- `FittingTransactionsIterator::new`: header plus length-field bytes are
pre-charged to the size policy. -/
def initIterState (max_block_size max_block_sigops : Nat) : IterState :=
  { block_size := SizePolicy.new (BLOCK_HEADER_SIZE + 4) max_block_size 1000 50
    sigops := SizePolicy.new 0 max_block_sigops 8 50
    previous_entries := []
    ignored := []
    finished := false }

/-- `FittingTransactionsIterator::next` (block_assembler.rs lines 214-273):
one iterator step over the remaining mempool entries.  Finality and sigops
counting are external to this file and enter as function parameters.  The
source's quirks are preserved: both policies decide (and advance their
finish counters) before the finality/ignored checks, `sigops.apply` is
called with the transaction SIZE, and the `Ignore` arm does NOT record the
entry in the ignored set — only `FinishAndIgnore` does. -/
def fittingNext (isFinal : Entry → Bool) (sigopsOf : Entry → Nat) :
    List Entry → IterState → Option Entry × List Entry × IterState
  | entries, st =>
    if st.finished then (none, entries, st)
    else
      match entries with
      | [] => (none, [], { st with finished := true })
      | entry :: rest =>
        let transaction_size := entry.size
        let sigops_count := sigopsOf entry
        let sd := st.block_size.decide transaction_size
        let gd := st.sigops.decide sigops_count
        let st2 := { st with block_size := sd.2, sigops := gd.2 }
        if !isFinal entry then fittingNext isFinal sigopsOf rest st2
        else if !st2.ignored.isEmpty
            && entry.inputs.any (fun h => st2.ignored.contains h) then
          fittingNext isFinal sigopsOf rest st2
        else
          match sd.1.and gd.1 with
          | NextStep.Append =>
            (some entry, rest,
              { st2 with
                  block_size := st2.block_size.apply transaction_size
                  sigops := st2.sigops.apply transaction_size
                  previous_entries := st2.previous_entries ++ [entry] })
          | NextStep.FinishAndAppend =>
            (some entry, rest,
              { st2 with
                  finished := true
                  block_size := st2.block_size.apply transaction_size
                  sigops := st2.sigops.apply transaction_size
                  previous_entries := st2.previous_entries ++ [entry] })
          | NextStep.Ignore => fittingNext isFinal sigopsOf rest st2
          | NextStep.FinishAndIgnore =>
            fittingNext isFinal sigopsOf rest
              { st2 with
                  ignored := entry.hash :: st2.ignored
                  finished := true }

/-- Drains the iterator (fuel-bounded), returning the yielded entries and
the final state. -/
def fittingRun (isFinal : Entry → Bool) (sigopsOf : Entry → Nat) :
    Nat → List Entry → IterState → List Entry × IterState
  | 0, _, st => ([], st)
  | fuel + 1, entries, st =>
    match fittingNext isFinal sigopsOf entries st with
    | (some e, rest, st2) =>
      let pr := fittingRun isFinal sigopsOf fuel rest st2
      (e :: pr.1, pr.2)
    | (none, _, st2) => ([], st2)

/-- C8 fixture: a transaction too large for the block (rejected with
`Ignore`) and a small follow-up transaction spending its output. -/
def c8e1 : Entry := ⟨101, 2000000, [1]⟩

def c8e2 : Entry := ⟨102, 100, [101]⟩

def c8IsFinal : Entry → Bool := fun _ => true

def c8Sigops : Entry → Nat := fun _ => 0

/-- C8: the combined policy verdict on the oversized transaction is
`Ignore`, yet the iterator's final ignored set stays empty and the
dependent transaction spending the ignored parent is still yielded into
the template — the `Ignore` arm never records the hash, so descendants of
size-rejected transactions are not skipped. -/
theorem C8_ignored_set_dead :
    (((initIterState 2000000 20000).block_size.decide c8e1.size).1.and
        (((initIterState 2000000 20000).sigops.decide (c8Sigops c8e1)).1) =
      NextStep.Ignore) ∧
    (fittingRun c8IsFinal c8Sigops 3 [c8e1, c8e2]
        (initIterState 2000000 20000)).1 = [c8e2] ∧
    (fittingRun c8IsFinal c8Sigops 3 [c8e1, c8e2]
        (initIterState 2000000 20000)).2.ignored = [] := by
  refine ⟨?_, ?_, ?_⟩ <;> decide
